import Mathlib

/-!
Verification of the Tic-Tac-Toe move-selection engine.

The C sources are shallowly embedded: the 3x3 char board becomes a
`List Char` of length 9 in row-major order, the two occupancy bitmasks
become `Nat`, scores become `Int`, and the model weights become `Rat`.
The recursive searches in the C code are embedded with an explicit fuel
argument that strictly decreases at each ply; the board has 9 cells, so
a fuel of 10 is beyond the deepest possible recursion and the wrappers
instantiate the fuel accordingly.  Randomness (the C `rand()` calls) is
embedded as an explicit stream of naturals, `List Nat`, consumed from
the front; functions that draw from it return the unconsumed remainder.
-/

/-- A move on the game board, as in `minimax.h` (`struct Move`).  The C
fields are `int`; the sentinel "no move" value is `{-1, -1}`. -/
structure Move where
  row : Int
  col : Int
deriving Repr, DecidableEq

/-- The eight winning line bitmasks from `minimax_utils.c` (`WIN_MASKS`):
three rows, three columns, two diagonals, one bit per cell `r*3+c`. -/
def WIN_MASKS : List Nat :=
  [ (1 <<< 0) ||| (1 <<< 1) ||| (1 <<< 2),
    (1 <<< 3) ||| (1 <<< 4) ||| (1 <<< 5),
    (1 <<< 6) ||| (1 <<< 7) ||| (1 <<< 8),
    (1 <<< 0) ||| (1 <<< 3) ||| (1 <<< 6),
    (1 <<< 1) ||| (1 <<< 4) ||| (1 <<< 7),
    (1 <<< 2) ||| (1 <<< 5) ||| (1 <<< 8),
    (1 <<< 0) ||| (1 <<< 4) ||| (1 <<< 8),
    (1 <<< 2) ||| (1 <<< 4) ||| (1 <<< 6) ]

/-- `isWinnerMask` from `minimax_utils.c`: the mask contains some
winning line, i.e. `(mask & w) == w` for one of the eight `WIN_MASKS`. -/
def isWinnerMask (mask : Nat) : Bool :=
  WIN_MASKS.any (fun w => mask &&& w == w)

/-- The fixed move ordering from `minimax_utils.c` (`MOVE_ORDER`):
center, then corners, then edges. -/
def MOVE_ORDER : List (Fin 9) := [4, 0, 2, 6, 8, 1, 3, 5, 7]

/-- Row-major iteration order over the nine cells (the order used by the
array-based benchmark search, which loops `i` then `j`). -/
def rowMajorOrder : List (Fin 9) := List.finRange 9

/-- `countBits` from `minimax_utils.c`, with fuel: number of set bits,
by repeated `mask & 1` and shift.  The mask halves at every step, so a
fuel of `mask` more than covers the loop. -/
def countBitsF (fuel mask : Nat) : Nat :=
  match fuel with
  | 0 => 0
  | fuel + 1 => if mask = 0 then 0 else (mask &&& 1) + countBitsF fuel (mask / 2)

/-- `countBits` from `minimax_utils.c` at sufficient fuel. -/
def countBits (mask : Nat) : Nat := countBitsF mask mask

/-- `boardToMasks` from `minimax_utils.c`: scan the board in row-major
order; a cell holding `X` sets bit `r*3+c` of the first mask, a cell
holding `O` sets it in the second, anything else sets nothing. -/
def boardToMasks (board : List Char) : Nat × Nat :=
  (List.range 9).foldl
    (fun m idx =>
      let ch := board.getD idx ' '
      if ch = 'X' then (m.1 ||| (1 <<< idx), m.2)
      else if ch = 'O' then (m.1, m.2 ||| (1 <<< idx))
      else m)
    (0, 0)

/-- `getPlayerMasks` from `minimax_utils.c`: decide which mask is the
side to move.  On a completely empty board the supplied `aiSymbol`
decides; otherwise the side with fewer-or-equal pieces (`X` on ties)
moves next.  Returns `(aiMask, oppMask)`. -/
def getPlayerMasks (maskX maskO : Nat) (aiSymbol : Char) : Nat × Nat :=
  let countX := countBits maskX
  let countO := countBits maskO
  if countX = 0 ∧ countO = 0 then
    if aiSymbol = 'X' then (maskX, maskO) else (maskO, maskX)
  else
    if countX ≤ countO then (maskX, maskO) else (maskO, maskX)

/-- Number of cells among the nine board positions that are free in the
occupancy mask `occ`.  Each recursive ply of the searches sets one more
of these bits, so this bounds the recursion depth. -/
def freeCount (occ : Nat) : Nat :=
  (List.range 9).countP (fun i => occ &&& (1 <<< i) == 0)

/-- One loop of the alpha-beta searches over a list of candidate cells
(`minimax_masks` in `Minimax.c` and `PERFECT_minimax.c` share this loop
verbatim).  `child` evaluates a successor position; the running `best`,
`alpha`/`beta` updates and the cutoffs follow the C loop body.  Occupied
cells are skipped. -/
def abLoopF (child : Nat → Nat → Int → Int → Bool → Int)
    (playerMask oppMask : Nat) (alpha beta : Int) (isMax : Bool)
    (moves : List (Fin 9)) (best : Int) : Int :=
  match moves with
  | [] => best
  | pos :: rest =>
    let bit := 1 <<< (pos : Nat)
    if (playerMask ||| oppMask) &&& bit = 0 then
      if isMax then
        let val := child (playerMask ||| bit) oppMask alpha beta false
        let best1 := if val > best then val else best
        let alpha1 := if val > alpha then val else alpha
        if alpha1 ≥ beta then best1
        else abLoopF child playerMask oppMask alpha1 beta isMax rest best1
      else
        let val := child playerMask (oppMask ||| bit) alpha beta true
        let best1 := if val < best then val else best
        let beta1 := if val < beta then val else beta
        if alpha ≥ beta1 then best1
        else abLoopF child playerMask oppMask alpha beta1 isMax rest best1
    else abLoopF child playerMask oppMask alpha beta isMax rest best

/-- The core bitboard alpha-beta minimax of `Minimax.c`
(`minimax_masks`), parameterized by the iteration order and by fuel.
Terminal checks in source order: own win (`10 - depth`), opponent win
(`-10 + depth`), full board (`0`); note this variant has no
`depth == 9` check.  Recursion depth is bounded by the nine cells, so
any fuel above 9 computes the C function. -/
def abSearchF (order : List (Fin 9)) (fuel : Nat) (playerMask oppMask : Nat)
    (depth : Nat) (alpha beta : Int) (isMax : Bool) : Int :=
  match fuel with
  | 0 => 0
  | fuel + 1 =>
    if isWinnerMask playerMask then 10 - (depth : Int)
    else if isWinnerMask oppMask then -10 + (depth : Int)
    else if playerMask ||| oppMask = 0x1FF then 0
    else
      abLoopF (fun p o a b mm => abSearchF order fuel p o (depth + 1) a b mm)
        playerMask oppMask alpha beta isMax order (if isMax then -1000 else 1000)

/-- `minimax_masks` from `Minimax.c`: the alpha-beta bitboard search
with the fixed `MOVE_ORDER` (center, corners, edges). -/
def minimax_masks (playerMask oppMask : Nat) (depth : Nat)
    (alpha beta : Int) (isMax : Bool) : Int :=
  abSearchF MOVE_ORDER 10 playerMask oppMask depth alpha beta isMax

/-- One loop of the no-pruning searches (`minimax_masks_no_pruning` in
`benchmark_algorithms.c`): same iteration, no alpha/beta updates and no
cutoff. -/
def npLoopF (child : Nat → Nat → Bool → Int)
    (playerMask oppMask : Nat) (isMax : Bool)
    (moves : List (Fin 9)) (best : Int) : Int :=
  match moves with
  | [] => best
  | pos :: rest =>
    let bit := 1 <<< (pos : Nat)
    if (playerMask ||| oppMask) &&& bit = 0 then
      if isMax then
        let val := child (playerMask ||| bit) oppMask false
        let best1 := if val > best then val else best
        npLoopF child playerMask oppMask isMax rest best1
      else
        let val := child playerMask (oppMask ||| bit) true
        let best1 := if val < best then val else best
        npLoopF child playerMask oppMask isMax rest best1
    else npLoopF child playerMask oppMask isMax rest best

/-- The no-pruning bitboard minimax of `benchmark_algorithms.c`,
parameterized by iteration order and fuel; terminal checks identical to
`minimax_masks`. -/
def npSearchF (order : List (Fin 9)) (fuel : Nat) (playerMask oppMask : Nat)
    (depth : Nat) (isMax : Bool) : Int :=
  match fuel with
  | 0 => 0
  | fuel + 1 =>
    if isWinnerMask playerMask then 10 - (depth : Int)
    else if isWinnerMask oppMask then -10 + (depth : Int)
    else if playerMask ||| oppMask = 0x1FF then 0
    else
      npLoopF (fun p o mm => npSearchF order fuel p o (depth + 1) mm)
        playerMask oppMask isMax order (if isMax then -1000 else 1000)

/-- `minimax_masks_no_pruning` from `benchmark_algorithms.c`: plain
minimax over the bitboards, iterating in `MOVE_ORDER`. -/
def minimax_masks_no_pruning (playerMask oppMask : Nat) (depth : Nat)
    (isMax : Bool) : Int :=
  npSearchF MOVE_ORDER 10 playerMask oppMask depth isMax

namespace PERFECT

/-- `minimax_masks` from `PERFECT_minimax.c`: identical to the
`Minimax.c` search except that its draw check also fires at
`depth == 9` (`(playerMask | oppMask) == 0x1FF || depth == 9`). -/
def minimax_masksF (fuel : Nat) (playerMask oppMask : Nat) (depth : Nat)
    (alpha beta : Int) (isMax : Bool) : Int :=
  match fuel with
  | 0 => 0
  | fuel + 1 =>
    if isWinnerMask playerMask then 10 - (depth : Int)
    else if isWinnerMask oppMask then -10 + (depth : Int)
    else if playerMask ||| oppMask = 0x1FF ∨ depth = 9 then 0
    else
      abLoopF (fun p o a b mm => minimax_masksF fuel p o (depth + 1) a b mm)
        playerMask oppMask alpha beta isMax MOVE_ORDER
        (if isMax then -1000 else 1000)

/-- The `PERFECT_minimax.c` search at full fuel. -/
def minimax_masks (playerMask oppMask : Nat) (depth : Nat)
    (alpha beta : Int) (isMax : Bool) : Int :=
  minimax_masksF 10 playerMask oppMask depth alpha beta isMax

end PERFECT

/-- The ascending list of empty cell indices (`emptyCells` in the C
sources: a loop over `i = 0..8` collecting free bits). -/
def emptyCellsList (occupied : Nat) : List Nat :=
  (List.range 9).filter (fun i => occupied &&& (1 <<< i) == 0)

/-- The candidate-collection loop of `findBestMoveMinimax`
(`Minimax.c`): evaluate every free cell in `MOVE_ORDER` with the
alpha-beta search at depth 1 and full window; a strictly better score
resets the candidate list, an equal score appends to it. -/
def candLoop (aiMask oppMask : Nat) (moves : List (Fin 9))
    (bestVal : Int) (cands : List Move) : Int × List Move :=
  match moves with
  | [] => (bestVal, cands)
  | pos :: rest =>
    let bit := 1 <<< (pos : Nat)
    if (aiMask ||| oppMask) &&& bit = 0 then
      let moveVal := minimax_masks (aiMask ||| bit) oppMask 1 (-1000) 1000 false
      if moveVal > bestVal then
        candLoop aiMask oppMask rest moveVal [⟨(pos : Nat) / 3, (pos : Nat) % 3⟩]
      else if moveVal = bestVal then
        candLoop aiMask oppMask rest bestVal
          (cands ++ [⟨(pos : Nat) / 3, (pos : Nat) % 3⟩])
      else candLoop aiMask oppMask rest bestVal cands
    else candLoop aiMask oppMask rest bestVal cands

/-- The tail of `findBestMoveMinimax` after the error-rate gate: collect
the equally-best candidates and pick one with `rand() % candidateCount`
(one draw from the stream); with no candidates the sentinel survives. -/
def pickBestCandidate (aiMask oppMask : Nat) (rng : List Nat) :
    Move × List Nat :=
  let cands := (candLoop aiMask oppMask MOVE_ORDER (-1000) []).2
  if cands.length > 0 then
    (cands.getD (rng.headD 0 % cands.length) ⟨-1, -1⟩, rng.tail)
  else (⟨-1, -1⟩, rng)

/-- `findBestMoveMinimax` from `Minimax.c`.  The board is encoded to
masks, the mover is inferred (`getPlayerMasks`), and with no empty cell
the sentinel `{-1,-1}` is returned.  With `errorRate > 0` one draw
`rand() % 100` gates the forced-mistake path, which returns a uniformly
drawn empty cell; otherwise the candidate search runs.  The random
stream is explicit and the unconsumed remainder is returned. -/
def findBestMoveMinimax (board : List Char) (aiSymbol : Char)
    (errorRate : Int) (rng : List Nat) : Move × List Nat :=
  let masks := boardToMasks board
  let pm := getPlayerMasks masks.1 masks.2 aiSymbol
  let aiMask := pm.1
  let oppMask := pm.2
  let occupied := aiMask ||| oppMask
  let emptyCells := emptyCellsList occupied
  if emptyCells.length = 0 then (⟨-1, -1⟩, rng)
  else if errorRate > 0 then
    let roll := rng.headD 0 % 100
    let rng1 := rng.tail
    if (roll : Int) < errorRate then
      let pos := emptyCells.getD (rng1.headD 0 % emptyCells.length) 0
      (⟨pos / 3, pos % 3⟩, rng1.tail)
    else pickBestCandidate aiMask oppMask rng1
  else pickBestCandidate aiMask oppMask rng

/-- The top-level move loop of `findBestMovePerfect`
(`PERFECT_minimax.c`): iterate `MOVE_ORDER`, keep the first strictly
best scoring move (no candidate list, no randomness). -/
def perfectLoop (aiMask oppMask : Nat) (moves : List (Fin 9))
    (bestVal : Int) (bestMove : Move) : Move :=
  match moves with
  | [] => bestMove
  | pos :: rest =>
    let bit := 1 <<< (pos : Nat)
    if (aiMask ||| oppMask) &&& bit = 0 then
      let moveVal :=
        PERFECT.minimax_masks (aiMask ||| bit) oppMask 1 (-1000) 1000 false
      if moveVal > bestVal then
        perfectLoop aiMask oppMask rest moveVal
          ⟨(pos : Nat) / 3, (pos : Nat) % 3⟩
      else perfectLoop aiMask oppMask rest bestVal bestMove
    else perfectLoop aiMask oppMask rest bestVal bestMove

/-- `findBestMovePerfect` from `PERFECT_minimax.c`.  Its inline
turn-inference code is byte-for-byte the body of `getPlayerMasks`, so
the embedding reuses that definition. -/
def findBestMovePerfect (board : List Char) (aiSymbol : Char) : Move :=
  let masks := boardToMasks board
  let pm := getPlayerMasks masks.1 masks.2 aiSymbol
  perfectLoop pm.1 pm.2 MOVE_ORDER (-1000) ⟨-1, -1⟩

/-- The pre-trained logistic-regression weights from `model_minimax.c`
(`LR_WEIGHTS`), one per cell in row-major order.  The C values are
double literals; they are embedded as exact rationals. -/
def LR_WEIGHTS : List Rat :=
  [ 3.928391392624212,
    3.6032407817955696,
    4.011058129716569,
    3.6831967066011444,
    4.313335296889612,
    3.6169667100902494,
    3.9842838685550195,
    3.669842436819702,
    3.984526284468059 ]

/-- The model bias term from `model_minimax.c` (`LR_BIAS`). -/
def LR_BIAS : Rat := -1.6450287057758302

/-- `evaluateBoardLogistic` from `model_minimax.c`: accumulate
`feat * weight` over the nine cells in row-major order, where the
feature is `+1` for a cell holding `X`, `-1` for `O` and `0` otherwise,
then add the bias. -/
def evaluateBoardLogistic (board : List Char) : Rat :=
  ((List.range 9).foldl
    (fun val idx =>
      let feat : Rat :=
        if board.getD idx ' ' = 'X' then 1
        else if board.getD idx ' ' = 'O' then -1
        else 0
      val + feat * LR_WEIGHTS.getD idx 0)
    0) + LR_BIAS

/-- The cell loop of `findBestMoveModel` (`model_minimax.c`): for every
empty cell in row-major order, place `'X'`, score the board with the
model, undo the placement, and keep the first strictly best move.  The
threaded board is returned so the undo of the in-place mutation is part
of the embedded state. -/
def modelLoop (cells : List Nat) (board : List Char)
    (bestVal : Rat) (bestMove : Move) : Move × List Char :=
  match cells with
  | [] => (bestMove, board)
  | idx :: rest =>
    if board.getD idx ' ' = ' ' then
      let b1 := board.set idx 'X'
      let moveVal := evaluateBoardLogistic b1
      let b2 := b1.set idx ' '
      if moveVal > bestVal then
        modelLoop rest b2 moveVal ⟨idx / 3, idx % 3⟩
      else modelLoop rest b2 bestVal bestMove
    else modelLoop rest board bestVal bestMove

/-- `findBestMoveModel` from `model_minimax.c`: greedy one-ply search
with the logistic model, always simulating the `'X'` symbol.  Returns
the chosen move together with the final state of the (mutated and
restored) board array. -/
def findBestMoveModel (board : List Char) : Move × List Char :=
  modelLoop (List.range 9) board (-1000) ⟨-1, -1⟩

/-- One element swap on a list, as the Fisher-Yates body in
`IMPERFECT_minimax.c` (`tmp = a[i]; a[i] = a[j]; a[j] = tmp`). -/
def listSwap (l : List Nat) (i j : Nat) : List Nat :=
  (l.set i (l.getD j 0)).set j (l.getD i 0)

/-- The Fisher-Yates loop of `IMPERFECT_minimax.c`: for `i` from
`count-1` down to `1`, draw `j = rand() % (i+1)` and swap. -/
def shuffleGo (l : List Nat) (i : Nat) (rng : List Nat) :
    List Nat × List Nat :=
  match i with
  | 0 => (l, rng)
  | i + 1 =>
    let j := rng.headD 0 % (i + 2)
    shuffleGo (listSwap l (i + 1) j) i rng.tail

/-- Shuffle a whole list (the C loops start at `count - 1`). -/
def shuffle (l : List Nat) (rng : List Nat) : List Nat × List Nat :=
  shuffleGo l (l.length - 1) rng

/-- The move loop of the imperfect search: iterate the shuffled free
cells with alpha-beta updates and cutoffs, threading the random
stream through the child evaluations. -/
def impLoopF (child : Nat → Nat → Int → Int → Bool → List Nat → Int × List Nat)
    (playerMask oppMask : Nat) (alpha beta : Int) (isMax : Bool)
    (moves : List Nat) (best : Int) (rng : List Nat) : Int × List Nat :=
  match moves with
  | [] => (best, rng)
  | pos :: rest =>
    let bit := 1 <<< pos
    if isMax then
      let r := child (playerMask ||| bit) oppMask alpha beta false rng
      let best1 := if r.1 > best then r.1 else best
      let alpha1 := if r.1 > alpha then r.1 else alpha
      if alpha1 ≥ beta then (best1, r.2)
      else impLoopF child playerMask oppMask alpha1 beta isMax rest best1 r.2
    else
      let r := child playerMask (oppMask ||| bit) alpha beta true rng
      let best1 := if r.1 < best then r.1 else best
      let beta1 := if r.1 < beta then r.1 else beta
      if alpha ≥ beta1 then (best1, r.2)
      else impLoopF child playerMask oppMask alpha beta1 isMax rest best1 r.2

/-- `minimax_masks` from `IMPERFECT_minimax.c`: depth-limited (the draw
check also fires at `depth >= 5`) alpha-beta search whose free-cell
list is freshly shuffled at every node.  The depth cutoff bounds the
recursion, so any fuel above 5 computes the C function. -/
def impSearchF (fuel : Nat) (playerMask oppMask : Nat) (depth : Nat)
    (alpha beta : Int) (isMax : Bool) (rng : List Nat) : Int × List Nat :=
  match fuel with
  | 0 => (0, rng)
  | fuel + 1 =>
    if isWinnerMask playerMask then (10 - (depth : Int), rng)
    else if isWinnerMask oppMask then (-10 + (depth : Int), rng)
    else if playerMask ||| oppMask = 0x1FF ∨ 5 ≤ depth then (0, rng)
    else
      let movesInit :=
        (List.range 9).filter
          (fun i => (playerMask ||| oppMask) &&& (1 <<< i) == 0)
      let sh := shuffle movesInit rng
      impLoopF (fun p o a b mm r => impSearchF fuel p o (depth + 1) a b mm r)
        playerMask oppMask alpha beta isMax sh.1
        (if isMax then -1000 else 1000) sh.2

/-- The top-level loop of `findBestMoveImperfect`: score every cell of
the shuffled empty-cell list at depth 1 with the depth-limited search,
keeping the first strictly best move. -/
def impTopLoop (aiMask oppMask : Nat) (cells : List Nat)
    (bestVal : Int) (bestMove : Move) (rng : List Nat) : Move × List Nat :=
  match cells with
  | [] => (bestMove, rng)
  | pos :: rest =>
    let r := impSearchF 6 (aiMask ||| (1 <<< pos)) oppMask 1 (-1000) 1000
      false rng
    if r.1 > bestVal then
      impTopLoop aiMask oppMask rest r.1 ⟨pos / 3, pos % 3⟩ r.2
    else impTopLoop aiMask oppMask rest bestVal bestMove r.2

/-- `findBestMoveImperfect` from `IMPERFECT_minimax.c`.  Its inline
turn-inference code is again the body of `getPlayerMasks`.  With no
empty cell the sentinel is returned; otherwise the empty cells are
shuffled and each is evaluated with the depth-limited search. -/
def findBestMoveImperfect (board : List Char) (aiSymbol : Char)
    (rng : List Nat) : Move × List Nat :=
  let masks := boardToMasks board
  let pm := getPlayerMasks masks.1 masks.2 aiSymbol
  let aiMask := pm.1
  let oppMask := pm.2
  let occupied := aiMask ||| oppMask
  let emptyCells := emptyCellsList occupied
  if emptyCells.length = 0 then (⟨-1, -1⟩, rng)
  else
    let sh := shuffle emptyCells rng
    impTopLoop aiMask oppMask sh.1 (-1000) ⟨-1, -1⟩ sh.2

/-- `checkWin` from `benchmark_algorithms.c`: array-based win test over
the 3 rows, 3 columns and 2 diagonals, comparing cells to `player`. -/
def checkWin (board : List Char) (player : Char) : Bool :=
  (board.getD 0 ' ' == player && board.getD 1 ' ' == player
      && board.getD 2 ' ' == player)
  || (board.getD 0 ' ' == player && board.getD 3 ' ' == player
      && board.getD 6 ' ' == player)
  || (board.getD 3 ' ' == player && board.getD 4 ' ' == player
      && board.getD 5 ' ' == player)
  || (board.getD 1 ' ' == player && board.getD 4 ' ' == player
      && board.getD 7 ' ' == player)
  || (board.getD 6 ' ' == player && board.getD 7 ' ' == player
      && board.getD 8 ' ' == player)
  || (board.getD 2 ' ' == player && board.getD 5 ' ' == player
      && board.getD 8 ' ' == player)
  || (board.getD 0 ' ' == player && board.getD 4 ' ' == player
      && board.getD 8 ' ' == player)
  || (board.getD 2 ' ' == player && board.getD 4 ' ' == player
      && board.getD 6 ' ' == player)

/-- `isBoardFull` from `benchmark_algorithms.c`: no cell holds `' '`. -/
def isBoardFull (board : List Char) : Bool :=
  !((List.range 9).any (fun i => board.getD i ' ' == ' '))

/-- The cell loop of `minimax_array` (`benchmark_algorithms.c`): the two
nested row-major loops with their double `break` behave as one pass
over the nine cells in row-major order with a single cutoff, which is
how they are embedded.  The maximizer places `aiSymbol`, the minimizer
`humanSymbol`; the move is undone in C, so the child receives the
modified board and the current board is reused afterwards. -/
def maLoopF (child : List Char → Int → Int → Bool → Int)
    (board : List Char) (alpha beta : Int) (isMax : Bool)
    (aiSymbol humanSymbol : Char) (cells : List (Fin 9)) (best : Int) : Int :=
  match cells with
  | [] => best
  | idx :: rest =>
    if board.getD (idx : Nat) ' ' = ' ' then
      if isMax then
        let val := child (board.set (idx : Nat) aiSymbol) alpha beta false
        let best1 := if val > best then val else best
        let alpha1 := if val > alpha then val else alpha
        if beta ≤ alpha1 then best1
        else maLoopF child board alpha1 beta isMax aiSymbol humanSymbol rest best1
      else
        let val := child (board.set (idx : Nat) humanSymbol) alpha beta true
        let best1 := if val < best then val else best
        let beta1 := if val < beta then val else beta
        if beta1 ≤ alpha then best1
        else maLoopF child board alpha beta1 isMax aiSymbol humanSymbol rest best1
    else maLoopF child board alpha beta isMax aiSymbol humanSymbol rest best

/-- `minimax_array` from `benchmark_algorithms.c`, with fuel: the
array-based alpha-beta search.  Terminal checks in source order: AI win
(`10 - depth`), human win (`depth - 10`), full board (`0`). -/
def minimax_arrayF (fuel : Nat) (board : List Char) (depth : Nat)
    (isMax : Bool) (alpha beta : Int) (aiSymbol humanSymbol : Char) : Int :=
  match fuel with
  | 0 => 0
  | fuel + 1 =>
    if checkWin board aiSymbol then 10 - (depth : Int)
    else if checkWin board humanSymbol then (depth : Int) - 10
    else if isBoardFull board then 0
    else
      maLoopF
        (fun b a bb mm => minimax_arrayF fuel b (depth + 1) mm a bb
          aiSymbol humanSymbol)
        board alpha beta isMax aiSymbol humanSymbol rowMajorOrder
        (if isMax then -1000 else 1000)

/-- `minimax_array` at full fuel (for the well-formed boards of the
benchmark, whose game symbols are `'X'`/`'O'`, the recursion depth is
bounded by the at most nine empty cells). -/
def minimax_array (board : List Char) (depth : Nat) (isMax : Bool)
    (alpha beta : Int) (aiSymbol humanSymbol : Char) : Int :=
  minimax_arrayF 10 board depth isMax alpha beta aiSymbol humanSymbol

/-- Clamp an integer into the closed window given by `alpha` and
`beta`.  Fail-soft alpha-beta results agree with the unpruned search
after this clamping. -/
def clampI (alpha beta x : Int) : Int := max alpha (min beta x)

/-- The cell index the Deterministic-optimal engine plays for tie-break
draw `r`: the move `bestCandidates[r % candidateCount]` selected by
`findBestMoveMinimax` with `errorRate = 0`, as a cell index. -/
def engineMovePos (aiMask oppMask : Nat) (r : Nat) : Nat :=
  let cands := (candLoop aiMask oppMask MOVE_ORDER (-1000) []).2
  let mv := cands.getD (r % cands.length) ⟨-1, -1⟩
  (mv.row * 3 + mv.col).toNat

/-- Safety of the Deterministic-optimal engine from a mask position, as
a game over at most `fuel` further plies: at every reached state the
opponent holds no winning line; the game stops when the engine has won
or the board is full; on the engine's turns the played cell is the one
`findBestMoveMinimax` (error rate 0) returns for some tie-break draw
`r`, and on the opponent's turns every free cell is considered. -/
def engineSafeM : Nat → Nat → Nat → Bool → Prop
  | 0, _, opp, _ => isWinnerMask opp = false
  | fuel + 1, ai, opp, engineTurn =>
    isWinnerMask opp = false ∧
    (isWinnerMask ai = true ∨ ai ||| opp = 511 ∨
      (if engineTurn then
        ∀ r : Nat,
          engineSafeM fuel (ai ||| (1 <<< engineMovePos ai opp r)) opp false
      else
        ∀ pos : Fin 9, (ai ||| opp) &&& (1 <<< (pos : Nat)) = 0 →
          engineSafeM fuel ai (opp ||| (1 <<< (pos : Nat))) true))

/-- Modelled from the spec (section 4.5): the Linear Evaluator formula
with the `+1` feature on the mover's symbol and `-1` on the opponent's
symbol, as the claim states it.  Used to compare against the
implementation, which fixes the `+1` feature on `'X'`. -/
def specLinearScore (board : List Char) (moverSymbol : Char) : Rat :=
  let oppSymbol := if moverSymbol = 'X' then 'O' else 'X'
  (∑ i ∈ Finset.range 9,
    (if board.getD i ' ' = moverSymbol then (1 : Rat)
     else if board.getD i ' ' = oppSymbol then -1 else 0)
      * LR_WEIGHTS.getD i 0) + LR_BIAS

theorem countP_lt_of_witness {α : Type} (l : List α) (p q : α → Bool)
    (hmono : ∀ x ∈ l, p x = true → q x = true)
    (x : α) (hx : x ∈ l) (hqx : q x = true) (hpx : p x = false) :
    l.countP p < l.countP q := by
  induction l with
  | nil => cases hx
  | cons a t ih =>
    have hmt : ∀ y ∈ t, p y = true → q y = true :=
      fun y hy => hmono y (List.mem_cons_of_mem _ hy)
    rcases List.mem_cons.mp hx with rfl | hxt
    · have h1 : t.countP p ≤ t.countP q := List.countP_mono_left hmt
      rw [List.countP_cons, List.countP_cons, hqx, hpx]
      simp only [Bool.false_eq_true, if_true, if_false]
      omega
    · have h2 := ih hmt hxt
      rw [List.countP_cons, List.countP_cons]
      cases hpa : p a
      · simp only [Bool.false_eq_true, if_false]
        omega
      · rw [hmono a (List.mem_cons_self a t) hpa]
        simp only [if_true]
        omega

theorem and_shift_eq_zero_iff (n i : Nat) :
    n &&& (1 <<< i) = 0 ↔ n.testBit i = false := by
  rw [Nat.one_shiftLeft, Nat.and_two_pow]
  cases h : n.testBit i
  · simp
  · simp only [Bool.toNat_true, one_mul]
    constructor
    · intro hz
      exact absurd hz (pow_ne_zero i (by omega))
    · intro hz; cases hz

theorem freeCount_or_lt (occ pos : Nat) (hp : pos < 9)
    (hfree : occ &&& (1 <<< pos) = 0) :
    freeCount (occ ||| (1 <<< pos)) < freeCount occ := by
  unfold freeCount
  apply countP_lt_of_witness _ _ _ ?hmono pos ?hmem ?hq ?hp
  case hmono =>
    intro i _ hpi
    rw [beq_iff_eq] at hpi ⊢
    rw [and_shift_eq_zero_iff] at hpi ⊢
    rw [Nat.testBit_or] at hpi
    exact (Bool.or_eq_false_iff.mp hpi).1
  case hmem => exact List.mem_range.mpr hp
  case hq => exact beq_iff_eq.mpr hfree
  case hp =>
    rw [Bool.eq_false_iff, ne_eq, beq_iff_eq, and_shift_eq_zero_iff]
    rw [Nat.testBit_or, Nat.one_shiftLeft, Nat.testBit_two_pow_self]
    simp

theorem freeCount_le_nine (occ : Nat) : freeCount occ ≤ 9 := by
  unfold freeCount
  calc (List.range 9).countP _ ≤ (List.range 9).length := List.countP_le_length _
  _ = 9 := List.length_range 9

theorem if_gt_eq_max (a b : Int) : (if b > a then b else a) = max a b := by omega

theorem if_lt_eq_min (a b : Int) : (if b < a then b else a) = min a b := by omega

theorem clampI_max (a b x y : Int) :
    clampI a b (max x y) = max (clampI a b x) (clampI a b y) := by
  unfold clampI
  simp only [max_def, min_def]
  split_ifs <;> omega

theorem clampI_min (a b x y : Int) :
    clampI a b (min x y) = min (clampI a b x) (clampI a b y) := by
  unfold clampI
  simp only [max_def, min_def]
  split_ifs <;> omega

theorem clampI_eq_top_iff (a b x : Int) (h : a < b) :
    clampI a b x = b ↔ b ≤ x := by
  unfold clampI
  simp only [max_def, min_def]
  split_ifs <;> omega

theorem clampI_eq_bot_iff (a b x : Int) (h : a < b) :
    clampI a b x = a ↔ x ≤ a := by
  unfold clampI
  simp only [max_def, min_def]
  split_ifs <;> omega

theorem clampI_ge_bot (a b x : Int) : a ≤ clampI a b x := le_max_left _ _

theorem clampI_eq_mid (a b x : Int) (h1 : a < x) (h2 : x < b) :
    clampI a b x = x := by
  unfold clampI
  simp only [max_def, min_def]
  split_ifs <;> omega

theorem clampI_mid_inj (a b x y : Int) (h1 : a < y) (h2 : y < b)
    (h : clampI a b x = y) : x = y := by
  unfold clampI at h
  simp only [max_def, min_def] at h
  split_ifs at h <;> omega

theorem clampI_le_top (a b x : Int) (h : a < b) : clampI a b x ≤ b := by
  unfold clampI
  simp only [max_def, min_def]
  split_ifs <;> omega

theorem clampI_raise (a a1 b x : Int) (h : a ≤ a1) :
    clampI a1 b x = max a1 (clampI a b x) := by
  unfold clampI
  simp only [max_def, min_def]
  split_ifs <;> omega

theorem clampI_cut (a b1 b x : Int) (h1 : a ≤ b1) (h : b1 ≤ b) :
    clampI a b1 x = min b1 (clampI a b x) := by
  unfold clampI
  simp only [max_def, min_def]
  split_ifs <;> omega

theorem clampI_lower_irrel (a v b x : Int) (h1 : a ≤ v) (h2 : v < b)
    (h3 : v ≤ x) : clampI a b x = clampI v b x := by
  unfold clampI
  simp only [max_def, min_def]
  split_ifs <;> omega

theorem clampI_upper_irrel (a v b x : Int) (h1 : a < v) (h2 : v ≤ b)
    (h3 : x ≤ v) : clampI a b x = clampI a v x := by
  unfold clampI
  simp only [max_def, min_def]
  split_ifs <;> omega

theorem abLoopF_nil (child) (p o : Nat) (a b : Int) (m : Bool) (best : Int) :
    abLoopF child p o a b m [] best = best := rfl

theorem abLoopF_cons_skip (child) (p o : Nat) (a b : Int) (m : Bool)
    (pos : Fin 9) (rest : List (Fin 9)) (best : Int)
    (hocc : (p ||| o) &&& (1 <<< (pos : Nat)) ≠ 0) :
    abLoopF child p o a b m (pos :: rest) best =
      abLoopF child p o a b m rest best := by
  unfold abLoopF
  simp only [hocc, if_neg, if_false]
  split <;> rfl

theorem abLoopF_cons_max (child) (p o : Nat) (a b : Int)
    (pos : Fin 9) (rest : List (Fin 9)) (best : Int)
    (hfree : (p ||| o) &&& (1 <<< (pos : Nat)) = 0) :
    abLoopF child p o a b true (pos :: rest) best =
      (if max a (child (p ||| (1 <<< (pos : Nat))) o a b false) ≥ b then
        max best (child (p ||| (1 <<< (pos : Nat))) o a b false)
      else
        abLoopF child p o
          (max a (child (p ||| (1 <<< (pos : Nat))) o a b false)) b true rest
          (max best (child (p ||| (1 <<< (pos : Nat))) o a b false))) := by
  conv_lhs => unfold abLoopF
  simp only [hfree, if_pos, if_true, if_gt_eq_max]

theorem abLoopF_cons_min (child) (p o : Nat) (a b : Int)
    (pos : Fin 9) (rest : List (Fin 9)) (best : Int)
    (hfree : (p ||| o) &&& (1 <<< (pos : Nat)) = 0) :
    abLoopF child p o a b false (pos :: rest) best =
      (if a ≥ min b (child p (o ||| (1 <<< (pos : Nat))) a b true) then
        min best (child p (o ||| (1 <<< (pos : Nat))) a b true)
      else
        abLoopF child p o a
          (min b (child p (o ||| (1 <<< (pos : Nat))) a b true)) false rest
          (min best (child p (o ||| (1 <<< (pos : Nat))) a b true))) := by
  conv_lhs => unfold abLoopF
  simp only [hfree, if_pos, Bool.false_eq_true, if_false, if_lt_eq_min]

theorem npLoopF_nil (child) (p o : Nat) (m : Bool) (best : Int) :
    npLoopF child p o m [] best = best := rfl

theorem npLoopF_cons_skip (child) (p o : Nat) (m : Bool)
    (pos : Fin 9) (rest : List (Fin 9)) (best : Int)
    (hocc : (p ||| o) &&& (1 <<< (pos : Nat)) ≠ 0) :
    npLoopF child p o m (pos :: rest) best = npLoopF child p o m rest best := by
  unfold npLoopF
  simp only [hocc, if_neg, if_false]
  split <;> rfl

theorem npLoopF_cons_max (child) (p o : Nat)
    (pos : Fin 9) (rest : List (Fin 9)) (best : Int)
    (hfree : (p ||| o) &&& (1 <<< (pos : Nat)) = 0) :
    npLoopF child p o true (pos :: rest) best =
      npLoopF child p o true rest
        (max best (child (p ||| (1 <<< (pos : Nat))) o false)) := by
  conv_lhs => unfold npLoopF
  simp only [hfree, if_pos, if_true, if_gt_eq_max]

theorem npLoopF_cons_min (child) (p o : Nat)
    (pos : Fin 9) (rest : List (Fin 9)) (best : Int)
    (hfree : (p ||| o) &&& (1 <<< (pos : Nat)) = 0) :
    npLoopF child p o false (pos :: rest) best =
      npLoopF child p o false rest
        (min best (child p (o ||| (1 <<< (pos : Nat))) true)) := by
  conv_lhs => unfold npLoopF
  simp only [hfree, if_pos, Bool.false_eq_true, if_false, if_lt_eq_min]

theorem npLoopF_ge (child) (p o : Nat) (moves : List (Fin 9)) :
    ∀ best : Int, best ≤ npLoopF child p o true moves best := by
  induction moves with
  | nil => intro best; simp [npLoopF_nil]
  | cons pos rest ih =>
    intro best
    by_cases hfree : (p ||| o) &&& (1 <<< (pos : Nat)) = 0
    · rw [npLoopF_cons_max child p o pos rest best hfree]
      exact le_trans (le_max_left _ _) (ih _)
    · rw [npLoopF_cons_skip child p o true pos rest best hfree]
      exact ih best

theorem npLoopF_le (child) (p o : Nat) (moves : List (Fin 9)) :
    ∀ best : Int, npLoopF child p o false moves best ≤ best := by
  induction moves with
  | nil => intro best; simp [npLoopF_nil]
  | cons pos rest ih =>
    intro best
    by_cases hfree : (p ||| o) &&& (1 <<< (pos : Nat)) = 0
    · rw [npLoopF_cons_min child p o pos rest best hfree]
      exact le_trans (ih _) (min_le_left _ _)
    · rw [npLoopF_cons_skip child p o false pos rest best hfree]
      exact ih best

theorem abLoopF_ge (child) (p o : Nat) (b : Int) (moves : List (Fin 9)) :
    ∀ a best : Int, best ≤ abLoopF child p o a b true moves best := by
  induction moves with
  | nil => intro a best; simp [abLoopF_nil]
  | cons pos rest ih =>
    intro a best
    by_cases hfree : (p ||| o) &&& (1 <<< (pos : Nat)) = 0
    · rw [abLoopF_cons_max child p o a b pos rest best hfree]
      split
      · exact le_max_left _ _
      · exact le_trans (le_max_left _ _) (ih _ _)
    · rw [abLoopF_cons_skip child p o a b true pos rest best hfree]
      exact ih a best

theorem abLoopF_le (child) (p o : Nat) (a : Int) (moves : List (Fin 9)) :
    ∀ b best : Int, abLoopF child p o a b false moves best ≤ best := by
  induction moves with
  | nil => intro b best; simp [abLoopF_nil]
  | cons pos rest ih =>
    intro b best
    by_cases hfree : (p ||| o) &&& (1 <<< (pos : Nat)) = 0
    · rw [abLoopF_cons_min child p o a b pos rest best hfree]
      split
      · exact min_le_left _ _
      · exact le_trans (ih _ _) (min_le_left _ _)
    · rw [abLoopF_cons_skip child p o a b false pos rest best hfree]
      exact ih b best

theorem abLoopF_clamp_max
    (childAB : Nat → Nat → Int → Int → Bool → Int)
    (childNP : Nat → Nat → Bool → Int)
    (hchild : ∀ p o a b mm, -1000 ≤ a → a < b → b ≤ 1000 →
      clampI a b (childAB p o a b mm) = clampI a b (childNP p o mm))
    (p o : Nat) (b : Int) (hb : b ≤ 1000) :
    ∀ (moves : List (Fin 9)) (a best bestN : Int), -1000 ≤ a → a < b →
      clampI a b best = clampI a b bestN →
      clampI a b (abLoopF childAB p o a b true moves best) =
        clampI a b (npLoopF childNP p o true moves bestN) := by
  intro moves
  induction moves with
  | nil => intro a best bestN _ _ hinv; simpa [abLoopF_nil, npLoopF_nil] using hinv
  | cons pos rest ih =>
    intro a best bestN ha hab hinv
    by_cases hfree : (p ||| o) &&& (1 <<< (pos : Nat)) = 0
    · rw [abLoopF_cons_max childAB p o a b pos rest best hfree,
        npLoopF_cons_max childNP p o pos rest bestN hfree]
      set val := childAB (p ||| (1 <<< (pos : Nat))) o a b false with hval
      set v := childNP (p ||| (1 <<< (pos : Nat))) o false with hv
      have hc : clampI a b val = clampI a b v := hchild _ _ a b false ha hab hb
      have hinv1 : clampI a b (max best val) = clampI a b (max bestN v) := by
        rw [clampI_max, clampI_max, hinv, hc]
      by_cases hcut : max a val ≥ b
      · rw [if_pos hcut]
        have hvb : b ≤ val := by omega
        have hcv : clampI a b val = b := (clampI_eq_top_iff a b val hab).mpr hvb
        have hvb2 : b ≤ v := (clampI_eq_top_iff a b v hab).mp (by rw [← hc, hcv])
        have h1 : clampI a b (max best val) = b := by
          rw [clampI_max, hcv]
          have := clampI_le_top a b best hab
          omega
        have h2 : b ≤ npLoopF childNP p o true rest (max bestN v) :=
          le_trans (le_trans hvb2 (le_max_right _ _)) (npLoopF_ge _ _ _ _ _)
        rw [h1, (clampI_eq_top_iff a b _ hab).mpr h2]
      · rw [if_neg hcut]
        by_cases hva : val ≤ a
        · have hmax : max a val = a := by omega
          rw [hmax]
          exact ih a (max best val) (max bestN v) ha hab hinv1
        · push_neg at hva
          have hmax : max a val = val := by omega
          have hvb : val < b := by omega
          have hveq : v = val :=
            clampI_mid_inj a b v val hva hvb (hc ▸ clampI_eq_mid a b val hva hvb)
          rw [hmax]
          have hinv2 : clampI val b (max best val) = clampI val b (max bestN v) := by
            rw [clampI_raise a val b _ (le_of_lt hva),
              clampI_raise a val b _ (le_of_lt hva), hinv1]
          have hmain := ih val (max best val) (max bestN v) (by omega) hvb hinv2
          have habge : val ≤ abLoopF childAB p o val b true rest (max best val) :=
            le_trans (le_max_right _ _) (abLoopF_ge _ _ _ _ _ _ _)
          have hnpge : val ≤ npLoopF childNP p o true rest (max bestN v) := by
            have : val ≤ max bestN v := by rw [hveq] at *; exact le_max_right _ _
            exact le_trans this (npLoopF_ge _ _ _ _ _)
          rw [clampI_lower_irrel a val b _ (le_of_lt hva) hvb habge,
            clampI_lower_irrel a val b _ (le_of_lt hva) hvb hnpge]
          exact hmain
    · rw [abLoopF_cons_skip childAB p o a b true pos rest best hfree,
        npLoopF_cons_skip childNP p o true pos rest bestN hfree]
      exact ih a best bestN ha hab hinv

theorem abLoopF_clamp_min
    (childAB : Nat → Nat → Int → Int → Bool → Int)
    (childNP : Nat → Nat → Bool → Int)
    (hchild : ∀ p o a b mm, -1000 ≤ a → a < b → b ≤ 1000 →
      clampI a b (childAB p o a b mm) = clampI a b (childNP p o mm))
    (p o : Nat) (a : Int) (ha : -1000 ≤ a) :
    ∀ (moves : List (Fin 9)) (b best bestN : Int), b ≤ 1000 → a < b →
      clampI a b best = clampI a b bestN →
      clampI a b (abLoopF childAB p o a b false moves best) =
        clampI a b (npLoopF childNP p o false moves bestN) := by
  intro moves
  induction moves with
  | nil => intro b best bestN _ _ hinv; simpa [abLoopF_nil, npLoopF_nil] using hinv
  | cons pos rest ih =>
    intro b best bestN hb hab hinv
    by_cases hfree : (p ||| o) &&& (1 <<< (pos : Nat)) = 0
    · rw [abLoopF_cons_min childAB p o a b pos rest best hfree,
        npLoopF_cons_min childNP p o pos rest bestN hfree]
      set val := childAB p (o ||| (1 <<< (pos : Nat))) a b true with hval
      set v := childNP p (o ||| (1 <<< (pos : Nat))) true with hv
      have hc : clampI a b val = clampI a b v := hchild _ _ a b true ha hab hb
      have hinv1 : clampI a b (min best val) = clampI a b (min bestN v) := by
        rw [clampI_min, clampI_min, hinv, hc]
      by_cases hcut : a ≥ min b val
      · rw [if_pos hcut]
        have hva : val ≤ a := by omega
        have hcv : clampI a b val = a := (clampI_eq_bot_iff a b val hab).mpr hva
        have hva2 : v ≤ a := (clampI_eq_bot_iff a b v hab).mp (by rw [← hc, hcv])
        have h1 : clampI a b (min best val) = a := by
          rw [clampI_min, hcv]
          have h := clampI_ge_bot a b best
          omega
        have h2 : npLoopF childNP p o false rest (min bestN v) ≤ a :=
          le_trans (npLoopF_le _ _ _ _ _) (le_trans (min_le_right _ _) hva2)
        rw [h1, (clampI_eq_bot_iff a b _ hab).mpr h2]
      · rw [if_neg hcut]
        by_cases hvb : b ≤ val
        · have hmin : min b val = b := by omega
          rw [hmin]
          exact ih b (min best val) (min bestN v) hb hab hinv1
        · push_neg at hvb
          have hmin : min b val = val := by omega
          have hva : a < val := by omega
          have hveq : v = val :=
            clampI_mid_inj a b v val hva hvb (hc ▸ clampI_eq_mid a b val hva hvb)
          rw [hmin]
          have hinv2 : clampI a val (min best val) = clampI a val (min bestN v) := by
            rw [clampI_cut a val b _ (le_of_lt hva) (le_of_lt hvb),
              clampI_cut a val b _ (le_of_lt hva) (le_of_lt hvb), hinv1]
          have hmain := ih val (min best val) (min bestN v) (by omega) hva hinv2
          have hable : abLoopF childAB p o a val false rest (min best val) ≤ val :=
            le_trans (abLoopF_le _ _ _ _ _ _ _) (min_le_right _ _)
          have hnple : npLoopF childNP p o false rest (min bestN v) ≤ val := by
            have : min bestN v ≤ val := by rw [hveq] at *; exact min_le_right _ _
            exact le_trans (npLoopF_le _ _ _ _ _) this
          rw [clampI_upper_irrel a val b _ hva (le_of_lt hvb) hable,
            clampI_upper_irrel a val b _ hva (le_of_lt hvb) hnple]
          exact hmain
    · rw [abLoopF_cons_skip childAB p o a b false pos rest best hfree,
        npLoopF_cons_skip childNP p o false pos rest bestN hfree]
      exact ih b best bestN hb hab hinv

theorem abSearchF_clamp (order : List (Fin 9)) (fuel : Nat) :
    ∀ (p o d : Nat) (a b : Int) (m : Bool), -1000 ≤ a → a < b → b ≤ 1000 →
      clampI a b (abSearchF order fuel p o d a b m) =
        clampI a b (npSearchF order fuel p o d m) := by
  induction fuel with
  | zero => intro p o d a b m _ _ _; rfl
  | succ fuel ih =>
    intro p o d a b m ha hab hb
    unfold abSearchF npSearchF
    by_cases hw1 : isWinnerMask p = true
    · simp [hw1]
    · simp only [Bool.not_eq_true] at hw1
      by_cases hw2 : isWinnerMask o = true
      · simp [hw1, hw2]
      · simp only [Bool.not_eq_true] at hw2
        by_cases hful : p ||| o = 0x1FF
        · simp [hw1, hw2, hful]
        · simp only [hw1, hw2, hful, Bool.false_eq_true, if_false]
          cases m with
          | true =>
            exact abLoopF_clamp_max _ _
              (fun p1 o1 a1 b1 mm ha1 hab1 hb1 => ih p1 o1 (d + 1) a1 b1 mm ha1 hab1 hb1)
              p o b hb order a (-1000) (-1000) ha hab rfl
          | false =>
            exact abLoopF_clamp_min _ _
              (fun p1 o1 a1 b1 mm ha1 hab1 hb1 => ih p1 o1 (d + 1) a1 b1 mm ha1 hab1 hb1)
              p o a ha order b 1000 1000 hb hab rfl

theorem npLoopF_max_lb_iff (child) (p o : Nat) (moves : List (Fin 9)) :
    ∀ (best t : Int), t ≤ npLoopF child p o true moves best ↔
      t ≤ best ∨ ∃ pos ∈ moves, (p ||| o) &&& (1 <<< (pos : Nat)) = 0 ∧
        t ≤ child (p ||| (1 <<< (pos : Nat))) o false := by
  induction moves with
  | nil => intro best t; simp [npLoopF_nil]
  | cons pos rest ih =>
    intro best t
    by_cases hfree : (p ||| o) &&& (1 <<< (pos : Nat)) = 0
    · rw [npLoopF_cons_max child p o pos rest best hfree, ih]
      constructor
      · rintro (h | ⟨q, hq, hfq, hcq⟩)
        · rcases le_max_iff.mp h with h | h
          · exact Or.inl h
          · exact Or.inr ⟨pos, List.mem_cons_self _ _, hfree, h⟩
        · exact Or.inr ⟨q, List.mem_cons_of_mem _ hq, hfq, hcq⟩
      · rintro (h | ⟨q, hq, hfq, hcq⟩)
        · exact Or.inl (le_max_of_le_left h)
        · rcases List.mem_cons.mp hq with rfl | hq2
          · exact Or.inl (le_max_of_le_right hcq)
          · exact Or.inr ⟨q, hq2, hfq, hcq⟩
    · rw [npLoopF_cons_skip child p o true pos rest best hfree, ih]
      constructor
      · rintro (h | ⟨q, hq, hfq, hcq⟩)
        · exact Or.inl h
        · exact Or.inr ⟨q, List.mem_cons_of_mem _ hq, hfq, hcq⟩
      · rintro (h | ⟨q, hq, hfq, hcq⟩)
        · exact Or.inl h
        · rcases List.mem_cons.mp hq with rfl | hq2
          · exact absurd hfq hfree
          · exact Or.inr ⟨q, hq2, hfq, hcq⟩

theorem npLoopF_max_ub_iff (child) (p o : Nat) (moves : List (Fin 9)) :
    ∀ (best t : Int), npLoopF child p o true moves best ≤ t ↔
      best ≤ t ∧ ∀ pos ∈ moves, (p ||| o) &&& (1 <<< (pos : Nat)) = 0 →
        child (p ||| (1 <<< (pos : Nat))) o false ≤ t := by
  induction moves with
  | nil => intro best t; simp [npLoopF_nil]
  | cons pos rest ih =>
    intro best t
    by_cases hfree : (p ||| o) &&& (1 <<< (pos : Nat)) = 0
    · rw [npLoopF_cons_max child p o pos rest best hfree, ih]
      constructor
      · rintro ⟨h1, h2⟩
        rcases max_le_iff.mp h1 with ⟨hb, hv⟩
        refine ⟨hb, fun q hq hfq => ?_⟩
        rcases List.mem_cons.mp hq with rfl | hq2
        · exact hv
        · exact h2 q hq2 hfq
      · rintro ⟨h1, h2⟩
        exact ⟨max_le h1 (h2 pos (List.mem_cons_self _ _) hfree),
          fun q hq hfq => h2 q (List.mem_cons_of_mem _ hq) hfq⟩
    · rw [npLoopF_cons_skip child p o true pos rest best hfree, ih]
      constructor
      · rintro ⟨h1, h2⟩
        refine ⟨h1, fun q hq hfq => ?_⟩
        rcases List.mem_cons.mp hq with rfl | hq2
        · exact absurd hfq hfree
        · exact h2 q hq2 hfq
      · rintro ⟨h1, h2⟩
        exact ⟨h1, fun q hq hfq => h2 q (List.mem_cons_of_mem _ hq) hfq⟩

theorem npLoopF_min_lb_iff (child) (p o : Nat) (moves : List (Fin 9)) :
    ∀ (best t : Int), t ≤ npLoopF child p o false moves best ↔
      t ≤ best ∧ ∀ pos ∈ moves, (p ||| o) &&& (1 <<< (pos : Nat)) = 0 →
        t ≤ child p (o ||| (1 <<< (pos : Nat))) true := by
  induction moves with
  | nil => intro best t; simp [npLoopF_nil]
  | cons pos rest ih =>
    intro best t
    by_cases hfree : (p ||| o) &&& (1 <<< (pos : Nat)) = 0
    · rw [npLoopF_cons_min child p o pos rest best hfree, ih]
      constructor
      · rintro ⟨h1, h2⟩
        rcases le_min_iff.mp h1 with ⟨hb, hv⟩
        refine ⟨hb, fun q hq hfq => ?_⟩
        rcases List.mem_cons.mp hq with rfl | hq2
        · exact hv
        · exact h2 q hq2 hfq
      · rintro ⟨h1, h2⟩
        exact ⟨le_min h1 (h2 pos (List.mem_cons_self _ _) hfree),
          fun q hq hfq => h2 q (List.mem_cons_of_mem _ hq) hfq⟩
    · rw [npLoopF_cons_skip child p o false pos rest best hfree, ih]
      constructor
      · rintro ⟨h1, h2⟩
        refine ⟨h1, fun q hq hfq => ?_⟩
        rcases List.mem_cons.mp hq with rfl | hq2
        · exact absurd hfq hfree
        · exact h2 q hq2 hfq
      · rintro ⟨h1, h2⟩
        exact ⟨h1, fun q hq hfq => h2 q (List.mem_cons_of_mem _ hq) hfq⟩

theorem npLoopF_min_ub_iff (child) (p o : Nat) (moves : List (Fin 9)) :
    ∀ (best t : Int), npLoopF child p o false moves best ≤ t ↔
      best ≤ t ∨ ∃ pos ∈ moves, (p ||| o) &&& (1 <<< (pos : Nat)) = 0 ∧
        child p (o ||| (1 <<< (pos : Nat))) true ≤ t := by
  induction moves with
  | nil => intro best t; simp [npLoopF_nil]
  | cons pos rest ih =>
    intro best t
    by_cases hfree : (p ||| o) &&& (1 <<< (pos : Nat)) = 0
    · rw [npLoopF_cons_min child p o pos rest best hfree, ih]
      constructor
      · rintro (h | ⟨q, hq, hfq, hcq⟩)
        · rcases min_le_iff.mp h with h | h
          · exact Or.inl h
          · exact Or.inr ⟨pos, List.mem_cons_self _ _, hfree, h⟩
        · exact Or.inr ⟨q, List.mem_cons_of_mem _ hq, hfq, hcq⟩
      · rintro (h | ⟨q, hq, hfq, hcq⟩)
        · exact Or.inl (min_le_of_left_le h)
        · rcases List.mem_cons.mp hq with rfl | hq2
          · exact Or.inl (min_le_of_right_le hcq)
          · exact Or.inr ⟨q, hq2, hfq, hcq⟩
    · rw [npLoopF_cons_skip child p o false pos rest best hfree, ih]
      constructor
      · rintro (h | ⟨q, hq, hfq, hcq⟩)
        · exact Or.inl h
        · exact Or.inr ⟨q, List.mem_cons_of_mem _ hq, hfq, hcq⟩
      · rintro (h | ⟨q, hq, hfq, hcq⟩)
        · exact Or.inl h
        · rcases List.mem_cons.mp hq with rfl | hq2
          · exact absurd hfq hfree
          · exact Or.inr ⟨q, hq2, hfq, hcq⟩

set_option maxRecDepth 4000 in
theorem exists_free_cell_fin : ∀ m : Fin 512, m.val ≠ 511 →
    ∃ pos : Fin 9, m.val &&& (1 <<< (pos : Nat)) = 0 := by decide

theorem exists_free_cell (occ : Nat) (h1 : occ < 512) (h2 : occ ≠ 511) :
    ∃ pos : Fin 9, occ &&& (1 <<< (pos : Nat)) = 0 :=
  exists_free_cell_fin ⟨occ, h1⟩ h2

theorem shift_lt_512 (pos : Fin 9) : (1 <<< (pos : Nat)) < 512 := by
  rw [Nat.one_shiftLeft]
  calc 2 ^ (pos : Nat) ≤ 2 ^ 8 :=
    Nat.pow_le_pow_right (by omega) (by omega)
  _ < 512 := by omega

theorem child_occ_max (p o : Nat) (pos : Fin 9) :
    (p ||| (1 <<< (pos : Nat))) ||| o = (p ||| o) ||| (1 <<< (pos : Nat)) := by
  rw [Nat.or_assoc, Nat.or_comm (1 <<< (pos : Nat)) o, ← Nat.or_assoc]

theorem child_occ_min (p o : Nat) (pos : Fin 9) :
    p ||| (o ||| (1 <<< (pos : Nat))) = (p ||| o) ||| (1 <<< (pos : Nat)) := by
  rw [← Nat.or_assoc]

theorem child_lt_512 (p o : Nat) (pos : Fin 9) (h : p ||| o < 512) :
    (p ||| o) ||| (1 <<< (pos : Nat)) < 512 :=
  Nat.or_lt_two_pow (n := 9) h (shift_lt_512 pos)

theorem npSearchF_bounds (order : List (Fin 9))
    (horder : ∀ i : Fin 9, i ∈ order) (fuel : Nat) :
    ∀ (p o d : Nat) (m : Bool), p ||| o < 512 →
      d + freeCount (p ||| o) ≤ 18 →
      -30 ≤ npSearchF order fuel p o d m ∧ npSearchF order fuel p o d m ≤ 30 := by
  induction fuel with
  | zero => intro p o d m _ _; constructor <;> simp [npSearchF]
  | succ fuel ih =>
    intro p o d m hlt hdf
    have hd : d ≤ 18 := by omega
    unfold npSearchF
    by_cases hw1 : isWinnerMask p = true
    · simp only [hw1, if_true]
      constructor <;> omega
    · simp only [Bool.not_eq_true] at hw1
      by_cases hw2 : isWinnerMask o = true
      · simp only [hw1, Bool.false_eq_true, if_false, hw2, if_true]
        constructor <;> omega
      · simp only [Bool.not_eq_true] at hw2
        by_cases hful : p ||| o = 0x1FF
        · simp only [hw1, hw2, hful, Bool.false_eq_true, if_false, if_true,
            if_pos rfl]
          constructor <;> omega
        · simp only [hw1, hw2, hful, Bool.false_eq_true, if_false]
          have hchild : ∀ pos : Fin 9, (p ||| o) &&& (1 <<< (pos : Nat)) = 0 →
              ∀ (p1 o1 : Nat) (m1 : Bool),
                p1 ||| o1 = (p ||| o) ||| (1 <<< (pos : Nat)) →
                -30 ≤ npSearchF order fuel p1 o1 (d + 1) m1 ∧
                  npSearchF order fuel p1 o1 (d + 1) m1 ≤ 30 := by
            intro pos hfree p1 o1 m1 hocc
            have hfc := freeCount_or_lt (p ||| o) (pos : Nat) pos.isLt hfree
            apply ih p1 o1 (d + 1) m1
            · rw [hocc]; exact child_lt_512 p o pos hlt
            · rw [hocc]; omega
          obtain ⟨posf, hposf⟩ := exists_free_cell (p ||| o) hlt hful
          cases m with
          | true =>
            simp only [if_true]
            constructor
            · rw [npLoopF_max_lb_iff]
              refine Or.inr ⟨posf, horder posf, hposf, ?_⟩
              exact (hchild posf hposf _ _ false (child_occ_max p o posf)).1
            · rw [npLoopF_max_ub_iff]
              refine ⟨by omega, fun q hq hfq => ?_⟩
              exact (hchild q hfq _ _ false (child_occ_max p o q)).2
          | false =>
            simp only [Bool.false_eq_true, if_false]
            constructor
            · rw [npLoopF_min_lb_iff]
              refine ⟨by omega, fun q hq hfq => ?_⟩
              exact (hchild q hfq _ _ true (child_occ_min p o q)).1
            · rw [npLoopF_min_ub_iff]
              refine Or.inr ⟨posf, horder posf, hposf, ?_⟩
              exact (hchild posf hposf _ _ true (child_occ_min p o posf)).2

theorem npLoopF_eq_foldl (child : Nat → Nat → Bool → Int) (p o : Nat)
    (m : Bool) (moves : List (Fin 9)) :
    ∀ best : Int, npLoopF child p o m moves best =
      moves.foldl
        (fun (b : Int) (pos : Fin 9) =>
          if (p ||| o) &&& (1 <<< (pos : Nat)) = 0 then
            if m then max b (child (p ||| (1 <<< (pos : Nat))) o false)
            else min b (child p (o ||| (1 <<< (pos : Nat))) true)
          else b)
        best := by
  induction moves with
  | nil => intro best; simp [npLoopF_nil]
  | cons pos rest ih =>
    intro best
    rw [List.foldl_cons]
    by_cases hfree : (p ||| o) &&& (1 <<< (pos : Nat)) = 0
    · cases m with
      | true =>
        rw [npLoopF_cons_max child p o pos rest best hfree, ih]
        simp only [hfree, if_pos, if_true]
      | false =>
        rw [npLoopF_cons_min child p o pos rest best hfree, ih]
        simp only [hfree, if_pos, Bool.false_eq_true, if_false]
    · rw [npLoopF_cons_skip child p o m pos rest best hfree, ih]
      simp only [hfree, if_neg, if_false]

theorem npSearchF_perm (order1 order2 : List (Fin 9))
    (hperm : order1.Perm order2) (fuel : Nat) :
    ∀ (p o d : Nat) (m : Bool),
      npSearchF order1 fuel p o d m = npSearchF order2 fuel p o d m := by
  induction fuel with
  | zero => intro p o d m; rfl
  | succ fuel ih =>
    intro p o d m
    unfold npSearchF
    by_cases hw1 : isWinnerMask p = true
    · simp [hw1]
    · simp only [Bool.not_eq_true] at hw1
      by_cases hw2 : isWinnerMask o = true
      · simp [hw1, hw2]
      · simp only [Bool.not_eq_true] at hw2
        by_cases hful : p ||| o = 0x1FF
        · simp [hw1, hw2, hful]
        · simp only [hw1, hw2, hful, Bool.false_eq_true, if_false]
          rw [npLoopF_eq_foldl, npLoopF_eq_foldl]
          simp only [ih]
          apply hperm.foldl_eq'
          intro x _ y _ z
          by_cases hx : (p ||| o) &&& (1 <<< (x : Nat)) = 0 <;>
            by_cases hy : (p ||| o) &&& (1 <<< (y : Nat)) = 0 <;>
              simp only [hx, hy, if_pos, if_neg, if_true, if_false]
          cases m with
          | true => simp only [if_true]; exact sup_right_comm z _ _
          | false => simp only [Bool.false_eq_true, if_false]; exact inf_right_comm z _ _

theorem abSearchF_eq_np (order : List (Fin 9))
    (horder : ∀ i : Fin 9, i ∈ order) (fuel : Nat) (p o d : Nat) (m : Bool)
    (hlt : p ||| o < 512) (hdf : d + freeCount (p ||| o) ≤ 18) :
    abSearchF order fuel p o d (-1000) 1000 m = npSearchF order fuel p o d m := by
  have hclamp := abSearchF_clamp order fuel p o d (-1000) 1000 m
    (le_refl _) (by omega) (le_refl _)
  obtain ⟨hb1, hb2⟩ := npSearchF_bounds order horder fuel p o d m hlt hdf
  have hmid : clampI (-1000) 1000 (npSearchF order fuel p o d m) =
      npSearchF order fuel p o d m :=
    clampI_eq_mid (-1000) 1000 _ (by omega) (by omega)
  rw [hmid] at hclamp
  exact clampI_mid_inj (-1000) 1000 _ _ (by omega) (by omega) hclamp

/-- Well-formed boundary board: the 3x3 char array has nine cells, each
holding one of the two game symbols or blank. -/
def wfBoard (board : List Char) : Prop :=
  board.length = 9 ∧
    ∀ i < 9, board.getD i ' ' = 'X' ∨ board.getD i ' ' = 'O' ∨
      board.getD i ' ' = ' '

theorem getD_set_self (l : List Char) (i : Nat) (c : Char)
    (h : i < l.length) : (l.set i c).getD i ' ' = c := by
  simp [List.getD_eq_getElem?_getD, List.getElem?_set_self h]

theorem getD_set_ne (l : List Char) (i j : Nat) (c : Char) (h : i ≠ j) :
    (l.set i c).getD j ' ' = l.getD j ' ' := by
  simp [List.getD_eq_getElem?_getD, List.getElem?_set_ne h]

theorem boardToMasks_testBit (board : List Char) :
    ∀ i : Nat,
      ((boardToMasks board).1.testBit i =
        (decide (i < 9) && decide (board.getD i ' ' = 'X'))) ∧
      ((boardToMasks board).2.testBit i =
        (decide (i < 9) && decide (board.getD i ' ' = 'O'))) := by
  have main : ∀ n : Nat, ∀ i : Nat,
      (((List.range n).foldl
        (fun m idx =>
          let ch := board.getD idx ' '
          if ch = 'X' then (m.1 ||| (1 <<< idx), m.2)
          else if ch = 'O' then (m.1, m.2 ||| (1 <<< idx))
          else m)
        (0, 0)).1.testBit i =
        (decide (i < n) && decide (board.getD i ' ' = 'X'))) ∧
      (((List.range n).foldl
        (fun m idx =>
          let ch := board.getD idx ' '
          if ch = 'X' then (m.1 ||| (1 <<< idx), m.2)
          else if ch = 'O' then (m.1, m.2 ||| (1 <<< idx))
          else m)
        (0, 0)).2.testBit i =
        (decide (i < n) && decide (board.getD i ' ' = 'O'))) := by
    intro n
    set stepf := fun (m : Nat × Nat) (idx : Nat) =>
      let ch := board.getD idx ' '
      if ch = 'X' then (m.1 ||| (1 <<< idx), m.2)
      else if ch = 'O' then (m.1, m.2 ||| (1 <<< idx))
      else m with hstepf
    induction n with
    | zero => intro i; simp [Nat.testBit_zero]
    | succ n ihn =>
      intro i
      have hunf : (List.range (n + 1)).foldl stepf (0, 0) =
          stepf ((List.range n).foldl stepf (0, 0)) n := by
        rw [List.range_succ, List.foldl_append, List.foldl_cons, List.foldl_nil]
      set F := (List.range n).foldl stepf (0, 0) with hF
      obtain ⟨e1, e2⟩ := ihn i
      have hXd : ∀ c : Char, c = 'X' ∨ c = 'O' ∨ (c ≠ 'X' ∧ c ≠ 'O') := by
        intro c
        by_cases h1 : c = 'X'
        · exact Or.inl h1
        · by_cases h2 : c = 'O'
          · exact Or.inr (Or.inl h2)
          · exact Or.inr (Or.inr ⟨h1, h2⟩)
      rcases hXd (board.getD n ' ') with hc | hc | ⟨hc1, hc2⟩
      · have hnew : (List.range (n + 1)).foldl stepf (0, 0) =
            (F.1 ||| (1 <<< n), F.2) := by
          rw [hunf, hstepf]
          simp only [hc, if_pos]
        rw [hnew]
        constructor
        · show (F.1 ||| (1 <<< n)).testBit i = _
          rw [Nat.testBit_or, e1, Nat.one_shiftLeft, Nat.testBit_two_pow]
          rcases Nat.lt_trichotomy i n with hin | rfl | hin
          · have d1 : decide (i < n) = true := by simp; omega
            have d2 : decide (i < n + 1) = true := by simp; omega
            have d3 : decide (n = i) = false := by simp; omega
            rw [d1, d2, d3, Bool.or_false]
          · have d1 : decide (i < i) = false := by simp
            have d2 : decide (i < i + 1) = true := by simp
            have d3 : decide (i = i) = true := by simp
            have d4 : decide (board.getD i ' ' = 'X') = true := decide_eq_true hc
            rw [d1, d2, d3, d4, Bool.false_and, Bool.false_or, Bool.true_and]
          · have d1 : decide (i < n) = false := by simp; omega
            have d2 : decide (i < n + 1) = false := by simp; omega
            have d3 : decide (n = i) = false := by simp; omega
            rw [d1, d2, d3, Bool.or_false]
        · show F.2.testBit i = _
          rw [e2]
          rcases Nat.lt_trichotomy i n with hin | rfl | hin
          · have d1 : decide (i < n) = true := by simp; omega
            have d2 : decide (i < n + 1) = true := by simp; omega
            rw [d1, d2]
          · have d1 : decide (i < i) = false := by simp
            have d2 : decide (i < i + 1) = true := by simp
            have d4 : decide (board.getD i ' ' = 'O') = false :=
              decide_eq_false (by rw [hc]; decide)
            rw [d1, d2, d4, Bool.false_and, Bool.and_false]
          · have d1 : decide (i < n) = false := by simp; omega
            have d2 : decide (i < n + 1) = false := by simp; omega
            rw [d1, d2]
      · have hnew : (List.range (n + 1)).foldl stepf (0, 0) =
            (F.1, F.2 ||| (1 <<< n)) := by
          rw [hunf, hstepf]
          simp only [hc, reduceIte]
          exact if_neg (by decide)
        rw [hnew]
        constructor
        · show F.1.testBit i = _
          rw [e1]
          rcases Nat.lt_trichotomy i n with hin | rfl | hin
          · have d1 : decide (i < n) = true := by simp; omega
            have d2 : decide (i < n + 1) = true := by simp; omega
            rw [d1, d2]
          · have d1 : decide (i < i) = false := by simp
            have d2 : decide (i < i + 1) = true := by simp
            have d4 : decide (board.getD i ' ' = 'X') = false :=
              decide_eq_false (by rw [hc]; decide)
            rw [d1, d2, d4, Bool.false_and, Bool.and_false]
          · have d1 : decide (i < n) = false := by simp; omega
            have d2 : decide (i < n + 1) = false := by simp; omega
            rw [d1, d2]
        · show (F.2 ||| (1 <<< n)).testBit i = _
          rw [Nat.testBit_or, e2, Nat.one_shiftLeft, Nat.testBit_two_pow]
          rcases Nat.lt_trichotomy i n with hin | rfl | hin
          · have d1 : decide (i < n) = true := by simp; omega
            have d2 : decide (i < n + 1) = true := by simp; omega
            have d3 : decide (n = i) = false := by simp; omega
            rw [d1, d2, d3, Bool.or_false]
          · have d1 : decide (i < i) = false := by simp
            have d2 : decide (i < i + 1) = true := by simp
            have d3 : decide (i = i) = true := by simp
            have d4 : decide (board.getD i ' ' = 'O') = true := decide_eq_true hc
            rw [d1, d2, d3, d4, Bool.false_and, Bool.false_or, Bool.true_and]
          · have d1 : decide (i < n) = false := by simp; omega
            have d2 : decide (i < n + 1) = false := by simp; omega
            have d3 : decide (n = i) = false := by simp; omega
            rw [d1, d2, d3, Bool.or_false]
      · have hnew : (List.range (n + 1)).foldl stepf (0, 0) = F := by
          rw [hunf, hstepf]
          simp only [if_neg hc1, if_neg hc2]
        rw [hnew]
        constructor
        · rw [e1]
          rcases Nat.lt_trichotomy i n with hin | rfl | hin
          · have d1 : decide (i < n) = true := by simp; omega
            have d2 : decide (i < n + 1) = true := by simp; omega
            rw [d1, d2]
          · have d1 : decide (i < i) = false := by simp
            have d2 : decide (i < i + 1) = true := by simp
            have d4 : decide (board.getD i ' ' = 'X') = false := decide_eq_false hc1
            rw [d1, d2, d4, Bool.false_and, Bool.and_false]
          · have d1 : decide (i < n) = false := by simp; omega
            have d2 : decide (i < n + 1) = false := by simp; omega
            rw [d1, d2]
        · rw [e2]
          rcases Nat.lt_trichotomy i n with hin | rfl | hin
          · have d1 : decide (i < n) = true := by simp; omega
            have d2 : decide (i < n + 1) = true := by simp; omega
            rw [d1, d2]
          · have d1 : decide (i < i) = false := by simp
            have d2 : decide (i < i + 1) = true := by simp
            have d4 : decide (board.getD i ' ' = 'O') = false := decide_eq_false hc2
            rw [d1, d2, d4, Bool.false_and, Bool.and_false]
          · have d1 : decide (i < n) = false := by simp; omega
            have d2 : decide (i < n + 1) = false := by simp; omega
            rw [d1, d2]
  intro i
  exact main 9 i

theorem boardToMasks_lt (board : List Char) :
    (boardToMasks board).1 < 512 ∧ (boardToMasks board).2 < 512 := by
  constructor
  · show (boardToMasks board).1 < 2 ^ 9
    exact Nat.lt_pow_two_of_testBit _ (fun i hi => by
      rw [(boardToMasks_testBit board i).1]
      have hd : decide (i < 9) = false := by simp; omega
      rw [hd, Bool.false_and])
  · show (boardToMasks board).2 < 2 ^ 9
    exact Nat.lt_pow_two_of_testBit _ (fun i hi => by
      rw [(boardToMasks_testBit board i).2]
      have hd : decide (i < 9) = false := by simp; omega
      rw [hd, Bool.false_and])

theorem subset_mask_iff (m w : Nat) :
    m &&& w = w ↔ ∀ i, w.testBit i = true → m.testBit i = true := by
  constructor
  · intro h i hw
    have h2 := congrArg (fun x => x.testBit i) h
    simp only [Nat.testBit_and, hw, Bool.and_true] at h2
    exact h2
  · intro h
    apply Nat.eq_of_testBit_eq
    intro i
    rw [Nat.testBit_and]
    cases hw : w.testBit i
    · simp
    · simp [h i hw]

theorem and_line_iff (m a b c : Nat) :
    m &&& ((1 <<< a) ||| (1 <<< b) ||| (1 <<< c)) =
      ((1 <<< a) ||| (1 <<< b) ||| (1 <<< c)) ↔
    (m.testBit a = true ∧ m.testBit b = true ∧ m.testBit c = true) := by
  rw [subset_mask_iff]
  constructor
  · intro h
    refine ⟨h a ?_, h b ?_, h c ?_⟩ <;>
      simp [Nat.testBit_or, Nat.one_shiftLeft, Nat.testBit_two_pow]
  · rintro ⟨h1, h2, h3⟩ i hi
    simp only [Nat.testBit_or, Nat.one_shiftLeft, Nat.testBit_two_pow,
      Bool.or_eq_true, decide_eq_true_eq] at hi
    rcases hi with (rfl | rfl) | rfl <;> assumption

theorem isWinnerMask_iff (m : Nat) : isWinnerMask m = true ↔
    ((m.testBit 0 = true ∧ m.testBit 1 = true ∧ m.testBit 2 = true) ∨
     (m.testBit 3 = true ∧ m.testBit 4 = true ∧ m.testBit 5 = true) ∨
     (m.testBit 6 = true ∧ m.testBit 7 = true ∧ m.testBit 8 = true) ∨
     (m.testBit 0 = true ∧ m.testBit 3 = true ∧ m.testBit 6 = true) ∨
     (m.testBit 1 = true ∧ m.testBit 4 = true ∧ m.testBit 7 = true) ∨
     (m.testBit 2 = true ∧ m.testBit 5 = true ∧ m.testBit 8 = true) ∨
     (m.testBit 0 = true ∧ m.testBit 4 = true ∧ m.testBit 8 = true) ∨
     (m.testBit 2 = true ∧ m.testBit 4 = true ∧ m.testBit 6 = true)) := by
  unfold isWinnerMask WIN_MASKS
  simp only [List.any_cons, List.any_nil, Bool.or_eq_true, Bool.or_false,
    beq_iff_eq, and_line_iff]

theorem checkWin_eq_X (board : List Char) :
    checkWin board 'X' = isWinnerMask (boardToMasks board).1 := by
  have h := boardToMasks_testBit board
  have hX : ∀ i, i < 9 →
      ((boardToMasks board).1.testBit i = decide (board.getD i ' ' = 'X')) := by
    intro i hi
    rw [(h i).1, decide_eq_true (p := i < 9) hi, Bool.true_and]
  rw [Bool.eq_iff_iff, isWinnerMask_iff]
  simp only [checkWin, Bool.or_eq_true, Bool.and_eq_true, beq_iff_eq,
    hX 0 (by omega), hX 1 (by omega), hX 2 (by omega), hX 3 (by omega),
    hX 4 (by omega), hX 5 (by omega), hX 6 (by omega), hX 7 (by omega),
    hX 8 (by omega), decide_eq_true_eq, and_assoc, or_assoc]
  constructor
  · rintro (h | h | h | h | h | h | h | h)
    · exact Or.inl h
    · exact Or.inr (Or.inr (Or.inr (Or.inl h)))
    · exact Or.inr (Or.inl h)
    · exact Or.inr (Or.inr (Or.inr (Or.inr (Or.inl h))))
    · exact Or.inr (Or.inr (Or.inl h))
    · exact Or.inr (Or.inr (Or.inr (Or.inr (Or.inr (Or.inl h)))))
    · exact Or.inr (Or.inr (Or.inr (Or.inr (Or.inr (Or.inr (Or.inl h))))))
    · exact Or.inr (Or.inr (Or.inr (Or.inr (Or.inr (Or.inr (Or.inr h))))))
  · rintro (h | h | h | h | h | h | h | h)
    · exact Or.inl h
    · exact Or.inr (Or.inr (Or.inl h))
    · exact Or.inr (Or.inr (Or.inr (Or.inr (Or.inl h))))
    · exact Or.inr (Or.inl h)
    · exact Or.inr (Or.inr (Or.inr (Or.inl h)))
    · exact Or.inr (Or.inr (Or.inr (Or.inr (Or.inr (Or.inl h)))))
    · exact Or.inr (Or.inr (Or.inr (Or.inr (Or.inr (Or.inr (Or.inl h))))))
    · exact Or.inr (Or.inr (Or.inr (Or.inr (Or.inr (Or.inr (Or.inr h))))))

theorem checkWin_eq_O (board : List Char) :
    checkWin board 'O' = isWinnerMask (boardToMasks board).2 := by
  have h := boardToMasks_testBit board
  have hO : ∀ i, i < 9 →
      ((boardToMasks board).2.testBit i = decide (board.getD i ' ' = 'O')) := by
    intro i hi
    rw [(h i).2, decide_eq_true (p := i < 9) hi, Bool.true_and]
  rw [Bool.eq_iff_iff, isWinnerMask_iff]
  simp only [checkWin, Bool.or_eq_true, Bool.and_eq_true, beq_iff_eq,
    hO 0 (by omega), hO 1 (by omega), hO 2 (by omega), hO 3 (by omega),
    hO 4 (by omega), hO 5 (by omega), hO 6 (by omega), hO 7 (by omega),
    hO 8 (by omega), decide_eq_true_eq, and_assoc, or_assoc]
  constructor
  · rintro (h | h | h | h | h | h | h | h)
    · exact Or.inl h
    · exact Or.inr (Or.inr (Or.inr (Or.inl h)))
    · exact Or.inr (Or.inl h)
    · exact Or.inr (Or.inr (Or.inr (Or.inr (Or.inl h))))
    · exact Or.inr (Or.inr (Or.inl h))
    · exact Or.inr (Or.inr (Or.inr (Or.inr (Or.inr (Or.inl h)))))
    · exact Or.inr (Or.inr (Or.inr (Or.inr (Or.inr (Or.inr (Or.inl h))))))
    · exact Or.inr (Or.inr (Or.inr (Or.inr (Or.inr (Or.inr (Or.inr h))))))
  · rintro (h | h | h | h | h | h | h | h)
    · exact Or.inl h
    · exact Or.inr (Or.inr (Or.inl h))
    · exact Or.inr (Or.inr (Or.inr (Or.inr (Or.inl h))))
    · exact Or.inr (Or.inl h)
    · exact Or.inr (Or.inr (Or.inr (Or.inl h)))
    · exact Or.inr (Or.inr (Or.inr (Or.inr (Or.inr (Or.inl h)))))
    · exact Or.inr (Or.inr (Or.inr (Or.inr (Or.inr (Or.inr (Or.inl h))))))
    · exact Or.inr (Or.inr (Or.inr (Or.inr (Or.inr (Or.inr (Or.inr h))))))

set_option maxRecDepth 4000 in
theorem eq_511_iff_fin : ∀ m : Fin 512,
    (m.val = 511 ↔ ∀ i : Fin 9, m.val.testBit (i : Nat) = true) := by decide

theorem isBoardFull_bridge (board : List Char) (hwf : wfBoard board) :
    isBoardFull board = true ↔
      (boardToMasks board).1 ||| (boardToMasks board).2 = 511 := by
  have hlt : (boardToMasks board).1 ||| (boardToMasks board).2 < 512 :=
    Nat.or_lt_two_pow (n := 9) (boardToMasks_lt board).1 (boardToMasks_lt board).2
  rw [eq_511_iff_fin ⟨_, hlt⟩]
  unfold isBoardFull
  rw [Bool.not_eq_true', List.any_eq_false]
  constructor
  · intro h i
    show ((boardToMasks board).1 ||| (boardToMasks board).2).testBit
      (i : Nat) = true
    have hcell := h (i : Nat) (List.mem_range.mpr i.isLt)
    rw [Bool.not_eq_true, beq_eq_false_iff_ne, ne_eq] at hcell
    rcases hwf.2 (i : Nat) i.isLt with hx | ho | hsp
    · rw [Nat.testBit_or, ((boardToMasks_testBit board) (i : Nat)).1,
        decide_eq_true (p := (i : Nat) < 9) i.isLt, Bool.true_and,
        decide_eq_true hx, Bool.true_or]
    · rw [Nat.testBit_or, ((boardToMasks_testBit board) (i : Nat)).2,
        decide_eq_true (p := (i : Nat) < 9) i.isLt, Bool.true_and,
        decide_eq_true ho, Bool.or_true]
    · exact absurd hsp hcell
  · intro h j hj
    rw [Bool.not_eq_true, beq_eq_false_iff_ne, ne_eq]
    have hjl := List.mem_range.mp hj
    have htb : ((boardToMasks board).1 |||
        (boardToMasks board).2).testBit j = true := h ⟨j, hjl⟩
    rw [Nat.testBit_or, ((boardToMasks_testBit board) j).1,
      ((boardToMasks_testBit board) j).2,
      decide_eq_true (p := j < 9) hjl, Bool.true_and, Bool.true_and,
      Bool.or_eq_true, decide_eq_true_eq, decide_eq_true_eq] at htb
    rcases htb with hx | ho
    · rw [hx]; decide
    · rw [ho]; decide

theorem free_cell_bridge (board : List Char) (i : Nat) (hi : i < 9) :
    ((boardToMasks board).1 ||| (boardToMasks board).2) &&& (1 <<< i) = 0 ↔
      board.getD i ' ' ≠ 'X' ∧ board.getD i ' ' ≠ 'O' := by
  rw [and_shift_eq_zero_iff, Nat.testBit_or,
    ((boardToMasks_testBit board) i).1, ((boardToMasks_testBit board) i).2,
    decide_eq_true (p := i < 9) hi, Bool.true_and, Bool.true_and,
    Bool.or_eq_false_iff, decide_eq_false_iff_not, decide_eq_false_iff_not]

theorem free_cell_bridge_wf (board : List Char) (hwf : wfBoard board)
    (i : Nat) (hi : i < 9) :
    ((boardToMasks board).1 ||| (boardToMasks board).2) &&& (1 <<< i) = 0 ↔
      board.getD i ' ' = ' ' := by
  rw [free_cell_bridge board i hi]
  rcases hwf.2 i hi with hx | ho | hsp
  · constructor
    · rintro ⟨h1, _⟩; exact absurd hx h1
    · intro h; rw [h] at hx; cases hx
  · constructor
    · rintro ⟨_, h2⟩; exact absurd ho h2
    · intro h; rw [h] at ho; cases ho
  · constructor
    · intro _; exact hsp
    · intro _; rw [hsp]; exact ⟨by decide, by decide⟩

theorem boardToMasks_set_X (board : List Char) (idx : Nat) (hidx : idx < 9)
    (hlen : board.length = 9) (hcell : board.getD idx ' ' = ' ') :
    boardToMasks (board.set idx 'X') =
      ((boardToMasks board).1 ||| (1 <<< idx), (boardToMasks board).2) := by
  have hset : ∀ j, (board.set idx 'X').getD j ' ' =
      if j = idx then 'X' else board.getD j ' ' := by
    intro j
    by_cases hj : j = idx
    · subst hj; rw [if_pos rfl, getD_set_self _ _ _ (by omega)]
    · rw [if_neg hj, getD_set_ne _ _ _ _ (fun h => hj h.symm)]
  have h1 := boardToMasks_testBit (board.set idx 'X')
  have h2 := boardToMasks_testBit board
  apply Prod.ext
  · apply Nat.eq_of_testBit_eq
    intro i
    rw [(h1 i).1, Nat.testBit_or, (h2 i).1, hset i, Nat.one_shiftLeft,
      Nat.testBit_two_pow]
    by_cases hj : i = idx
    · subst hj
      rw [if_pos rfl, decide_eq_true (p := i < 9) hidx,
        decide_eq_true (p := i = i) rfl]
      simp
    · rw [if_neg hj, decide_eq_false (p := idx = i) (fun h => hj h.symm),
        Bool.or_false]
  · apply Nat.eq_of_testBit_eq
    intro i
    rw [(h1 i).2, (h2 i).2, hset i]
    by_cases hj : i = idx
    · subst hj
      rw [if_pos rfl, hcell]
      simp
    · rw [if_neg hj]

theorem boardToMasks_set_O (board : List Char) (idx : Nat) (hidx : idx < 9)
    (hlen : board.length = 9) (hcell : board.getD idx ' ' = ' ') :
    boardToMasks (board.set idx 'O') =
      ((boardToMasks board).1, (boardToMasks board).2 ||| (1 <<< idx)) := by
  have hset : ∀ j, (board.set idx 'O').getD j ' ' =
      if j = idx then 'O' else board.getD j ' ' := by
    intro j
    by_cases hj : j = idx
    · subst hj; rw [if_pos rfl, getD_set_self _ _ _ (by omega)]
    · rw [if_neg hj, getD_set_ne _ _ _ _ (fun h => hj h.symm)]
  have h1 := boardToMasks_testBit (board.set idx 'O')
  have h2 := boardToMasks_testBit board
  apply Prod.ext
  · apply Nat.eq_of_testBit_eq
    intro i
    rw [(h1 i).1, (h2 i).1, hset i]
    by_cases hj : i = idx
    · subst hj
      rw [if_pos rfl, hcell]
      simp
    · rw [if_neg hj]
  · apply Nat.eq_of_testBit_eq
    intro i
    rw [(h1 i).2, Nat.testBit_or, (h2 i).2, hset i, Nat.one_shiftLeft,
      Nat.testBit_two_pow]
    by_cases hj : i = idx
    · subst hj
      rw [if_pos rfl, decide_eq_true (p := i < 9) hidx,
        decide_eq_true (p := i = i) rfl]
      simp
    · rw [if_neg hj, decide_eq_false (p := idx = i) (fun h => hj h.symm),
        Bool.or_false]

theorem wfBoard_set (board : List Char) (hwf : wfBoard board) (idx : Nat)
    (c : Char) (hc : c = 'X' ∨ c = 'O' ∨ c = ' ') :
    wfBoard (board.set idx c) := by
  refine ⟨by rw [List.length_set]; exact hwf.1, fun i hi => ?_⟩
  by_cases hj : i = idx
  · subst hj
    by_cases hlt : i < board.length
    · rw [getD_set_self _ _ _ hlt]; exact hc
    · rw [List.set_eq_of_length_le (by omega)]
      exact hwf.2 i hi
  · rw [getD_set_ne _ _ _ _ (fun h => hj h.symm)]
    exact hwf.2 i hi

theorem maLoopF_nil (child) (board : List Char) (a b : Int) (m : Bool)
    (ai hu : Char) (best : Int) :
    maLoopF child board a b m ai hu [] best = best := rfl

theorem maLoopF_cons_skip (child) (board : List Char) (a b : Int) (m : Bool)
    (ai hu : Char) (pos : Fin 9) (rest : List (Fin 9)) (best : Int)
    (hocc : board.getD (pos : Nat) ' ' ≠ ' ') :
    maLoopF child board a b m ai hu (pos :: rest) best =
      maLoopF child board a b m ai hu rest best := by
  unfold maLoopF
  simp only [hocc, if_neg, if_false]
  split <;> rfl

theorem maLoopF_cons_max (child) (board : List Char) (a b : Int)
    (ai hu : Char) (pos : Fin 9) (rest : List (Fin 9)) (best : Int)
    (hfree : board.getD (pos : Nat) ' ' = ' ') :
    maLoopF child board a b true ai hu (pos :: rest) best =
      (if b ≤ max a (child (board.set (pos : Nat) ai) a b false) then
        max best (child (board.set (pos : Nat) ai) a b false)
      else
        maLoopF child board
          (max a (child (board.set (pos : Nat) ai) a b false)) b true ai hu rest
          (max best (child (board.set (pos : Nat) ai) a b false))) := by
  conv_lhs => unfold maLoopF
  simp only [hfree, if_pos, if_true, if_gt_eq_max]

theorem maLoopF_cons_min (child) (board : List Char) (a b : Int)
    (ai hu : Char) (pos : Fin 9) (rest : List (Fin 9)) (best : Int)
    (hfree : board.getD (pos : Nat) ' ' = ' ') :
    maLoopF child board a b false ai hu (pos :: rest) best =
      (if min b (child (board.set (pos : Nat) hu) a b true) ≤ a then
        min best (child (board.set (pos : Nat) hu) a b true)
      else
        maLoopF child board a
          (min b (child (board.set (pos : Nat) hu) a b true)) false ai hu rest
          (min best (child (board.set (pos : Nat) hu) a b true))) := by
  conv_lhs => unfold maLoopF
  simp only [hfree, if_pos, Bool.false_eq_true, if_false, if_lt_eq_min]

theorem maLoopF_sim
    (child1 : List Char → Int → Int → Bool → Int)
    (child2 : Nat → Nat → Int → Int → Bool → Int)
    (board : List Char) (pAI pOPP : Nat) (ai hu : Char)
    (hfree_iff : ∀ i : Nat, i < 9 →
      (board.getD i ' ' = ' ' ↔ (pAI ||| pOPP) &&& (1 <<< i) = 0))
    (hchild : ∀ pos : Fin 9, board.getD (pos : Nat) ' ' = ' ' →
      (∀ a b, child1 (board.set (pos : Nat) ai) a b false =
        child2 (pAI ||| (1 <<< (pos : Nat))) pOPP a b false) ∧
      (∀ a b, child1 (board.set (pos : Nat) hu) a b true =
        child2 pAI (pOPP ||| (1 <<< (pos : Nat))) a b true)) :
    ∀ (cells : List (Fin 9)) (m : Bool) (a b best : Int),
      maLoopF child1 board a b m ai hu cells best =
        abLoopF child2 pAI pOPP a b m cells best := by
  intro cells
  induction cells with
  | nil => intro m a b best; rfl
  | cons pos rest ih =>
    intro m a b best
    by_cases hfree : board.getD (pos : Nat) ' ' = ' '
    · have hfree2 : (pAI ||| pOPP) &&& (1 <<< (pos : Nat)) = 0 :=
        (hfree_iff (pos : Nat) pos.isLt).mp hfree
      cases m with
      | true =>
        rw [maLoopF_cons_max child1 board a b ai hu pos rest best hfree,
          abLoopF_cons_max child2 pAI pOPP a b pos rest best hfree2,
          (hchild pos hfree).1 a b]
        split
        · rfl
        · exact ih true _ b _
      | false =>
        rw [maLoopF_cons_min child1 board a b ai hu pos rest best hfree,
          abLoopF_cons_min child2 pAI pOPP a b pos rest best hfree2,
          (hchild pos hfree).2 a b]
        split
        · rfl
        · exact ih false a _ _
    · have hfree2 : (pAI ||| pOPP) &&& (1 <<< (pos : Nat)) ≠ 0 :=
        fun h => hfree ((hfree_iff (pos : Nat) pos.isLt).mpr h)
      rw [maLoopF_cons_skip child1 board a b m ai hu pos rest best hfree,
        abLoopF_cons_skip child2 pAI pOPP a b m pos rest best hfree2]
      exact ih m a b best

theorem minimax_arrayF_sim (ai hu : Char)
    (hsym : (ai = 'X' ∧ hu = 'O') ∨ (ai = 'O' ∧ hu = 'X')) (fuel : Nat) :
    ∀ (board : List Char) (d : Nat) (m : Bool) (a b : Int), wfBoard board →
      minimax_arrayF fuel board d m a b ai hu =
        abSearchF rowMajorOrder fuel
          (if ai = 'X' then (boardToMasks board).1 else (boardToMasks board).2)
          (if ai = 'X' then (boardToMasks board).2 else (boardToMasks board).1)
          d a b m := by
  induction fuel with
  | zero => intro board d m a b _; rfl
  | succ fuel ih =>
    intro board d m a b hwf
    rcases hsym with ⟨rfl, rfl⟩ | ⟨rfl, rfl⟩
    · rw [if_pos rfl, if_pos rfl]
      unfold minimax_arrayF abSearchF
      rw [checkWin_eq_X board, checkWin_eq_O board]
      by_cases hw1 : isWinnerMask (boardToMasks board).1 = true
      · simp [hw1]
      · simp only [Bool.not_eq_true] at hw1
        by_cases hw2 : isWinnerMask (boardToMasks board).2 = true
        · simp only [hw1, Bool.false_eq_true, if_false, hw2, if_true]
          omega
        · simp only [Bool.not_eq_true] at hw2
          by_cases hful : (boardToMasks board).1 ||| (boardToMasks board).2 = 0x1FF
          · have hfb : isBoardFull board = true :=
              (isBoardFull_bridge board hwf).mpr hful
            simp [hw1, hw2, hful, hfb]
          · have hfb : isBoardFull board = false := by
              rw [Bool.eq_false_iff]
              exact fun h => hful ((isBoardFull_bridge board hwf).mp h)
            simp only [hw1, hw2, hful, hfb, Bool.false_eq_true, if_false]
            apply maLoopF_sim
            · intro i hi
              exact (free_cell_bridge_wf board hwf i hi).symm
            · intro pos hfree
              have hidx : (pos : Nat) < 9 := pos.isLt
              constructor
              · intro a1 b1
                rw [ih (board.set (pos : Nat) 'X') (d + 1) false a1 b1
                  (wfBoard_set board hwf _ _ (Or.inl rfl)),
                  boardToMasks_set_X board _ hidx hwf.1 hfree]
                rw [if_pos rfl, if_pos rfl]
              · intro a1 b1
                rw [ih (board.set (pos : Nat) 'O') (d + 1) true a1 b1
                  (wfBoard_set board hwf _ _ (Or.inr (Or.inl rfl))),
                  boardToMasks_set_O board _ hidx hwf.1 hfree]
                rw [if_pos rfl, if_pos rfl]
    · rw [if_neg (by decide), if_neg (by decide)]
      unfold minimax_arrayF abSearchF
      rw [checkWin_eq_X board, checkWin_eq_O board]
      by_cases hw1 : isWinnerMask (boardToMasks board).2 = true
      · simp [hw1]
      · simp only [Bool.not_eq_true] at hw1
        by_cases hw2 : isWinnerMask (boardToMasks board).1 = true
        · simp only [hw1, Bool.false_eq_true, if_false, hw2, if_true]
          omega
        · simp only [Bool.not_eq_true] at hw2
          by_cases hful : (boardToMasks board).2 ||| (boardToMasks board).1 = 0x1FF
          · have hful2 : (boardToMasks board).1 ||| (boardToMasks board).2 = 0x1FF := by
              rw [Nat.or_comm]; exact hful
            have hfb : isBoardFull board = true :=
              (isBoardFull_bridge board hwf).mpr hful2
            simp [hw1, hw2, hful, hfb]
          · have hful2 : ¬((boardToMasks board).1 ||| (boardToMasks board).2 = 0x1FF) := by
              rw [Nat.or_comm]; exact hful
            have hfb : isBoardFull board = false := by
              rw [Bool.eq_false_iff]
              exact fun h => hful2 ((isBoardFull_bridge board hwf).mp h)
            simp only [hw1, hw2, hful, hfb, Bool.false_eq_true, if_false]
            apply maLoopF_sim
            · intro i hi
              rw [Nat.or_comm]
              exact (free_cell_bridge_wf board hwf i hi).symm
            · intro pos hfree
              have hidx : (pos : Nat) < 9 := pos.isLt
              constructor
              · intro a1 b1
                rw [ih (board.set (pos : Nat) 'O') (d + 1) false a1 b1
                  (wfBoard_set board hwf _ _ (Or.inr (Or.inl rfl))),
                  boardToMasks_set_O board _ hidx hwf.1 hfree]
                rw [if_neg (by decide), if_neg (by decide)]
              · intro a1 b1
                rw [ih (board.set (pos : Nat) 'X') (d + 1) true a1 b1
                  (wfBoard_set board hwf _ _ (Or.inl rfl)),
                  boardToMasks_set_X board _ hidx hwf.1 hfree]
                rw [if_neg (by decide), if_neg (by decide)]

theorem move_order_covers : ∀ i : Fin 9, i ∈ MOVE_ORDER := by decide

theorem row_major_covers : ∀ i : Fin 9, i ∈ rowMajorOrder := by decide

theorem row_major_perm_move_order : rowMajorOrder.Perm MOVE_ORDER := by decide

/-- C10: on a well-formed board, the array-based alpha-beta search with
the full window agrees with the bitboard search on the board's mask
encoding, at the same depth, window and side to move, despite the two
iterating candidate cells in different orders (row-major versus
center-corners-edges) and pruning different branches. -/
theorem minimax_array_eq_minimax_masks (board : List Char) (d : Nat)
    (m : Bool) (ai hu : Char) (hwf : wfBoard board) (hd : d ≤ 9)
    (hsym : (ai = 'X' ∧ hu = 'O') ∨ (ai = 'O' ∧ hu = 'X')) :
    minimax_array board d m (-1000) 1000 ai hu =
      minimax_masks
        (if ai = 'X' then (boardToMasks board).1 else (boardToMasks board).2)
        (if ai = 'X' then (boardToMasks board).2 else (boardToMasks board).1)
        d (-1000) 1000 m := by
  set pAI := if ai = 'X' then (boardToMasks board).1 else (boardToMasks board).2
    with hpAI
  set pOPP := if ai = 'X' then (boardToMasks board).2 else (boardToMasks board).1
    with hpOPP
  have hlt : pAI ||| pOPP < 512 := by
    have h1 := (boardToMasks_lt board).1
    have h2 := (boardToMasks_lt board).2
    rcases hsym with ⟨rfl, _⟩ | ⟨rfl, _⟩
    · rw [hpAI, hpOPP, if_pos rfl, if_pos rfl]
      exact Nat.or_lt_two_pow (n := 9) h1 h2
    · rw [hpAI, hpOPP, if_neg (by decide), if_neg (by decide)]
      exact Nat.or_lt_two_pow (n := 9) h2 h1
  have hdf : d + freeCount (pAI ||| pOPP) ≤ 18 := by
    have := freeCount_le_nine (pAI ||| pOPP)
    omega
  unfold minimax_array minimax_masks
  rw [minimax_arrayF_sim ai hu hsym 10 board d m (-1000) 1000 hwf,
    ← hpAI, ← hpOPP,
    abSearchF_eq_np rowMajorOrder row_major_covers 10 pAI pOPP d m hlt hdf,
    npSearchF_perm rowMajorOrder MOVE_ORDER row_major_perm_move_order 10 pAI pOPP d m,
    abSearchF_eq_np MOVE_ORDER move_order_covers 10 pAI pOPP d m hlt hdf]

theorem minimax_array_eq_minimax_masks_witness :
    wfBoard ['X', 'X', ' ', 'O', 'O', 'X', 'O', 'X', ' '] ∧ (1 : Nat) ≤ 9 ∧
      minimax_array ['X', 'X', ' ', 'O', 'O', 'X', 'O', 'X', ' '] 1 true
          (-1000) 1000 'X' 'O' =
        minimax_masks
          (boardToMasks ['X', 'X', ' ', 'O', 'O', 'X', 'O', 'X', ' ']).1
          (boardToMasks ['X', 'X', ' ', 'O', 'O', 'X', 'O', 'X', ' ']).2
          1 (-1000) 1000 true := by
  refine ⟨?_, by omega, ?_⟩
  · constructor
    · rfl
    · decide
  · have h := minimax_array_eq_minimax_masks
      ['X', 'X', ' ', 'O', 'O', 'X', 'O', 'X', ' '] 1 true 'X' 'O'
      ⟨rfl, by decide⟩ (by omega) (Or.inl ⟨rfl, rfl⟩)
    rw [if_pos rfl, if_pos rfl] at h
    exact h

/-- C2 (amended): terminal evaluation order of the search functions.
Both variants first check the own-win, then the opponent-win, returning
`10 - depth` and `depth - 10`; the `PERFECT_minimax.c` variant then
returns 0 when the board is full or `depth == 9`, while the `Minimax.c`
variant checks only board fullness and has no `depth == 9` clause. -/
theorem minimax_terminal_order (p o d : Nat) (a b : Int) (m : Bool) :
    (isWinnerMask p = true →
      PERFECT.minimax_masks p o d a b m = 10 - (d : Int) ∧
      minimax_masks p o d a b m = 10 - (d : Int)) ∧
    (isWinnerMask p = false → isWinnerMask o = true →
      PERFECT.minimax_masks p o d a b m = (d : Int) - 10 ∧
      minimax_masks p o d a b m = (d : Int) - 10) ∧
    (isWinnerMask p = false → isWinnerMask o = false →
      (p ||| o = 0x1FF ∨ d = 9) →
      PERFECT.minimax_masks p o d a b m = 0) ∧
    (isWinnerMask p = false → isWinnerMask o = false → p ||| o = 0x1FF →
      minimax_masks p o d a b m = 0) := by
  refine ⟨?_, ?_, ?_, ?_⟩
  · intro hw
    constructor
    · unfold PERFECT.minimax_masks PERFECT.minimax_masksF
      simp [hw]
    · unfold minimax_masks abSearchF
      simp [hw]
  · intro hw1 hw2
    constructor
    · unfold PERFECT.minimax_masks PERFECT.minimax_masksF
      simp [hw1, hw2]
      omega
    · unfold minimax_masks abSearchF
      simp [hw1, hw2]
      omega
  · intro hw1 hw2 hful
    unfold PERFECT.minimax_masks PERFECT.minimax_masksF
    simp [hw1, hw2, hful]
  · intro hw1 hw2 hful
    unfold minimax_masks abSearchF
    simp [hw1, hw2, hful]

theorem minimax_terminal_order_witness :
    isWinnerMask 7 = true ∧
      minimax_masks 7 0 3 (-1000) 1000 true = 10 - (3 : Int) :=
  ⟨by decide, ((minimax_terminal_order 7 0 3 (-1000) 1000 true).1 (by decide)).2⟩

/-- C2 (counterexample): the `Minimax.c` search has no `depth == 9`
terminal clause.  At `depth = 9` on a non-full winnerless position it
recurses and returns a nonzero score where the claim requires 0. -/
theorem minimax_masks_depth_nine_cex :
    isWinnerMask 426 = false ∧ isWinnerMask 80 = false ∧
      426 &&& 80 = 0 ∧ 426 ||| 80 ≠ 0x1FF ∧
      minimax_masks 426 80 9 (-1000) 1000 true = 1 ∧
      minimax_masks 426 80 9 (-1000) 1000 true ≠ 0 := by
  refine ⟨by decide, by decide, by decide, by decide, by decide, by decide⟩

/-- The depth-1, full-window score `findBestMoveMinimax` computes for a
candidate cell. -/
def moveScore (aiMask oppMask : Nat) (pos : Fin 9) : Int :=
  minimax_masks (aiMask ||| (1 <<< (pos : Nat))) oppMask 1 (-1000) 1000 false

/-- Conversion of a cell index to the `(row, col)` move the engine
stores (`pos / 3`, `pos % 3`). -/
def posToMove (pos : Fin 9) : Move :=
  ⟨((pos : Nat) / 3 : Nat), ((pos : Nat) % 3 : Nat)⟩

/-- The candidate list the Deterministic-optimal engine draws from. -/
def bestCandidates (aiMask oppMask : Nat) : List Move :=
  (candLoop aiMask oppMask MOVE_ORDER (-1000) []).2

/-- The running maximum score over the free cells of a move list, as a
no-pruning fold with the engine's per-move score as child. -/
def maxScoreOver (aiMask oppMask : Nat) (moves : List (Fin 9))
    (bestVal : Int) : Int :=
  npLoopF (fun p1 o1 _ => minimax_masks p1 o1 1 (-1000) 1000 false)
    aiMask oppMask true moves bestVal

theorem candLoop_spec (aiMask oppMask : Nat) :
    ∀ (moves : List (Fin 9)) (bestVal : Int) (cands : List Move),
      candLoop aiMask oppMask moves bestVal cands =
        (maxScoreOver aiMask oppMask moves bestVal,
         (if maxScoreOver aiMask oppMask moves bestVal = bestVal then cands
          else []) ++
           (moves.filter (fun (pos : Fin 9) =>
              decide ((aiMask ||| oppMask) &&& (1 <<< (pos : Nat)) = 0) &&
              decide (moveScore aiMask oppMask pos =
                maxScoreOver aiMask oppMask moves bestVal))).map posToMove) := by
  intro moves
  induction moves with
  | nil =>
    intro bestVal cands
    simp [candLoop, maxScoreOver, npLoopF_nil]
  | cons pos rest ih =>
    intro bestVal cands
    by_cases hfree : (aiMask ||| oppMask) &&& (1 <<< (pos : Nat)) = 0
    · have hM : maxScoreOver aiMask oppMask (pos :: rest) bestVal =
          maxScoreOver aiMask oppMask rest
            (max bestVal (moveScore aiMask oppMask pos)) := by
        unfold maxScoreOver
        rw [npLoopF_cons_max _ _ _ _ _ _ hfree]
        rfl
      have hLHS : candLoop aiMask oppMask (pos :: rest) bestVal cands =
          (if moveScore aiMask oppMask pos > bestVal then
            candLoop aiMask oppMask rest (moveScore aiMask oppMask pos)
              [posToMove pos]
          else if moveScore aiMask oppMask pos = bestVal then
            candLoop aiMask oppMask rest bestVal (cands ++ [posToMove pos])
          else candLoop aiMask oppMask rest bestVal cands) := by
        conv_lhs => unfold candLoop
        simp only [hfree, if_pos]
        rfl
      have hfiltercons : ∀ M : Int,
          ((pos :: rest).filter (fun (q : Fin 9) =>
            decide ((aiMask ||| oppMask) &&& (1 <<< (q : Nat)) = 0) &&
            decide (moveScore aiMask oppMask q = M))).map posToMove =
          (if moveScore aiMask oppMask pos = M then [posToMove pos] else []) ++
            ((rest.filter (fun (q : Fin 9) =>
              decide ((aiMask ||| oppMask) &&& (1 <<< (q : Nat)) = 0) &&
              decide (moveScore aiMask oppMask q = M))).map posToMove) := by
        intro M
        rw [List.filter_cons]
        by_cases hseq : moveScore aiMask oppMask pos = M
        · rw [if_pos (by rw [decide_eq_true hfree, decide_eq_true hseq]; rfl),
            if_pos hseq, List.map_cons, List.singleton_append]
        · rw [if_neg (by rw [decide_eq_true hfree, decide_eq_false hseq]; simp),
            if_neg hseq, List.nil_append]
      rw [hLHS, hM]
      rcases lt_trichotomy bestVal (moveScore aiMask oppMask pos)
        with hlt | heq | hgt
      · rw [if_pos (by omega), max_eq_right (le_of_lt hlt), ih]
        have hge : moveScore aiMask oppMask pos ≤
            maxScoreOver aiMask oppMask rest (moveScore aiMask oppMask pos) :=
          npLoopF_ge _ _ _ _ _
        refine Prod.ext rfl ?_
        show _ = _
        rw [hfiltercons]
        by_cases hMs : maxScoreOver aiMask oppMask rest
            (moveScore aiMask oppMask pos) = moveScore aiMask oppMask pos
        · rw [if_pos hMs, if_neg (by omega), if_pos (by omega), List.nil_append]
        · rw [if_neg hMs, if_neg (by omega),
            if_neg (fun h => hMs h.symm), List.nil_append, List.nil_append]
      · rw [if_neg (by omega), if_pos heq.symm, max_eq_left (le_of_eq heq.symm),
          ih]
        have hge : bestVal ≤ maxScoreOver aiMask oppMask rest bestVal :=
          npLoopF_ge _ _ _ _ _
        refine Prod.ext rfl ?_
        show _ = _
        rw [hfiltercons]
        by_cases hMb : maxScoreOver aiMask oppMask rest bestVal = bestVal
        · rw [if_pos hMb, if_pos hMb, if_pos (by omega), List.append_assoc,
            List.singleton_append]
        · rw [if_neg hMb, if_neg hMb, if_neg (by omega), List.nil_append,
            List.nil_append]
      · rw [if_neg (by omega), if_neg (by omega),
          max_eq_left (le_of_lt hgt), ih]
        have hge : bestVal ≤ maxScoreOver aiMask oppMask rest bestVal :=
          npLoopF_ge _ _ _ _ _
        refine Prod.ext rfl ?_
        show _ = _
        rw [hfiltercons, if_neg (show ¬(moveScore aiMask oppMask pos =
          maxScoreOver aiMask oppMask rest bestVal) by omega),
          List.nil_append]
    · have hM : maxScoreOver aiMask oppMask (pos :: rest) bestVal =
          maxScoreOver aiMask oppMask rest bestVal := by
        unfold maxScoreOver
        rw [npLoopF_cons_skip _ _ _ _ _ _ _ hfree]
      have hLHS : candLoop aiMask oppMask (pos :: rest) bestVal cands =
          candLoop aiMask oppMask rest bestVal cands := by
        conv_lhs => unfold candLoop
        simp only [hfree, if_neg, if_false]
      rw [hLHS, hM, ih]
      refine Prod.ext rfl ?_
      show _ = _
      rw [List.filter_cons,
        if_neg (show ¬((decide ((aiMask ||| oppMask) &&& (1 <<< (pos : Nat)) = 0)
            && decide (moveScore aiMask oppMask pos =
              maxScoreOver aiMask oppMask rest bestVal)) = true) by
          rw [decide_eq_false hfree]; simp)]

theorem moveScore_bounds (aiMask oppMask : Nat) (pos : Fin 9)
    (hlt : aiMask ||| oppMask < 512) :
    -30 ≤ moveScore aiMask oppMask pos ∧ moveScore aiMask oppMask pos ≤ 30 := by
  unfold moveScore minimax_masks
  have hocc : (aiMask ||| (1 <<< (pos : Nat))) ||| oppMask =
      (aiMask ||| oppMask) ||| (1 <<< (pos : Nat)) := child_occ_max _ _ _
  have hlt2 : (aiMask ||| (1 <<< (pos : Nat))) ||| oppMask < 512 := by
    rw [hocc]; exact child_lt_512 _ _ _ hlt
  have hdf : 1 + freeCount ((aiMask ||| (1 <<< (pos : Nat))) ||| oppMask) ≤ 18 := by
    have := freeCount_le_nine ((aiMask ||| (1 <<< (pos : Nat))) ||| oppMask)
    omega
  rw [abSearchF_eq_np MOVE_ORDER move_order_covers 10 _ _ 1 false hlt2 hdf]
  exact npSearchF_bounds MOVE_ORDER move_order_covers 10 _ _ 1 false hlt2 hdf

theorem maxScoreOver_pos_bounds (aiMask oppMask : Nat)
    (hlt : aiMask ||| oppMask < 512) (pos : Fin 9)
    (hfree : (aiMask ||| oppMask) &&& (1 <<< (pos : Nat)) = 0) :
    -30 ≤ maxScoreOver aiMask oppMask MOVE_ORDER (-1000) := by
  have hs := (moveScore_bounds aiMask oppMask pos hlt).1
  unfold maxScoreOver
  rw [npLoopF_max_lb_iff]
  exact Or.inr ⟨pos, move_order_covers pos, hfree, hs⟩

theorem maxScore_attained (aiMask oppMask : Nat)
    (hlt : aiMask ||| oppMask < 512) (pos : Fin 9)
    (hfree : (aiMask ||| oppMask) &&& (1 <<< (pos : Nat)) = 0) :
    ∃ q : Fin 9, q ∈ MOVE_ORDER ∧
      (aiMask ||| oppMask) &&& (1 <<< (q : Nat)) = 0 ∧
      moveScore aiMask oppMask q = maxScoreOver aiMask oppMask MOVE_ORDER (-1000) := by
  have hlb := (npLoopF_max_lb_iff
    (fun p1 o1 _ => minimax_masks p1 o1 1 (-1000) 1000 false)
    aiMask oppMask MOVE_ORDER (-1000)
    (maxScoreOver aiMask oppMask MOVE_ORDER (-1000))).mp (le_refl _)
  have hub := (npLoopF_max_ub_iff
    (fun p1 o1 _ => minimax_masks p1 o1 1 (-1000) 1000 false)
    aiMask oppMask MOVE_ORDER (-1000)
    (maxScoreOver aiMask oppMask MOVE_ORDER (-1000))).mp (le_refl _)
  have hM := maxScoreOver_pos_bounds aiMask oppMask hlt pos hfree
  rcases hlb with hbad | ⟨q, hq, hfq, hcq⟩
  · omega
  · exact ⟨q, hq, hfq, le_antisymm (hub.2 q hq hfq) hcq⟩

theorem bestCandidates_spec (aiMask oppMask : Nat)
    (hlt : aiMask ||| oppMask < 512) (pos : Fin 9)
    (hfree : (aiMask ||| oppMask) &&& (1 <<< (pos : Nat)) = 0) :
    bestCandidates aiMask oppMask =
      (MOVE_ORDER.filter (fun (q : Fin 9) =>
        decide ((aiMask ||| oppMask) &&& (1 <<< (q : Nat)) = 0) &&
        decide (moveScore aiMask oppMask q =
          maxScoreOver aiMask oppMask MOVE_ORDER (-1000)))).map posToMove ∧
    bestCandidates aiMask oppMask ≠ [] := by
  have hM := maxScoreOver_pos_bounds aiMask oppMask hlt pos hfree
  have hspec := candLoop_spec aiMask oppMask MOVE_ORDER (-1000) []
  have hne : ¬(maxScoreOver aiMask oppMask MOVE_ORDER (-1000) = -1000) := by
    omega
  constructor
  · unfold bestCandidates
    rw [hspec]
    show (if _ then _ else _) ++ _ = _
    rw [if_neg hne, List.nil_append]
  · unfold bestCandidates
    rw [hspec]
    show (if _ then _ else _) ++ _ ≠ _
    rw [if_neg hne, List.nil_append]
    obtain ⟨q, hq, hfq, hcq⟩ := maxScore_attained aiMask oppMask hlt pos hfree
    intro hempty
    have : q ∈ MOVE_ORDER.filter (fun (q : Fin 9) =>
        decide ((aiMask ||| oppMask) &&& (1 <<< (q : Nat)) = 0) &&
        decide (moveScore aiMask oppMask q =
          maxScoreOver aiMask oppMask MOVE_ORDER (-1000))) := by
      rw [List.mem_filter]
      exact ⟨hq, by rw [decide_eq_true hfq, decide_eq_true hcq]; rfl⟩
    rw [List.eq_nil_iff_forall_not_mem] at hempty
    exact hempty (posToMove q) (List.mem_map_of_mem posToMove this)

theorem getPlayerMasks_cases (maskX maskO : Nat) (aiSymbol : Char) :
    getPlayerMasks maskX maskO aiSymbol = (maskX, maskO) ∨
      getPlayerMasks maskX maskO aiSymbol = (maskO, maskX) := by
  by_cases h0 : countBits maskX = 0 ∧ countBits maskO = 0
  · by_cases hs : aiSymbol = 'X'
    · left
      simp [getPlayerMasks, h0, hs]
    · right
      simp [getPlayerMasks, h0, hs]
  · by_cases hle : countBits maskX ≤ countBits maskO
    · left
      simp [getPlayerMasks, h0, hle]
    · right
      simp [getPlayerMasks, h0, hle]

theorem getPlayerMasks_occ (maskX maskO : Nat) (aiSymbol : Char) :
    (getPlayerMasks maskX maskO aiSymbol).1 |||
      (getPlayerMasks maskX maskO aiSymbol).2 = maskX ||| maskO := by
  rcases getPlayerMasks_cases maskX maskO aiSymbol with h | h <;> rw [h]
  exact Nat.or_comm _ _

theorem emptyCellsList_mem (occupied i : Nat) :
    i ∈ emptyCellsList occupied ↔
      i < 9 ∧ occupied &&& (1 <<< i) = 0 := by
  unfold emptyCellsList
  rw [List.mem_filter, List.mem_range, beq_iff_eq]

theorem emptyCellsList_ne_nil (occupied : Nat)
    (h : ∃ i < 9, occupied &&& (1 <<< i) = 0) :
    emptyCellsList occupied ≠ [] := by
  obtain ⟨i, hi, hf⟩ := h
  intro hempty
  rw [List.eq_nil_iff_forall_not_mem] at hempty
  exact hempty i ((emptyCellsList_mem occupied i).mpr ⟨hi, hf⟩)

/-- The mover mask the engine infers for a board (its setup pipeline:
encode, then `getPlayerMasks`). -/
def aiMaskOf (board : List Char) (aiSymbol : Char) : Nat :=
  (getPlayerMasks (boardToMasks board).1 (boardToMasks board).2 aiSymbol).1

/-- The opponent mask the engine infers for a board. -/
def oppMaskOf (board : List Char) (aiSymbol : Char) : Nat :=
  (getPlayerMasks (boardToMasks board).1 (boardToMasks board).2 aiSymbol).2

theorem aiMaskOf_occ (board : List Char) (aiSymbol : Char) :
    aiMaskOf board aiSymbol ||| oppMaskOf board aiSymbol =
      (boardToMasks board).1 ||| (boardToMasks board).2 :=
  getPlayerMasks_occ _ _ _

theorem aiMaskOf_occ_lt (board : List Char) (aiSymbol : Char) :
    aiMaskOf board aiSymbol ||| oppMaskOf board aiSymbol < 512 := by
  rw [aiMaskOf_occ]
  exact Nat.or_lt_two_pow (n := 9) (boardToMasks_lt board).1
    (boardToMasks_lt board).2

theorem findBestMoveMinimax_zero_eq (board : List Char) (aiSymbol : Char)
    (rng : List Nat) (i : Nat) (hi : i < 9)
    (hfree : board.getD i ' ' ≠ 'X' ∧ board.getD i ' ' ≠ 'O') :
    findBestMoveMinimax board aiSymbol 0 rng =
      ((bestCandidates (aiMaskOf board aiSymbol)
          (oppMaskOf board aiSymbol)).getD
        (rng.headD 0 %
          (bestCandidates (aiMaskOf board aiSymbol)
            (oppMaskOf board aiSymbol)).length) ⟨-1, -1⟩,
       rng.tail) := by
  have hfreeM : ((boardToMasks board).1 ||| (boardToMasks board).2) &&&
      (1 <<< i) = 0 := (free_cell_bridge board i hi).mpr hfree
  have hfreeO : (aiMaskOf board aiSymbol ||| oppMaskOf board aiSymbol) &&&
      (1 <<< i) = 0 := by rw [aiMaskOf_occ]; exact hfreeM
  have hnn : emptyCellsList
      (aiMaskOf board aiSymbol ||| oppMaskOf board aiSymbol) ≠ [] :=
    emptyCellsList_ne_nil _ ⟨i, hi, hfreeO⟩
  have hcne : bestCandidates (aiMaskOf board aiSymbol)
      (oppMaskOf board aiSymbol) ≠ [] :=
    (bestCandidates_spec _ _ (aiMaskOf_occ_lt board aiSymbol) ⟨i, hi⟩
      hfreeO).2
  unfold findBestMoveMinimax
  rw [if_neg (by
    intro h
    exact hnn (List.length_eq_zero.mp h)), if_neg (by omega)]
  simp only [pickBestCandidate]
  have hcne2 : (candLoop
      (getPlayerMasks (boardToMasks board).1 (boardToMasks board).2 aiSymbol).1
      (getPlayerMasks (boardToMasks board).1 (boardToMasks board).2 aiSymbol).2
      MOVE_ORDER (-1000) []).2 ≠ [] := hcne
  rw [if_pos (List.length_pos.mpr hcne2)]
  rfl

/-- C3: in Deterministic-optimal mode (error rate 0), on a board with
an empty cell, the candidate list is exactly the empty cells (in
`MOVE_ORDER`) whose depth-1 search score equals the maximum score, the
returned move is `bestCandidates[rand() % candidateCount]`, and every
candidate is returned for some draw of the random stream — the result
is not bound to the first maximal cell. -/
theorem deterministic_optimal_tie_break (board : List Char)
    (aiSymbol : Char) (rng : List Nat) (i : Nat) (hi : i < 9)
    (hfree : board.getD i ' ' ≠ 'X' ∧ board.getD i ' ' ≠ 'O') :
    bestCandidates (aiMaskOf board aiSymbol) (oppMaskOf board aiSymbol) =
      (MOVE_ORDER.filter (fun (q : Fin 9) =>
        decide ((aiMaskOf board aiSymbol ||| oppMaskOf board aiSymbol) &&&
          (1 <<< (q : Nat)) = 0) &&
        decide (moveScore (aiMaskOf board aiSymbol)
            (oppMaskOf board aiSymbol) q =
          maxScoreOver (aiMaskOf board aiSymbol) (oppMaskOf board aiSymbol)
            MOVE_ORDER (-1000)))).map posToMove ∧
    (findBestMoveMinimax board aiSymbol 0 rng).1 =
      (bestCandidates (aiMaskOf board aiSymbol)
          (oppMaskOf board aiSymbol)).getD
        (rng.headD 0 %
          (bestCandidates (aiMaskOf board aiSymbol)
            (oppMaskOf board aiSymbol)).length) ⟨-1, -1⟩ ∧
    ∀ k, k < (bestCandidates (aiMaskOf board aiSymbol)
        (oppMaskOf board aiSymbol)).length →
      ∃ r : Nat, (findBestMoveMinimax board aiSymbol 0 [r]).1 =
        (bestCandidates (aiMaskOf board aiSymbol)
          (oppMaskOf board aiSymbol)).getD k ⟨-1, -1⟩ := by
  have hfreeO : (aiMaskOf board aiSymbol ||| oppMaskOf board aiSymbol) &&&
      (1 <<< i) = 0 := by
    rw [aiMaskOf_occ]
    exact (free_cell_bridge board i hi).mpr hfree
  refine ⟨?_, ?_, ?_⟩
  · exact (bestCandidates_spec _ _ (aiMaskOf_occ_lt board aiSymbol) ⟨i, hi⟩
      hfreeO).1
  · rw [findBestMoveMinimax_zero_eq board aiSymbol rng i hi hfree]
  · intro k hk
    refine ⟨k, ?_⟩
    rw [findBestMoveMinimax_zero_eq board aiSymbol [k] i hi hfree]
    show List.getD _ (k % _) _ = _
    rw [Nat.mod_eq_of_lt hk]

theorem deterministic_optimal_tie_break_witness :
    (2 : Nat) < 9 ∧
      (['X', 'X', ' ', 'O', 'O', ' ', ' ', ' ', ' '].getD 2 ' ' ≠ 'X' ∧
        ['X', 'X', ' ', 'O', 'O', ' ', ' ', ' ', ' '].getD 2 ' ' ≠ 'O') ∧
      (findBestMoveMinimax ['X', 'X', ' ', 'O', 'O', ' ', ' ', ' ', ' ']
          'X' 0 [5]).1 =
        (bestCandidates
            (aiMaskOf ['X', 'X', ' ', 'O', 'O', ' ', ' ', ' ', ' '] 'X')
            (oppMaskOf ['X', 'X', ' ', 'O', 'O', ' ', ' ', ' ', ' '] 'X')).getD
          (([5] : List Nat).headD 0 %
            (bestCandidates
              (aiMaskOf ['X', 'X', ' ', 'O', 'O', ' ', ' ', ' ', ' '] 'X')
              (oppMaskOf ['X', 'X', ' ', 'O', 'O', ' ', ' ', ' ', ' '] 'X')).length)
          ⟨-1, -1⟩ :=
  ⟨by omega, ⟨by decide, by decide⟩,
    (deterministic_optimal_tie_break
      ['X', 'X', ' ', 'O', 'O', ' ', ' ', ' ', ' '] 'X' [5] 2 (by omega)
      ⟨by decide, by decide⟩).2.1⟩

/-- C8: on the board `[[X,X,_],[O,O,_],[_,_,_]]` with `X` to move,
cell `(0,2)` completes the top row: its depth-1 score 9 strictly
exceeds every other empty cell's score, the candidate list is the
singleton `[(0,2)]`, and Deterministic-optimal `findBestMoveMinimax`
returns `(0,2)` for every random stream; `findBestMovePerfect`
agrees. -/
theorem immediate_win_unique :
    bestCandidates (aiMaskOf ['X', 'X', ' ', 'O', 'O', ' ', ' ', ' ', ' '] 'X')
        (oppMaskOf ['X', 'X', ' ', 'O', 'O', ' ', ' ', ' ', ' '] 'X') =
      [⟨0, 2⟩] ∧
    moveScore (aiMaskOf ['X', 'X', ' ', 'O', 'O', ' ', ' ', ' ', ' '] 'X')
      (oppMaskOf ['X', 'X', ' ', 'O', 'O', ' ', ' ', ' ', ' '] 'X') 2 = 9 ∧
    (∀ q : Fin 9, q ≠ 2 →
      ((aiMaskOf ['X', 'X', ' ', 'O', 'O', ' ', ' ', ' ', ' '] 'X' |||
        oppMaskOf ['X', 'X', ' ', 'O', 'O', ' ', ' ', ' ', ' '] 'X') &&&
          (1 <<< (q : Nat)) = 0) →
      moveScore (aiMaskOf ['X', 'X', ' ', 'O', 'O', ' ', ' ', ' ', ' '] 'X')
          (oppMaskOf ['X', 'X', ' ', 'O', 'O', ' ', ' ', ' ', ' '] 'X') q <
        9) ∧
    (∀ rng : List Nat,
      (findBestMoveMinimax ['X', 'X', ' ', 'O', 'O', ' ', ' ', ' ', ' ']
        'X' 0 rng).1 = ⟨0, 2⟩) ∧
    findBestMovePerfect ['X', 'X', ' ', 'O', 'O', ' ', ' ', ' ', ' '] 'X' =
      ⟨0, 2⟩ := by
  have hc : bestCandidates
      (aiMaskOf ['X', 'X', ' ', 'O', 'O', ' ', ' ', ' ', ' '] 'X')
      (oppMaskOf ['X', 'X', ' ', 'O', 'O', ' ', ' ', ' ', ' '] 'X') =
      [⟨0, 2⟩] := by decide
  refine ⟨hc, by decide, by decide, ?_, by decide⟩
  intro rng
  rw [findBestMoveMinimax_zero_eq ['X', 'X', ' ', 'O', 'O', ' ', ' ', ' ', ' ']
    'X' rng 2 (by omega) ⟨by decide, by decide⟩]
  show List.getD _ _ _ = _
  rw [hc]
  simp [Nat.mod_one]

/-- C6: in Optimal-with-error-rate mode (`errorRate = p > 0`), on a
board with an empty cell, one single gate draw `r` is consumed per
call and compared through `r % 100` (a value in `[0,100)`).  If it is
strictly below `p` the engine returns a uniformly drawn empty cell
without searching — every legal move arises for some second draw —
and otherwise the call returns exactly the Deterministic-optimal
result (`errorRate = 0`) on the same board with the remaining
stream. -/
theorem error_rate_gate (board : List Char) (aiSymbol : Char) (p : Int)
    (r : Nat) (rest : List Nat) (hp : 0 < p) (i : Nat) (hi : i < 9)
    (hfree : board.getD i ' ' ≠ 'X' ∧ board.getD i ' ' ≠ 'O') :
    r % 100 < 100 ∧
    (((r % 100 : Nat) : Int) < p →
      findBestMoveMinimax board aiSymbol p (r :: rest) =
        (⟨(((emptyCellsList (aiMaskOf board aiSymbol |||
              oppMaskOf board aiSymbol)).getD
            (rest.headD 0 %
              (emptyCellsList (aiMaskOf board aiSymbol |||
                oppMaskOf board aiSymbol)).length) 0) / 3 : Nat),
          (((emptyCellsList (aiMaskOf board aiSymbol |||
              oppMaskOf board aiSymbol)).getD
            (rest.headD 0 %
              (emptyCellsList (aiMaskOf board aiSymbol |||
                oppMaskOf board aiSymbol)).length) 0) % 3 : Nat)⟩,
         rest.tail)) ∧
    (¬(((r % 100 : Nat) : Int) < p) →
      findBestMoveMinimax board aiSymbol p (r :: rest) =
        findBestMoveMinimax board aiSymbol 0 rest) ∧
    (∀ k, k < (emptyCellsList (aiMaskOf board aiSymbol |||
        oppMaskOf board aiSymbol)).length →
      (findBestMoveMinimax board aiSymbol p (0 :: [k])).1 =
        ⟨(((emptyCellsList (aiMaskOf board aiSymbol |||
            oppMaskOf board aiSymbol)).getD k 0) / 3 : Nat),
         (((emptyCellsList (aiMaskOf board aiSymbol |||
            oppMaskOf board aiSymbol)).getD k 0) % 3 : Nat)⟩) := by
  have hfreeO : (aiMaskOf board aiSymbol ||| oppMaskOf board aiSymbol) &&&
      (1 <<< i) = 0 := by
    rw [aiMaskOf_occ]
    exact (free_cell_bridge board i hi).mpr hfree
  have hnn : emptyCellsList
      (aiMaskOf board aiSymbol ||| oppMaskOf board aiSymbol) ≠ [] :=
    emptyCellsList_ne_nil _ ⟨i, hi, hfreeO⟩
  have hlen : (emptyCellsList (aiMaskOf board aiSymbol |||
      oppMaskOf board aiSymbol)).length ≠ 0 :=
    fun h => hnn (List.length_eq_zero.mp h)
  have hgen : ∀ (r1 : Nat) (rest1 : List Nat),
      (((r1 % 100 : Nat) : Int) < p →
        findBestMoveMinimax board aiSymbol p (r1 :: rest1) =
          (⟨(((emptyCellsList (aiMaskOf board aiSymbol |||
                oppMaskOf board aiSymbol)).getD
              (rest1.headD 0 %
                (emptyCellsList (aiMaskOf board aiSymbol |||
                  oppMaskOf board aiSymbol)).length) 0) / 3 : Nat),
            (((emptyCellsList (aiMaskOf board aiSymbol |||
                oppMaskOf board aiSymbol)).getD
              (rest1.headD 0 %
                (emptyCellsList (aiMaskOf board aiSymbol |||
                  oppMaskOf board aiSymbol)).length) 0) % 3 : Nat)⟩,
           rest1.tail)) ∧
      (¬(((r1 % 100 : Nat) : Int) < p) →
        findBestMoveMinimax board aiSymbol p (r1 :: rest1) =
          findBestMoveMinimax board aiSymbol 0 rest1) := by
    intro r1 rest1
    have hlenR : ¬((emptyCellsList
        ((getPlayerMasks (boardToMasks board).1 (boardToMasks board).2
            aiSymbol).1 |||
          (getPlayerMasks (boardToMasks board).1 (boardToMasks board).2
            aiSymbol).2)).length = 0) := hlen
    constructor
    · intro hgate
      simp only [findBestMoveMinimax]
      rw [if_neg hlenR, if_pos hp,
        if_pos (show ((((r1 :: rest1).headD 0) % 100 : Nat) : Int) < p by
          simpa using hgate)]
      rfl
    · intro hgate
      simp only [findBestMoveMinimax]
      rw [if_neg hlenR, if_neg hlenR, if_pos hp,
        if_neg (show ¬((0 : Int) > 0) by omega),
        if_neg (show ¬((((r1 :: rest1).headD 0) % 100 : Nat) : Int) < p by
          simpa using hgate)]
      rfl
  refine ⟨Nat.mod_lt r (by omega), (hgen r rest).1, (hgen r rest).2, ?_⟩
  intro k hk
  have h0 : (((0 % 100 : Nat) : Int)) < p := by simpa using hp
  rw [((hgen 0 [k]).1 h0)]
  show Move.mk _ _ = Move.mk _ _
  rw [show ([k] : List Nat).headD 0 = k from rfl, Nat.mod_eq_of_lt hk]

/-- C4 (amended): the side with strictly fewer set bits is the mover;
on an exact tie the supplied mover symbol is consulted only when both
masks are empty (the empty board) — on any other tie the X mask is
selected regardless of the symbol. -/
theorem turn_inference_spec (maskX maskO : Nat) (aiSymbol : Char) :
    (countBits maskX < countBits maskO →
      getPlayerMasks maskX maskO aiSymbol = (maskX, maskO)) ∧
    (countBits maskO < countBits maskX →
      getPlayerMasks maskX maskO aiSymbol = (maskO, maskX)) ∧
    (countBits maskX = 0 → countBits maskO = 0 →
      getPlayerMasks maskX maskO aiSymbol =
        if aiSymbol = 'X' then (maskX, maskO) else (maskO, maskX)) ∧
    (countBits maskX = countBits maskO →
      ¬(countBits maskX = 0 ∧ countBits maskO = 0) →
      getPlayerMasks maskX maskO aiSymbol = (maskX, maskO)) := by
  refine ⟨?_, ?_, ?_, ?_⟩
  · intro h
    unfold getPlayerMasks
    rw [if_neg (by omega), if_pos (by omega)]
  · intro h
    unfold getPlayerMasks
    rw [if_neg (by omega), if_neg (by omega)]
  · intro h1 h2
    unfold getPlayerMasks
    rw [if_pos ⟨h1, h2⟩]
  · intro h1 h2
    unfold getPlayerMasks
    rw [if_neg h2, if_pos (by omega)]

theorem turn_inference_spec_witness :
    countBits 1 = countBits 2 ∧ ¬(countBits 1 = 0 ∧ countBits 2 = 0) ∧
      getPlayerMasks 1 2 'O' = (1, 2) :=
  ⟨by decide, by decide,
    (turn_inference_spec 1 2 'O').2.2.2 (by decide) (by decide)⟩

/-- C4 (counterexample): masks 1 and 2 hold one stone each (an exact
tie on a non-empty board); with mover symbol `'O'` the claim requires
the O mask (2) to be selected as the side to move, but the code
selects the X mask (1). -/
theorem turn_inference_cex :
    countBits 1 = countBits 2 ∧
      getPlayerMasks 1 2 'O' = (1, 2) ∧ (getPlayerMasks 1 2 'O').1 ≠ 2 := by
  refine ⟨by decide, by decide, by decide⟩

/-- C5 (amended): the Linear Evaluator returns the row-major sum of
`feature i * weight i` plus the bias, where the `+1` feature is bound
to the fixed symbol `'X'` and `-1` to `'O'` — the mover is not
consulted; equivalently it computes the spec's formula specialized to
mover `'X'`. -/
theorem evaluateBoardLogistic_linear (board : List Char) :
    evaluateBoardLogistic board =
      (∑ i ∈ Finset.range 9,
        (if board.getD i ' ' = 'X' then (1 : Rat)
         else if board.getD i ' ' = 'O' then -1 else 0) *
          LR_WEIGHTS.getD i 0) + LR_BIAS ∧
    evaluateBoardLogistic board = specLinearScore board 'X' := by
  have hsum : evaluateBoardLogistic board =
      (∑ i ∈ Finset.range 9,
        (if board.getD i ' ' = 'X' then (1 : Rat)
         else if board.getD i ' ' = 'O' then -1 else 0) *
          LR_WEIGHTS.getD i 0) + LR_BIAS := by
    unfold evaluateBoardLogistic
    rw [show List.range 9 = [0, 1, 2, 3, 4, 5, 6, 7, 8] from rfl]
    simp only [List.foldl_cons, List.foldl_nil, Finset.sum_range_succ,
      Finset.sum_range_zero]
  refine ⟨hsum, hsum.trans ?_⟩
  have hXX : (('X' : Char) = 'X') = True := eq_true rfl
  unfold specLinearScore
  simp only [hXX, if_true, ite_true]

/-- C5 (counterexample): on the board with a single `'O'` stone at
cell 0 and `'O'` as the mover, the claim's mover-relative formula
gives `+w0 + bias` but the implementation returns `-w0 + bias`. -/
theorem evaluateBoardLogistic_mover_cex :
    specLinearScore ['O', ' ', ' ', ' ', ' ', ' ', ' ', ' ', ' '] 'O' ≠
      evaluateBoardLogistic ['O', ' ', ' ', ' ', ' ', ' ', ' ', ' ', ' '] := by
  have cOX : ('O' = 'X') = False := eq_false (by decide)
  have cSO : ((' ' : Char) = 'O') = False := eq_false (by decide)
  have cSX : ((' ' : Char) = 'X') = False := eq_false (by decide)
  have cOO : ('O' = 'O') = True := eq_true rfl
  have h1 : specLinearScore ['O', ' ', ' ', ' ', ' ', ' ', ' ', ' ', ' '] 'O' =
      LR_WEIGHTS.getD 0 0 + LR_BIAS := by
    unfold specLinearScore
    norm_num [Finset.sum_range_succ, cOX, cSO, cSX, cOO]
  have h2 : evaluateBoardLogistic ['O', ' ', ' ', ' ', ' ', ' ', ' ', ' ', ' '] =
      -LR_WEIGHTS.getD 0 0 + LR_BIAS := by
    unfold evaluateBoardLogistic
    rw [show List.range 9 = [0, 1, 2, 3, 4, 5, 6, 7, 8] from rfl]
    norm_num [cOX, cSO, cSX, cOO]
  rw [h1, h2]
  norm_num [LR_WEIGHTS, LR_BIAS]

theorem set_getD_self (l : List Char) (i : Nat) (h : l.getD i ' ' = ' ') :
    l.set i ' ' = l := by
  induction l generalizing i with
  | nil => rfl
  | cons a t ih =>
    cases i with
    | zero =>
      simp only [List.getD_cons_zero] at h
      simp [List.set, h]
    | succ n =>
      simp only [List.getD_cons_succ] at h
      simp [List.set, ih n h]

theorem modelLoop_snd (cells : List Nat) :
    ∀ (board : List Char) (bv : Rat) (bm : Move),
      (modelLoop cells board bv bm).2 = board := by
  induction cells with
  | nil => intro board bv bm; rfl
  | cons idx rest ih =>
    intro board bv bm
    by_cases hc : board.getD idx ' ' = ' '
    · have hb2 : (board.set idx 'X').set idx ' ' = board := by
        rw [List.set_set]; exact set_getD_self board idx hc
      simp only [modelLoop, if_pos hc, hb2]
      split
      · exact ih board _ _
      · exact ih board bv bm
    · simp only [modelLoop, if_neg hc]
      exact ih board bv bm

/-- C9: the evaluator-and-undo discipline of `findBestMoveModel` is
frame-preserving: placing a stone in an empty cell and removing it
again restores the board exactly; `findBestMoveModel` hands back the
caller's board cell-for-cell unchanged; and consequently
`evaluateBoardLogistic`, a pure function of the board, returns the
identical value when called on the board before and after the whole
search. -/
theorem model_evaluator_frame (board : List Char) :
    (∀ i : Nat, board.getD i ' ' = ' ' →
      (board.set i 'X').set i ' ' = board) ∧
    (findBestMoveModel board).2 = board ∧
    evaluateBoardLogistic (findBestMoveModel board).2 =
      evaluateBoardLogistic board := by
  have hfr : (findBestMoveModel board).2 = board :=
    modelLoop_snd (List.range 9) board (-1000) ⟨-1, -1⟩
  exact ⟨fun i h => by rw [List.set_set]; exact set_getD_self board i h,
    hfr, by rw [hfr]⟩

theorem model_evaluator_frame_witness :
    ([' ', 'O', ' ', ' ', 'X', ' ', ' ', ' ', ' '].getD 0 ' ' = ' ') ∧
      (([' ', 'O', ' ', ' ', 'X', ' ', ' ', ' ', ' '].set 0 'X').set 0 ' ' =
        [' ', 'O', ' ', ' ', 'X', ' ', ' ', ' ', ' ']) ∧
      (findBestMoveModel [' ', 'O', ' ', ' ', 'X', ' ', ' ', ' ', ' ']).2 =
        [' ', 'O', ' ', ' ', 'X', ' ', ' ', ' ', ' '] :=
  ⟨by decide,
    (model_evaluator_frame [' ', 'O', ' ', ' ', 'X', ' ', ' ', ' ', ' ']).1 0
      (by decide),
    (model_evaluator_frame [' ', 'O', ' ', ' ', 'X', ' ', ' ', ' ', ' ']).2.1⟩

theorem error_rate_gate_witness :
    (0 : Int) < 20 ∧ (2 : Nat) < 9 ∧
      (['X', 'X', ' ', 'O', 'O', 'X', 'O', 'X', ' '].getD 2 ' ' ≠ 'X' ∧
        ['X', 'X', ' ', 'O', 'O', 'X', 'O', 'X', ' '].getD 2 ' ' ≠ 'O') ∧
      105 % 100 < 100 :=
  ⟨by decide, by decide, ⟨by decide, by decide⟩,
    (error_rate_gate ['X', 'X', ' ', 'O', 'O', 'X', 'O', 'X', ' '] 'X' 20 105
      [0] (by decide) 2 (by decide) ⟨by decide, by decide⟩).1⟩

/-- A move is valid for a board when its coordinates are in range and
the targeted cell (row-major `row * 3 + col`) is empty. -/
def validMoveFor (board : List Char) (mv : Move) : Prop :=
  0 ≤ mv.row ∧ mv.row ≤ 2 ∧ 0 ≤ mv.col ∧ mv.col ≤ 2 ∧
    board.getD (mv.row * 3 + mv.col).toNat ' ' = ' '

theorem validMoveFor_pos (board : List Char) (pos : Nat) (hp : pos < 9)
    (hfree : board.getD pos ' ' = ' ') :
    validMoveFor board ⟨((pos / 3 : Nat) : Int), ((pos % 3 : Nat) : Int)⟩ := by
  refine ⟨Int.natCast_nonneg _, ?_, Int.natCast_nonneg _, ?_, ?_⟩
  · show ((pos / 3 : Nat) : Int) ≤ 2
    exact_mod_cast (show pos / 3 ≤ 2 by omega)
  · show ((pos % 3 : Nat) : Int) ≤ 2
    exact_mod_cast (show pos % 3 ≤ 2 by omega)
  · have h : (((pos / 3 : Nat) : Int) * 3 + ((pos % 3 : Nat) : Int)) =
        ((pos : Nat) : Int) := by omega
    show board.getD ((((pos / 3 : Nat) : Int) * 3 +
      ((pos % 3 : Nat) : Int)).toNat) ' ' = ' '
    rw [h, Int.toNat_natCast]
    exact hfree

theorem getD_mem_of_lt {α : Type} (l : List α) (n : Nat) (d : α)
    (h : n < l.length) : l.getD n d ∈ l := by
  rw [List.getD_eq_getElem?_getD, List.getElem?_eq_getElem h,
    Option.getD_some]
  exact List.getElem_mem h

theorem perfectLoop_skip_all (ai opp : Nat) (moves : List (Fin 9)) :
    ∀ (bv : Int) (bm : Move),
      (∀ pos ∈ moves, (ai ||| opp) &&& (1 <<< (pos : Nat)) ≠ 0) →
      perfectLoop ai opp moves bv bm = bm := by
  induction moves with
  | nil => intro bv bm _; rfl
  | cons pos rest ih =>
    intro bv bm h
    have hocc := h pos (List.mem_cons_self _ _)
    simp only [perfectLoop, if_neg hocc]
    exact ih bv bm (fun q hq => h q (List.mem_cons_of_mem _ hq))

theorem modelLoop_skip_all (cells : List Nat) :
    ∀ (board : List Char) (bv : Rat) (bm : Move),
      (∀ idx ∈ cells, board.getD idx ' ' ≠ ' ') →
      modelLoop cells board bv bm = (bm, board) := by
  induction cells with
  | nil => intro board bv bm _; rfl
  | cons idx rest ih =>
    intro board bv bm h
    have hocc := h idx (List.mem_cons_self _ _)
    simp only [modelLoop, if_neg hocc]
    exact ih board bv bm (fun q hq => h q (List.mem_cons_of_mem _ hq))

theorem occupied_of_full (board : List Char) (hwf : wfBoard board)
    (hfull : ∀ i, i < 9 → board.getD i ' ' ≠ ' ') :
    ∀ pos, pos < 9 →
      ((boardToMasks board).1 ||| (boardToMasks board).2) &&&
        (1 <<< pos) ≠ 0 :=
  fun pos hp h =>
    hfull pos hp ((free_cell_bridge_wf board hwf pos hp).mp h)

theorem emptyCellsList_nil_of_full (board : List Char) (hwf : wfBoard board)
    (hfull : ∀ i, i < 9 → board.getD i ' ' ≠ ' ') :
    emptyCellsList ((boardToMasks board).1 ||| (boardToMasks board).2) =
      [] := by
  rw [List.eq_nil_iff_forall_not_mem]
  intro i hi
  rw [emptyCellsList_mem] at hi
  exact occupied_of_full board hwf hfull i hi.1 hi.2

theorem findBestMoveMinimax_full (board : List Char) (hwf : wfBoard board)
    (hfull : ∀ i, i < 9 → board.getD i ' ' ≠ ' ')
    (sym : Char) (p : Int) (rng : List Nat) :
    findBestMoveMinimax board sym p rng = (⟨-1, -1⟩, rng) := by
  have hnil : emptyCellsList
      ((getPlayerMasks (boardToMasks board).1 (boardToMasks board).2 sym).1 |||
       (getPlayerMasks (boardToMasks board).1 (boardToMasks board).2 sym).2) =
      [] := by
    rw [getPlayerMasks_occ]
    exact emptyCellsList_nil_of_full board hwf hfull
  simp only [findBestMoveMinimax]
  rw [if_pos (by rw [hnil]; rfl)]

theorem findBestMovePerfect_full (board : List Char) (hwf : wfBoard board)
    (hfull : ∀ i, i < 9 → board.getD i ' ' ≠ ' ') (sym : Char) :
    findBestMovePerfect board sym = ⟨-1, -1⟩ := by
  simp only [findBestMovePerfect]
  apply perfectLoop_skip_all
  intro pos _
  rw [getPlayerMasks_occ]
  exact occupied_of_full board hwf hfull (pos : Nat) pos.isLt

theorem findBestMoveImperfect_full (board : List Char) (hwf : wfBoard board)
    (hfull : ∀ i, i < 9 → board.getD i ' ' ≠ ' ')
    (sym : Char) (rng : List Nat) :
    findBestMoveImperfect board sym rng = (⟨-1, -1⟩, rng) := by
  have hnil : emptyCellsList
      ((getPlayerMasks (boardToMasks board).1 (boardToMasks board).2 sym).1 |||
       (getPlayerMasks (boardToMasks board).1 (boardToMasks board).2 sym).2) =
      [] := by
    rw [getPlayerMasks_occ]
    exact emptyCellsList_nil_of_full board hwf hfull
  simp only [findBestMoveImperfect]
  rw [if_pos (by rw [hnil]; rfl)]

theorem findBestMoveModel_full (board : List Char)
    (hfull : ∀ i, i < 9 → board.getD i ' ' ≠ ' ') :
    findBestMoveModel board = (⟨-1, -1⟩, board) := by
  unfold findBestMoveModel
  exact modelLoop_skip_all (List.range 9) board (-1000) ⟨-1, -1⟩
    (fun idx hidx => hfull idx (List.mem_range.mp hidx))

theorem pickBestCandidate_mem (ai opp : Nat) (rng : List Nat)
    (hlt : ai ||| opp < 512) (pos : Fin 9)
    (hfree : (ai ||| opp) &&& (1 <<< (pos : Nat)) = 0) :
    ∃ q : Fin 9, (ai ||| opp) &&& (1 <<< (q : Nat)) = 0 ∧
      (pickBestCandidate ai opp rng).1 = posToMove q := by
  obtain ⟨hfilter, hne⟩ := bestCandidates_spec ai opp hlt pos hfree
  have hlen : 0 < (bestCandidates ai opp).length := List.length_pos.mpr hne
  have hmem : (bestCandidates ai opp).getD
      (rng.headD 0 % (bestCandidates ai opp).length) ⟨-1, -1⟩ ∈
      bestCandidates ai opp :=
    getD_mem_of_lt _ _ _ (Nat.mod_lt _ hlen)
  obtain ⟨x, hxmem, hxeq⟩ : ∃ x, x ∈ bestCandidates ai opp ∧
      (bestCandidates ai opp).getD
        (rng.headD 0 % (bestCandidates ai opp).length) ⟨-1, -1⟩ = x :=
    ⟨_, hmem, rfl⟩
  rw [hfilter] at hxmem
  obtain ⟨q, hq, hmap⟩ := List.mem_map.mp hxmem
  rw [List.mem_filter] at hq
  have hq2 := hq.2
  rw [Bool.and_eq_true, decide_eq_true_eq, decide_eq_true_eq] at hq2
  refine ⟨q, hq2.1, ?_⟩
  simp only [pickBestCandidate]
  have hlen2 : 0 < ((candLoop ai opp MOVE_ORDER (-1000) []).2).length := hlen
  rw [if_pos hlen2]
  show (bestCandidates ai opp).getD
      (rng.headD 0 % (bestCandidates ai opp).length) ⟨-1, -1⟩ = posToMove q
  rw [hxeq, ← hmap]

theorem findBestMoveMinimax_valid (board : List Char) (hwf : wfBoard board)
    (i : Nat) (hi : i < 9) (hfree : board.getD i ' ' = ' ')
    (sym : Char) (p : Int) (rng : List Nat) :
    validMoveFor board (findBestMoveMinimax board sym p rng).1 := by
  have hint : aiMaskOf board sym ||| oppMaskOf board sym =
      (boardToMasks board).1 ||| (boardToMasks board).2 := aiMaskOf_occ _ _
  have hfreeO : (aiMaskOf board sym ||| oppMaskOf board sym) &&&
      (1 <<< i) = 0 := by
    rw [hint]
    exact (free_cell_bridge_wf board hwf i hi).mpr hfree
  have hlt := aiMaskOf_occ_lt board sym
  have hvalid : ∀ q, q < 9 →
      (aiMaskOf board sym ||| oppMaskOf board sym) &&& (1 <<< q) = 0 →
      board.getD q ' ' = ' ' := by
    intro q hq hfq
    rw [hint] at hfq
    exact (free_cell_bridge_wf board hwf q hq).mp hfq
  have hnn : emptyCellsList
      (aiMaskOf board sym ||| oppMaskOf board sym) ≠ [] :=
    emptyCellsList_ne_nil _ ⟨i, hi, hfreeO⟩
  have hlenE : 0 < (emptyCellsList
      (aiMaskOf board sym ||| oppMaskOf board sym)).length :=
    List.length_pos.mpr hnn
  have hlenR : ¬((emptyCellsList
      ((getPlayerMasks (boardToMasks board).1 (boardToMasks board).2
          sym).1 |||
        (getPlayerMasks (boardToMasks board).1 (boardToMasks board).2
          sym).2)).length = 0) :=
    fun h => hnn (List.length_eq_zero.mp h)
  have hpickAny : ∀ rng1 : List Nat, validMoveFor board
      (pickBestCandidate
        (getPlayerMasks (boardToMasks board).1 (boardToMasks board).2 sym).1
        (getPlayerMasks (boardToMasks board).1 (boardToMasks board).2 sym).2
        rng1).1 := by
    intro rng1
    obtain ⟨q, hqfree, hq⟩ :=
      pickBestCandidate_mem (aiMaskOf board sym) (oppMaskOf board sym) rng1
        hlt ⟨i, hi⟩ hfreeO
    have hq3 : (pickBestCandidate
        (getPlayerMasks (boardToMasks board).1 (boardToMasks board).2 sym).1
        (getPlayerMasks (boardToMasks board).1 (boardToMasks board).2 sym).2
        rng1).1 = posToMove q := hq
    rw [hq3]
    exact validMoveFor_pos board (q : Nat) q.isLt
      (hvalid (q : Nat) q.isLt hqfree)
  have hmistake : ∀ rng1 : List Nat, validMoveFor board
      ⟨(((emptyCellsList
            ((getPlayerMasks (boardToMasks board).1 (boardToMasks board).2
                sym).1 |||
              (getPlayerMasks (boardToMasks board).1 (boardToMasks board).2
                sym).2)).getD
          (rng1.headD 0 %
            (emptyCellsList
              ((getPlayerMasks (boardToMasks board).1
                  (boardToMasks board).2 sym).1 |||
                (getPlayerMasks (boardToMasks board).1
                  (boardToMasks board).2 sym).2)).length) 0) / 3 : Nat),
       (((emptyCellsList
            ((getPlayerMasks (boardToMasks board).1 (boardToMasks board).2
                sym).1 |||
              (getPlayerMasks (boardToMasks board).1 (boardToMasks board).2
                sym).2)).getD
          (rng1.headD 0 %
            (emptyCellsList
              ((getPlayerMasks (boardToMasks board).1
                  (boardToMasks board).2 sym).1 |||
                (getPlayerMasks (boardToMasks board).1
                  (boardToMasks board).2 sym).2)).length) 0) % 3 : Nat)⟩ := by
    intro rng1
    have hmem : (emptyCellsList
        (aiMaskOf board sym ||| oppMaskOf board sym)).getD
        (rng1.headD 0 %
          (emptyCellsList
            (aiMaskOf board sym ||| oppMaskOf board sym)).length) 0 ∈
        emptyCellsList (aiMaskOf board sym ||| oppMaskOf board sym) :=
      getD_mem_of_lt _ _ _ (Nat.mod_lt _ hlenE)
    rw [emptyCellsList_mem] at hmem
    exact validMoveFor_pos board _ hmem.1 (hvalid _ hmem.1 hmem.2)
  simp only [findBestMoveMinimax]
  rw [if_neg hlenR]
  by_cases hp : p > 0
  · rw [if_pos hp]
    by_cases hgate : (((rng.headD 0 % 100 : Nat) : Int)) < p
    · rw [if_pos hgate]
      exact hmistake rng.tail
    · rw [if_neg hgate]
      exact hpickAny rng.tail
  · rw [if_neg hp]
    exact hpickAny rng

theorem evaluateBoardLogistic_lb (b : List Char) :
    -37 ≤ evaluateBoardLogistic b := by
  have hterm : ∀ idx : Nat,
      -(LR_WEIGHTS.getD idx 0) ≤
        (if b.getD idx ' ' = 'X' then (1 : Rat)
         else if b.getD idx ' ' = 'O' then -1 else 0) *
          LR_WEIGHTS.getD idx 0 := by
    intro idx
    have hw : 0 ≤ LR_WEIGHTS.getD idx 0 := by
      by_cases h9 : idx < 9
      · interval_cases idx <;> norm_num [LR_WEIGHTS]
      · rw [List.getD_eq_default _ _ (by simp [LR_WEIGHTS]; omega)]
    split_ifs
    · rw [one_mul]; linarith
    · rw [neg_one_mul]
    · rw [zero_mul]; linarith
  unfold evaluateBoardLogistic
  rw [show List.range 9 = [0, 1, 2, 3, 4, 5, 6, 7, 8] from rfl]
  simp only [List.foldl_cons, List.foldl_nil]
  have h0 := hterm 0
  have h1 := hterm 1
  have h2 := hterm 2
  have h3 := hterm 3
  have h4 := hterm 4
  have h5 := hterm 5
  have h6 := hterm 6
  have h7 := hterm 7
  have h8 := hterm 8
  have hw0 : LR_WEIGHTS.getD 0 0 = 3.928391392624212 := rfl
  have hw1 : LR_WEIGHTS.getD 1 0 = 3.6032407817955696 := rfl
  have hw2 : LR_WEIGHTS.getD 2 0 = 4.011058129716569 := rfl
  have hw3 : LR_WEIGHTS.getD 3 0 = 3.6831967066011444 := rfl
  have hw4 : LR_WEIGHTS.getD 4 0 = 4.313335296889612 := rfl
  have hw5 : LR_WEIGHTS.getD 5 0 = 3.6169667100902494 := rfl
  have hw6 : LR_WEIGHTS.getD 6 0 = 3.9842838685550195 := rfl
  have hw7 : LR_WEIGHTS.getD 7 0 = 3.669842436819702 := rfl
  have hw8 : LR_WEIGHTS.getD 8 0 = 3.984526284468059 := rfl
  have hbias : LR_BIAS = -1.6450287057758302 := rfl
  rw [hw0] at h0
  rw [hw1] at h1
  rw [hw2] at h2
  rw [hw3] at h3
  rw [hw4] at h4
  rw [hw5] at h5
  rw [hw6] at h6
  rw [hw7] at h7
  rw [hw8] at h8
  rw [hbias]
  norm_num [LR_WEIGHTS] at h0 h1 h2 h3 h4 h5 h6 h7 h8 ⊢
  linarith

theorem modelLoop_mem (cells : List Nat) :
    ∀ (board : List Char) (bv : Rat) (bm : Move),
      (modelLoop cells board bv bm).1 = bm ∨
        ∃ q ∈ cells, board.getD q ' ' = ' ' ∧
          (modelLoop cells board bv bm).1 =
            ⟨((q / 3 : Nat) : Int), ((q % 3 : Nat) : Int)⟩ := by
  induction cells with
  | nil => intro board bv bm; left; rfl
  | cons idx rest ih =>
    intro board bv bm
    by_cases hc : board.getD idx ' ' = ' '
    · have hb2 : (board.set idx 'X').set idx ' ' = board := by
        rw [List.set_set]; exact set_getD_self board idx hc
      simp only [modelLoop, if_pos hc, hb2]
      split
      · rcases ih board _ ⟨((idx / 3 : Nat) : Int), ((idx % 3 : Nat) : Int)⟩
          with h | ⟨q, hq, hqf, hqe⟩
        · right
          exact ⟨idx, List.mem_cons_self _ _, hc, h⟩
        · right
          exact ⟨q, List.mem_cons_of_mem _ hq, hqf, hqe⟩
      · rcases ih board bv bm with h | ⟨q, hq, hqf, hqe⟩
        · left; exact h
        · right
          exact ⟨q, List.mem_cons_of_mem _ hq, hqf, hqe⟩
    · simp only [modelLoop, if_neg hc]
      rcases ih board bv bm with h | ⟨q, hq, hqf, hqe⟩
      · left; exact h
      · right
        exact ⟨q, List.mem_cons_of_mem _ hq, hqf, hqe⟩

theorem modelLoop_update (cells : List Nat) :
    ∀ (board : List Char) (bv : Rat) (bm : Move),
      (∃ idx ∈ cells, board.getD idx ' ' = ' ') →
      (∀ b' : List Char, bv < evaluateBoardLogistic b') →
      ∃ q ∈ cells, board.getD q ' ' = ' ' ∧
        (modelLoop cells board bv bm).1 =
          ⟨((q / 3 : Nat) : Int), ((q % 3 : Nat) : Int)⟩ := by
  induction cells with
  | nil =>
    intro board bv bm h _
    obtain ⟨idx, hidx, _⟩ := h
    cases hidx
  | cons idx rest ih =>
    intro board bv bm h hbv
    by_cases hc : board.getD idx ' ' = ' '
    · have hb2 : (board.set idx 'X').set idx ' ' = board := by
        rw [List.set_set]; exact set_getD_self board idx hc
      simp only [modelLoop, if_pos hc, hb2]
      rw [if_pos (show evaluateBoardLogistic (board.set idx 'X') > bv from
        hbv _)]
      rcases modelLoop_mem rest board _
          ⟨((idx / 3 : Nat) : Int), ((idx % 3 : Nat) : Int)⟩
        with h | ⟨q, hq, hqf, hqe⟩
      · exact ⟨idx, List.mem_cons_self _ _, hc, h⟩
      · exact ⟨q, List.mem_cons_of_mem _ hq, hqf, hqe⟩
    · simp only [modelLoop, if_neg hc]
      obtain ⟨w, hw, hwf⟩ := h
      rcases List.mem_cons.mp hw with rfl | hwrest
      · exact absurd hwf hc
      · obtain ⟨q, hq, hqf, hqe⟩ := ih board bv bm ⟨w, hwrest, hwf⟩ hbv
        exact ⟨q, List.mem_cons_of_mem _ hq, hqf, hqe⟩

theorem findBestMoveModel_valid (board : List Char)
    (i : Nat) (hi : i < 9) (hfree : board.getD i ' ' = ' ') :
    validMoveFor board (findBestMoveModel board).1 := by
  have hbv : ∀ b' : List Char, (-1000 : Rat) < evaluateBoardLogistic b' :=
    fun b' => lt_of_lt_of_le (by norm_num) (evaluateBoardLogistic_lb b')
  obtain ⟨q, hq, hqf, hqe⟩ :=
    modelLoop_update (List.range 9) board (-1000) ⟨-1, -1⟩
      ⟨i, List.mem_range.mpr hi, hfree⟩ hbv
  have hq9 : q < 9 := List.mem_range.mp hq
  unfold findBestMoveModel
  rw [hqe]
  exact validMoveFor_pos board q hq9 hqf

set_option maxRecDepth 4000 in
theorem freeCount_zero_fin : ∀ m : Fin 512,
    freeCount m.val = 0 → m.val = 511 := by decide

theorem freeCount_zero (occ : Nat) (h1 : occ < 512)
    (h2 : freeCount occ = 0) : occ = 511 :=
  freeCount_zero_fin ⟨occ, h1⟩ h2

theorem abLoopF_congr (child1 child2 : Nat → Nat → Int → Int → Bool → Int)
    (p o : Nat) (moves : List (Fin 9)) :
    ∀ (a b : Int) (m : Bool) (best : Int),
      (∀ pos ∈ moves, (p ||| o) &&& (1 <<< (pos : Nat)) = 0 →
        ∀ (a' b' : Int) (m' : Bool),
          child1 (p ||| (1 <<< (pos : Nat))) o a' b' m' =
            child2 (p ||| (1 <<< (pos : Nat))) o a' b' m' ∧
          child1 p (o ||| (1 <<< (pos : Nat))) a' b' m' =
            child2 p (o ||| (1 <<< (pos : Nat))) a' b' m') →
      abLoopF child1 p o a b m moves best =
        abLoopF child2 p o a b m moves best := by
  induction moves with
  | nil => intro a b m best _; rfl
  | cons pos rest ih =>
    intro a b m best h
    have hrest := fun q hq => h q (List.mem_cons_of_mem _ hq)
    by_cases hfree : (p ||| o) &&& (1 <<< (pos : Nat)) = 0
    · have hc := h pos (List.mem_cons_self _ _) hfree
      cases m with
      | true =>
        rw [abLoopF_cons_max child1 p o a b pos rest best hfree,
          abLoopF_cons_max child2 p o a b pos rest best hfree,
          (hc a b false).1]
        split
        · rfl
        · exact ih _ b true _ hrest
      | false =>
        rw [abLoopF_cons_min child1 p o a b pos rest best hfree,
          abLoopF_cons_min child2 p o a b pos rest best hfree,
          (hc a b true).2]
        split
        · rfl
        · exact ih a _ false _ hrest
    · rw [abLoopF_cons_skip child1 p o a b m pos rest best hfree,
        abLoopF_cons_skip child2 p o a b m pos rest best hfree]
      exact ih a b m best hrest

theorem perfect_eq_ab (fuel : Nat) :
    ∀ (p o : Nat) (d : Nat) (a b : Int) (m : Bool),
      p ||| o < 512 → d + freeCount (p ||| o) ≤ 9 →
      PERFECT.minimax_masksF fuel p o d a b m =
        abSearchF MOVE_ORDER fuel p o d a b m := by
  induction fuel with
  | zero => intro p o d a b m _ _; rfl
  | succ fuel ih =>
    intro p o d a b m hlt hd
    unfold PERFECT.minimax_masksF abSearchF
    by_cases hwp : isWinnerMask p
    · rw [if_pos hwp, if_pos hwp]
    rw [if_neg hwp, if_neg hwp]
    by_cases hwo : isWinnerMask o
    · rw [if_pos hwo, if_pos hwo]
    rw [if_neg hwo, if_neg hwo]
    by_cases hfull : p ||| o = 0x1FF
    · rw [if_pos (Or.inl hfull), if_pos hfull]
    have hd9 : ¬(d = 9) := by
      intro h9
      have hfc : freeCount (p ||| o) = 0 := by omega
      exact hfull (freeCount_zero (p ||| o) hlt hfc)
    rw [if_neg (by
      intro hor
      rcases hor with h | h
      · exact hfull h
      · exact hd9 h), if_neg hfull]
    apply abLoopF_congr
    intro pos _ hfree a' b' m'
    have hfc := freeCount_or_lt (p ||| o) (pos : Nat) pos.isLt hfree
    constructor
    · have hocc : (p ||| (1 <<< (pos : Nat))) ||| o =
          (p ||| o) ||| (1 <<< (pos : Nat)) := child_occ_max p o pos
      apply ih
      · rw [hocc]; exact child_lt_512 p o pos hlt
      · rw [hocc]; omega
    · have hocc : p ||| (o ||| (1 <<< (pos : Nat))) =
          (p ||| o) ||| (1 <<< (pos : Nat)) := child_occ_min p o pos
      apply ih
      · rw [hocc]; exact child_lt_512 p o pos hlt
      · rw [hocc]; omega

theorem perfect_child_bounds (ai opp : Nat) (pos : Fin 9)
    (hlt : ai ||| opp < 512)
    (hfc9 : freeCount (ai ||| opp) ≤ 9)
    (hfree : (ai ||| opp) &&& (1 <<< (pos : Nat)) = 0) :
    -30 ≤ PERFECT.minimax_masks (ai ||| (1 <<< (pos : Nat))) opp 1
        (-1000) 1000 false ∧
      PERFECT.minimax_masks (ai ||| (1 <<< (pos : Nat))) opp 1
        (-1000) 1000 false ≤ 30 := by
  have hocc : (ai ||| (1 <<< (pos : Nat))) ||| opp =
      (ai ||| opp) ||| (1 <<< (pos : Nat)) := child_occ_max ai opp pos
  have hlt2 : (ai ||| (1 <<< (pos : Nat))) ||| opp < 512 := by
    rw [hocc]; exact child_lt_512 ai opp pos hlt
  have hfc := freeCount_or_lt (ai ||| opp) (pos : Nat) pos.isLt hfree
  have hd9 : 1 + freeCount ((ai ||| (1 <<< (pos : Nat))) ||| opp) ≤ 9 := by
    rw [hocc]; omega
  have hd18 : 1 + freeCount ((ai ||| (1 <<< (pos : Nat))) ||| opp) ≤ 18 := by
    omega
  unfold PERFECT.minimax_masks
  rw [perfect_eq_ab 10 _ _ 1 (-1000) 1000 false hlt2 hd9,
    abSearchF_eq_np MOVE_ORDER move_order_covers 10 _ _ 1 false hlt2 hd18]
  exact npSearchF_bounds MOVE_ORDER move_order_covers 10 _ _ 1 false hlt2 hd18

theorem perfectLoop_mem (ai opp : Nat) (moves : List (Fin 9)) :
    ∀ (bv : Int) (bm : Move),
      perfectLoop ai opp moves bv bm = bm ∨
        ∃ q : Fin 9, q ∈ moves ∧
          (ai ||| opp) &&& (1 <<< (q : Nat)) = 0 ∧
          perfectLoop ai opp moves bv bm = posToMove q := by
  induction moves with
  | nil => intro bv bm; left; rfl
  | cons pos rest ih =>
    intro bv bm
    by_cases hfree : (ai ||| opp) &&& (1 <<< (pos : Nat)) = 0
    · simp only [perfectLoop, if_pos hfree]
      split
      · rcases ih _ (posToMove pos) with h | ⟨q, hq, hqf, hqe⟩
        · right
          exact ⟨pos, List.mem_cons_self _ _, hfree, h⟩
        · right
          exact ⟨q, List.mem_cons_of_mem _ hq, hqf, hqe⟩
      · rcases ih bv bm with h | ⟨q, hq, hqf, hqe⟩
        · left; exact h
        · right
          exact ⟨q, List.mem_cons_of_mem _ hq, hqf, hqe⟩
    · simp only [perfectLoop, if_neg hfree]
      rcases ih bv bm with h | ⟨q, hq, hqf, hqe⟩
      · left; exact h
      · right
        exact ⟨q, List.mem_cons_of_mem _ hq, hqf, hqe⟩

theorem perfectLoop_update (ai opp : Nat) (moves : List (Fin 9)) :
    ∀ (bv : Int) (bm : Move),
      (∃ pos : Fin 9, pos ∈ moves ∧
        (ai ||| opp) &&& (1 <<< (pos : Nat)) = 0 ∧
        bv < PERFECT.minimax_masks (ai ||| (1 <<< (pos : Nat))) opp 1
          (-1000) 1000 false) →
      ∃ q : Fin 9, (ai ||| opp) &&& (1 <<< (q : Nat)) = 0 ∧
        perfectLoop ai opp moves bv bm = posToMove q := by
  induction moves with
  | nil =>
    intro bv bm h
    obtain ⟨pos, hmem, _⟩ := h
    cases hmem
  | cons pos rest ih =>
    intro bv bm h
    by_cases hfree : (ai ||| opp) &&& (1 <<< (pos : Nat)) = 0
    · simp only [perfectLoop, if_pos hfree]
      split
      · rcases perfectLoop_mem ai opp rest _ (posToMove pos)
          with he | ⟨q, _, hqf, hqe⟩
        · exact ⟨pos, hfree, he⟩
        · exact ⟨q, hqf, hqe⟩
      · rename_i hle
        obtain ⟨w, hw, hwf, hwv⟩ := h
        rcases List.mem_cons.mp hw with rfl | hwrest
        · exact absurd hwv (by omega)
        · exact ih bv bm ⟨w, hwrest, hwf, hwv⟩
    · simp only [perfectLoop, if_neg hfree]
      obtain ⟨w, hw, hwf, hwv⟩ := h
      rcases List.mem_cons.mp hw with rfl | hwrest
      · exact absurd hwf hfree
      · exact ih bv bm ⟨w, hwrest, hwf, hwv⟩

theorem findBestMovePerfect_valid (board : List Char) (hwf : wfBoard board)
    (i : Nat) (hi : i < 9) (hfree : board.getD i ' ' = ' ') (sym : Char) :
    validMoveFor board (findBestMovePerfect board sym) := by
  have hint : aiMaskOf board sym ||| oppMaskOf board sym =
      (boardToMasks board).1 ||| (boardToMasks board).2 := aiMaskOf_occ _ _
  have hfreeO : (aiMaskOf board sym ||| oppMaskOf board sym) &&&
      (1 <<< i) = 0 := by
    rw [hint]
    exact (free_cell_bridge_wf board hwf i hi).mpr hfree
  have hlt := aiMaskOf_occ_lt board sym
  have hb := perfect_child_bounds (aiMaskOf board sym)
    (oppMaskOf board sym) ⟨i, hi⟩ hlt (freeCount_le_nine _) hfreeO
  obtain ⟨q, hqf, hqe⟩ := perfectLoop_update (aiMaskOf board sym)
    (oppMaskOf board sym) MOVE_ORDER (-1000) ⟨-1, -1⟩
    ⟨⟨i, hi⟩, move_order_covers _, hfreeO, by omega⟩
  have hqe2 : perfectLoop
      (getPlayerMasks (boardToMasks board).1 (boardToMasks board).2 sym).1
      (getPlayerMasks (boardToMasks board).1 (boardToMasks board).2 sym).2
      MOVE_ORDER (-1000) ⟨-1, -1⟩ = posToMove q := hqe
  have hqfree : board.getD (q : Nat) ' ' = ' ' := by
    apply (free_cell_bridge_wf board hwf (q : Nat) q.isLt).mp
    rw [← hint]
    exact hqf
  simp only [findBestMovePerfect]
  rw [hqe2]
  exact validMoveFor_pos board (q : Nat) q.isLt hqfree

theorem listSwap_length (l : List Nat) (i j : Nat) :
    (listSwap l i j).length = l.length := by
  simp [listSwap]

theorem listSwap_prop (P : Nat → Prop) (l : List Nat) (i j : Nat)
    (hi : i < l.length) (hj : j < l.length) (h : ∀ x ∈ l, P x) :
    ∀ x ∈ listSwap l i j, P x := by
  intro x hx
  unfold listSwap at hx
  rcases List.mem_or_eq_of_mem_set hx with hx1 | rfl
  · rcases List.mem_or_eq_of_mem_set hx1 with hx2 | rfl
    · exact h x hx2
    · exact h _ (getD_mem_of_lt l j 0 hj)
  · exact h _ (getD_mem_of_lt l i 0 hi)

theorem shuffleGo_length (i : Nat) :
    ∀ (l : List Nat) (rng : List Nat),
      (shuffleGo l i rng).1.length = l.length := by
  induction i with
  | zero => intro l rng; rfl
  | succ i ih =>
    intro l rng
    unfold shuffleGo
    rw [ih]
    exact listSwap_length l (i + 1) _

theorem shuffleGo_prop (P : Nat → Prop) (i : Nat) :
    ∀ (l : List Nat) (rng : List Nat), i < l.length →
      (∀ x ∈ l, P x) → ∀ x ∈ (shuffleGo l i rng).1, P x := by
  induction i with
  | zero => intro l rng _ h; exact h
  | succ i ih =>
    intro l rng hi h
    unfold shuffleGo
    have hlen : (listSwap l (i + 1) (rng.headD 0 % (i + 2))).length =
        l.length := listSwap_length _ _ _
    apply ih
    · rw [hlen]; omega
    · exact listSwap_prop P l (i + 1) (rng.headD 0 % (i + 2)) hi
        (by have := Nat.mod_lt (rng.headD 0) (show 0 < i + 2 by omega); omega)
        h

theorem shuffle_prop (P : Nat → Prop) (l : List Nat) (rng : List Nat)
    (h : ∀ x ∈ l, P x) : ∀ x ∈ (shuffle l rng).1, P x := by
  cases l with
  | nil =>
    intro x hx
    simp only [shuffle, List.length_nil, Nat.zero_sub, shuffleGo] at hx
    cases hx
  | cons a t =>
    exact shuffleGo_prop P ((a :: t).length - 1) (a :: t) rng
      (Nat.sub_lt (by simp) one_pos) h

theorem shuffle_length (l : List Nat) (rng : List Nat) :
    (shuffle l rng).1.length = l.length :=
  shuffleGo_length _ l rng

theorem shuffle_ne_nil (l : List Nat) (rng : List Nat) (h : l ≠ []) :
    (shuffle l rng).1 ≠ [] := by
  intro hnil
  apply h
  have := shuffle_length l rng
  rw [hnil] at this
  exact List.length_eq_zero.mp this.symm

theorem shiftN_lt_512 (pos : Nat) (h : pos < 9) : (1 <<< pos) < 512 :=
  shift_lt_512 ⟨pos, h⟩

theorem impLoopF_cons_max
    (child : Nat → Nat → Int → Int → Bool → List Nat → Int × List Nat)
    (p o : Nat) (a b : Int) (pos : Nat) (rest : List Nat) (best : Int)
    (rng : List Nat) :
    impLoopF child p o a b true (pos :: rest) best rng =
      (if max a (child (p ||| (1 <<< pos)) o a b false rng).1 ≥ b then
        (max best (child (p ||| (1 <<< pos)) o a b false rng).1,
         (child (p ||| (1 <<< pos)) o a b false rng).2)
      else
        impLoopF child p o
          (max a (child (p ||| (1 <<< pos)) o a b false rng).1) b true rest
          (max best (child (p ||| (1 <<< pos)) o a b false rng).1)
          (child (p ||| (1 <<< pos)) o a b false rng).2) := by
  conv_lhs => unfold impLoopF
  simp only [if_pos, if_true, if_gt_eq_max]

theorem impLoopF_cons_min
    (child : Nat → Nat → Int → Int → Bool → List Nat → Int × List Nat)
    (p o : Nat) (a b : Int) (pos : Nat) (rest : List Nat) (best : Int)
    (rng : List Nat) :
    impLoopF child p o a b false (pos :: rest) best rng =
      (if a ≥ min b (child p (o ||| (1 <<< pos)) a b true rng).1 then
        (min best (child p (o ||| (1 <<< pos)) a b true rng).1,
         (child p (o ||| (1 <<< pos)) a b true rng).2)
      else
        impLoopF child p o a
          (min b (child p (o ||| (1 <<< pos)) a b true rng).1) false rest
          (min best (child p (o ||| (1 <<< pos)) a b true rng).1)
          (child p (o ||| (1 <<< pos)) a b true rng).2) := by
  conv_lhs => unfold impLoopF
  simp only [if_pos, Bool.false_eq_true, if_false, if_lt_eq_min]

theorem impLoopF_max_ge
    (child : Nat → Nat → Int → Int → Bool → List Nat → Int × List Nat)
    (p o : Nat) (moves : List Nat) :
    ∀ (a b best : Int) (rng : List Nat),
      best ≤ (impLoopF child p o a b true moves best rng).1 := by
  induction moves with
  | nil => intro a b best rng; exact le_refl _
  | cons pos rest ih =>
    intro a b best rng
    rw [impLoopF_cons_max]
    split
    · exact le_max_left _ _
    · exact le_trans (le_max_left _ _) (ih _ _ _ _)

theorem impLoopF_min_le
    (child : Nat → Nat → Int → Int → Bool → List Nat → Int × List Nat)
    (p o : Nat) (moves : List Nat) :
    ∀ (a b best : Int) (rng : List Nat),
      (impLoopF child p o a b false moves best rng).1 ≤ best := by
  induction moves with
  | nil => intro a b best rng; exact le_refl _
  | cons pos rest ih =>
    intro a b best rng
    rw [impLoopF_cons_min]
    split
    · exact min_le_left _ _
    · exact le_trans (ih _ _ _ _) (min_le_left _ _)

theorem impLoopF_max_ub
    (child : Nat → Nat → Int → Int → Bool → List Nat → Int × List Nat)
    (p o : Nat) (C : Int) (moves : List Nat) :
    ∀ (a b best : Int) (rng : List Nat),
      (∀ pos ∈ moves, ∀ (a' b' : Int) (r' : List Nat),
        (child (p ||| (1 <<< pos)) o a' b' false r').1 ≤ C) →
      best ≤ C →
      (impLoopF child p o a b true moves best rng).1 ≤ C := by
  induction moves with
  | nil => intro a b best rng _ hb; exact hb
  | cons pos rest ih =>
    intro a b best rng h hb
    rw [impLoopF_cons_max]
    split
    · exact max_le hb (h pos (List.mem_cons_self _ _) a b rng)
    · exact ih _ _ _ _ (fun q hq => h q (List.mem_cons_of_mem _ hq))
        (max_le hb (h pos (List.mem_cons_self _ _) a b rng))

theorem impLoopF_min_lb
    (child : Nat → Nat → Int → Int → Bool → List Nat → Int × List Nat)
    (p o : Nat) (L : Int) (moves : List Nat) :
    ∀ (a b best : Int) (rng : List Nat),
      (∀ pos ∈ moves, ∀ (a' b' : Int) (r' : List Nat),
        L ≤ (child p (o ||| (1 <<< pos)) a' b' true r').1) →
      L ≤ best →
      L ≤ (impLoopF child p o a b false moves best rng).1 := by
  induction moves with
  | nil => intro a b best rng _ hb; exact hb
  | cons pos rest ih =>
    intro a b best rng h hb
    rw [impLoopF_cons_min]
    split
    · exact le_min hb (h pos (List.mem_cons_self _ _) a b rng)
    · exact ih _ _ _ _ (fun q hq => h q (List.mem_cons_of_mem _ hq))
        (le_min hb (h pos (List.mem_cons_self _ _) a b rng))

theorem impLoopF_max_lb
    (child : Nat → Nat → Int → Int → Bool → List Nat → Int × List Nat)
    (p o : Nat) (L : Int) (pos : Nat) (rest : List Nat)
    (a b best : Int) (rng : List Nat)
    (hc : ∀ (a' b' : Int) (r' : List Nat),
      L ≤ (child (p ||| (1 <<< pos)) o a' b' false r').1) :
    L ≤ (impLoopF child p o a b true (pos :: rest) best rng).1 := by
  rw [impLoopF_cons_max]
  split
  · exact le_trans (hc a b rng) (le_max_right _ _)
  · exact le_trans (le_trans (hc a b rng) (le_max_right _ _))
      (impLoopF_max_ge child p o rest _ _ _ _)

theorem impLoopF_min_ub
    (child : Nat → Nat → Int → Int → Bool → List Nat → Int × List Nat)
    (p o : Nat) (C : Int) (pos : Nat) (rest : List Nat)
    (a b best : Int) (rng : List Nat)
    (hc : ∀ (a' b' : Int) (r' : List Nat),
      (child p (o ||| (1 <<< pos)) a' b' true r').1 ≤ C) :
    (impLoopF child p o a b false (pos :: rest) best rng).1 ≤ C := by
  rw [impLoopF_cons_min]
  split
  · exact le_trans (min_le_right _ _) (hc a b rng)
  · exact le_trans (impLoopF_min_le child p o rest _ _ _ _)
      (le_trans (min_le_right _ _) (hc a b rng))

theorem impSearchF_bounds (fuel : Nat) :
    ∀ (p o d : Nat) (a b : Int) (m : Bool) (rng : List Nat),
      p ||| o < 512 → d ≤ 9 →
      -10 ≤ (impSearchF fuel p o d a b m rng).1 ∧
        (impSearchF fuel p o d a b m rng).1 ≤ 10 := by
  induction fuel with
  | zero =>
    intro p o d a b m rng _ _
    exact ⟨by norm_num [impSearchF], by norm_num [impSearchF]⟩
  | succ fuel ih =>
    intro p o d a b m rng hlt hd
    simp only [impSearchF]
    by_cases hwp : isWinnerMask p
    · rw [if_pos hwp]
      refine ⟨?_, ?_⟩
      · show (-10 : Int) ≤ 10 - (d : Int)
        omega
      · show (10 : Int) - (d : Int) ≤ 10
        omega
    rw [if_neg hwp]
    by_cases hwo : isWinnerMask o
    · rw [if_pos hwo]
      refine ⟨?_, ?_⟩
      · show (-10 : Int) ≤ -10 + (d : Int)
        omega
      · show (-10 : Int) + (d : Int) ≤ 10
        omega
    rw [if_neg hwo]
    by_cases hterm : p ||| o = 0x1FF ∨ 5 ≤ d
    · rw [if_pos hterm]
      exact ⟨by norm_num, by norm_num⟩
    rw [if_neg hterm]
    have hfull : ¬(p ||| o = 0x1FF) := fun h => hterm (Or.inl h)
    have hd5 : d < 5 := by
      rcases Nat.lt_or_ge d 5 with h | h
      · exact h
      · exact absurd (Or.inr h) hterm
    have hmovesP : ∀ x ∈ (shuffle ((List.range 9).filter
        (fun i => (p ||| o) &&& (1 <<< i) == 0)) rng).1,
        x < 9 ∧ (p ||| o) &&& (1 <<< x) = 0 := by
      apply shuffle_prop
      intro x hx
      exact (emptyCellsList_mem (p ||| o) x).mp hx
    have hne : (shuffle ((List.range 9).filter
        (fun i => (p ||| o) &&& (1 <<< i) == 0)) rng).1 ≠ [] := by
      apply shuffle_ne_nil
      obtain ⟨pos, hfp⟩ := exists_free_cell (p ||| o) hlt hfull
      intro hnil
      have hmem : (pos : Nat) ∈ emptyCellsList (p ||| o) :=
        (emptyCellsList_mem (p ||| o) (pos : Nat)).mpr ⟨pos.isLt, hfp⟩
      rw [List.eq_nil_iff_forall_not_mem] at hnil
      exact hnil (pos : Nat) hmem
    have hchildMax : ∀ pos, pos < 9 → (p ||| o) &&& (1 <<< pos) = 0 →
        ∀ (a' b' : Int) (r' : List Nat),
          -10 ≤ (impSearchF fuel (p ||| (1 <<< pos)) o (d + 1) a' b'
              false r').1 ∧
          (impSearchF fuel (p ||| (1 <<< pos)) o (d + 1) a' b'
              false r').1 ≤ 10 := by
      intro pos hp9 _ a' b' r'
      have hocc : (p ||| (1 <<< pos)) ||| o = (p ||| o) ||| (1 <<< pos) :=
        child_occ_max p o ⟨pos, hp9⟩
      apply ih
      · rw [hocc]
        exact Nat.or_lt_two_pow (n := 9) hlt (shiftN_lt_512 pos hp9)
      · omega
    have hchildMin : ∀ pos, pos < 9 → (p ||| o) &&& (1 <<< pos) = 0 →
        ∀ (a' b' : Int) (r' : List Nat),
          -10 ≤ (impSearchF fuel p (o ||| (1 <<< pos)) (d + 1) a' b'
              true r').1 ∧
          (impSearchF fuel p (o ||| (1 <<< pos)) (d + 1) a' b'
              true r').1 ≤ 10 := by
      intro pos hp9 _ a' b' r'
      have hocc : p ||| (o ||| (1 <<< pos)) = (p ||| o) ||| (1 <<< pos) :=
        child_occ_min p o ⟨pos, hp9⟩
      apply ih
      · rw [hocc]
        exact Nat.or_lt_two_pow (n := 9) hlt (shiftN_lt_512 pos hp9)
      · omega
    obtain ⟨hd0, tl0, hcons⟩ := List.exists_cons_of_ne_nil hne
    have hhd0 : hd0 ∈ (shuffle ((List.range 9).filter
        (fun i => (p ||| o) &&& (1 <<< i) == 0)) rng).1 := by
      rw [hcons]; exact List.mem_cons_self _ _
    cases m with
    | true =>
      rw [if_pos rfl, hcons]
      constructor
      · apply impLoopF_max_lb
        intro a' b' r'
        exact (hchildMax hd0 (hmovesP hd0 hhd0).1 (hmovesP hd0 hhd0).2
          a' b' r').1
      · apply impLoopF_max_ub
        · intro q hq a' b' r'
          rw [← hcons] at hq
          exact (hchildMax q (hmovesP q hq).1 (hmovesP q hq).2 a' b' r').2
        · norm_num
    | false =>
      rw [if_neg (by decide), hcons]
      constructor
      · apply impLoopF_min_lb
        · intro q hq a' b' r'
          rw [← hcons] at hq
          exact (hchildMin q (hmovesP q hq).1 (hmovesP q hq).2 a' b' r').1
        · norm_num
      · apply impLoopF_min_ub
        intro a' b' r'
        exact (hchildMin hd0 (hmovesP hd0 hhd0).1 (hmovesP hd0 hhd0).2
          a' b' r').2

theorem impTopLoop_mem (ai opp : Nat) (cells : List Nat) :
    ∀ (bv : Int) (bm : Move) (rng : List Nat),
      (impTopLoop ai opp cells bv bm rng).1 = bm ∨
        ∃ q ∈ cells, (impTopLoop ai opp cells bv bm rng).1 =
          ⟨((q / 3 : Nat) : Int), ((q % 3 : Nat) : Int)⟩ := by
  induction cells with
  | nil => intro bv bm rng; left; rfl
  | cons pos rest ih =>
    intro bv bm rng
    simp only [impTopLoop]
    split
    · rcases ih _ ⟨((pos / 3 : Nat) : Int), ((pos % 3 : Nat) : Int)⟩ _
        with h | ⟨q, hq, hqe⟩
      · right
        exact ⟨pos, List.mem_cons_self _ _, h⟩
      · right
        exact ⟨q, List.mem_cons_of_mem _ hq, hqe⟩
    · rcases ih bv bm _ with h | ⟨q, hq, hqe⟩
      · left; exact h
      · right
        exact ⟨q, List.mem_cons_of_mem _ hq, hqe⟩

theorem impTopLoop_update (ai opp : Nat) (cells : List Nat) (bv : Int)
    (bm : Move) (rng : List Nat) (hne : cells ≠ [])
    (h : ∀ pos ∈ cells, ∀ r' : List Nat,
      bv < (impSearchF 6 (ai ||| (1 <<< pos)) opp 1 (-1000) 1000
        false r').1) :
    ∃ q ∈ cells, (impTopLoop ai opp cells bv bm rng).1 =
      ⟨((q / 3 : Nat) : Int), ((q % 3 : Nat) : Int)⟩ := by
  match cells, hne with
  | pos :: rest, _ =>
    have hgt := h pos (List.mem_cons_self _ _) rng
    simp only [impTopLoop]
    rw [if_pos hgt]
    rcases impTopLoop_mem ai opp rest _
        ⟨((pos / 3 : Nat) : Int), ((pos % 3 : Nat) : Int)⟩ _
      with h2 | ⟨q, hq, hqe⟩
    · exact ⟨pos, List.mem_cons_self _ _, h2⟩
    · exact ⟨q, List.mem_cons_of_mem _ hq, hqe⟩

theorem findBestMoveImperfect_valid (board : List Char)
    (hwf : wfBoard board) (i : Nat) (hi : i < 9)
    (hfree : board.getD i ' ' = ' ') (sym : Char) (rng : List Nat) :
    validMoveFor board (findBestMoveImperfect board sym rng).1 := by
  have hint : aiMaskOf board sym ||| oppMaskOf board sym =
      (boardToMasks board).1 ||| (boardToMasks board).2 := aiMaskOf_occ _ _
  have hfreeO : (aiMaskOf board sym ||| oppMaskOf board sym) &&&
      (1 <<< i) = 0 := by
    rw [hint]
    exact (free_cell_bridge_wf board hwf i hi).mpr hfree
  have hlt := aiMaskOf_occ_lt board sym
  have hvalid : ∀ q, q < 9 →
      (aiMaskOf board sym ||| oppMaskOf board sym) &&& (1 <<< q) = 0 →
      board.getD q ' ' = ' ' := by
    intro q hq hfq
    rw [hint] at hfq
    exact (free_cell_bridge_wf board hwf q hq).mp hfq
  have hnn : emptyCellsList
      (aiMaskOf board sym ||| oppMaskOf board sym) ≠ [] :=
    emptyCellsList_ne_nil _ ⟨i, hi, hfreeO⟩
  have hlenR : ¬((emptyCellsList
      ((getPlayerMasks (boardToMasks board).1 (boardToMasks board).2
          sym).1 |||
        (getPlayerMasks (boardToMasks board).1 (boardToMasks board).2
          sym).2)).length = 0) :=
    fun h => hnn (List.length_eq_zero.mp h)
  have hshP : ∀ x ∈ (shuffle (emptyCellsList
      (aiMaskOf board sym ||| oppMaskOf board sym)) rng).1,
      x < 9 ∧ (aiMaskOf board sym ||| oppMaskOf board sym) &&&
        (1 <<< x) = 0 := by
    apply shuffle_prop
    intro x hx
    exact (emptyCellsList_mem _ x).mp hx
  have hshne : (shuffle (emptyCellsList
      (aiMaskOf board sym ||| oppMaskOf board sym)) rng).1 ≠ [] :=
    shuffle_ne_nil _ _ hnn
  have hscore : ∀ pos ∈ (shuffle (emptyCellsList
      (aiMaskOf board sym ||| oppMaskOf board sym)) rng).1,
      ∀ r' : List Nat, (-1000 : Int) <
        (impSearchF 6 (aiMaskOf board sym ||| (1 <<< pos))
          (oppMaskOf board sym) 1 (-1000) 1000 false r').1 := by
    intro pos hpos r'
    obtain ⟨hp9, hpf⟩ := hshP pos hpos
    have hocc : (aiMaskOf board sym ||| (1 <<< pos)) |||
        oppMaskOf board sym =
        (aiMaskOf board sym ||| oppMaskOf board sym) ||| (1 <<< pos) :=
      child_occ_max _ _ ⟨pos, hp9⟩
    have hlt2 : (aiMaskOf board sym ||| (1 <<< pos)) |||
        oppMaskOf board sym < 512 := by
      rw [hocc]
      exact Nat.or_lt_two_pow (n := 9) hlt (shiftN_lt_512 pos hp9)
    have hb := impSearchF_bounds 6 _ _ 1 (-1000) 1000 false r' hlt2
      (by omega)
    omega
  obtain ⟨q, hq, hqe⟩ := impTopLoop_update (aiMaskOf board sym)
    (oppMaskOf board sym)
    (shuffle (emptyCellsList
      (aiMaskOf board sym ||| oppMaskOf board sym)) rng).1
    (-1000) ⟨-1, -1⟩
    (shuffle (emptyCellsList
      (aiMaskOf board sym ||| oppMaskOf board sym)) rng).2
    hshne hscore
  obtain ⟨hq9, hqf⟩ := hshP q hq
  have hqe2 : (impTopLoop
      (getPlayerMasks (boardToMasks board).1 (boardToMasks board).2 sym).1
      (getPlayerMasks (boardToMasks board).1 (boardToMasks board).2 sym).2
      (shuffle (emptyCellsList
        ((getPlayerMasks (boardToMasks board).1 (boardToMasks board).2
            sym).1 |||
          (getPlayerMasks (boardToMasks board).1 (boardToMasks board).2
            sym).2)) rng).1
      (-1000) ⟨-1, -1⟩
      (shuffle (emptyCellsList
        ((getPlayerMasks (boardToMasks board).1 (boardToMasks board).2
            sym).1 |||
          (getPlayerMasks (boardToMasks board).1 (boardToMasks board).2
            sym).2)) rng).2).1 =
      ⟨((q / 3 : Nat) : Int), ((q % 3 : Nat) : Int)⟩ := hqe
  simp only [findBestMoveImperfect]
  rw [if_neg hlenR]
  rw [hqe2]
  exact validMoveFor_pos board q hq9 (hvalid q hq9 hqf)

/-- C7: on every well-formed full board (no empty cell) all four
`findBestMove` implementations return the sentinel `{-1,-1}` (and the
stream- or board-carrying variants leave their stream or board
untouched), and on every well-formed board with at least one empty
cell each returns a move with coordinates in `[0,2] x [0,2]` whose
row-major target cell is empty — for every mover symbol, error rate
and random stream. -/
theorem findBestMove_totality (board : List Char) (hwf : wfBoard board) :
    ((∀ i, i < 9 → board.getD i ' ' ≠ ' ') →
      (∀ (sym : Char) (p : Int) (rng : List Nat),
        findBestMoveMinimax board sym p rng = (⟨-1, -1⟩, rng)) ∧
      (∀ sym : Char, findBestMovePerfect board sym = ⟨-1, -1⟩) ∧
      (∀ (sym : Char) (rng : List Nat),
        findBestMoveImperfect board sym rng = (⟨-1, -1⟩, rng)) ∧
      findBestMoveModel board = (⟨-1, -1⟩, board)) ∧
    ((∃ i, i < 9 ∧ board.getD i ' ' = ' ') →
      (∀ (sym : Char) (p : Int) (rng : List Nat),
        validMoveFor board (findBestMoveMinimax board sym p rng).1) ∧
      (∀ sym : Char, validMoveFor board (findBestMovePerfect board sym)) ∧
      (∀ (sym : Char) (rng : List Nat),
        validMoveFor board (findBestMoveImperfect board sym rng).1) ∧
      validMoveFor board (findBestMoveModel board).1) := by
  constructor
  · intro hfull
    exact ⟨fun sym p rng => findBestMoveMinimax_full board hwf hfull sym p rng,
      fun sym => findBestMovePerfect_full board hwf hfull sym,
      fun sym rng => findBestMoveImperfect_full board hwf hfull sym rng,
      findBestMoveModel_full board hfull⟩
  · intro hex
    obtain ⟨i, hi, hfree⟩ := hex
    exact ⟨fun sym p rng =>
        findBestMoveMinimax_valid board hwf i hi hfree sym p rng,
      fun sym => findBestMovePerfect_valid board hwf i hi hfree sym,
      fun sym rng => findBestMoveImperfect_valid board hwf i hi hfree sym rng,
      findBestMoveModel_valid board i hi hfree⟩

theorem findBestMove_totality_witness :
    wfBoard ['X', 'O', 'X', 'O', 'X', 'O', 'O', 'X', 'O'] ∧
      (∀ i, i < 9 →
        ['X', 'O', 'X', 'O', 'X', 'O', 'O', 'X', 'O'].getD i ' ' ≠ ' ') ∧
      findBestMoveMinimax ['X', 'O', 'X', 'O', 'X', 'O', 'O', 'X', 'O']
        'X' 0 [3] = (⟨-1, -1⟩, [3]) ∧
      wfBoard ['X', 'X', ' ', 'O', 'O', 'X', 'O', 'X', ' '] ∧
      (2 < 9 ∧
        ['X', 'X', ' ', 'O', 'O', 'X', 'O', 'X', ' '].getD 2 ' ' = ' ') ∧
      validMoveFor ['X', 'X', ' ', 'O', 'O', 'X', 'O', 'X', ' ']
        (findBestMovePerfect ['X', 'X', ' ', 'O', 'O', 'X', 'O', 'X', ' ']
          'X') :=
  ⟨⟨rfl, by decide⟩, by decide,
    ((findBestMove_totality ['X', 'O', 'X', 'O', 'X', 'O', 'O', 'X', 'O']
        ⟨rfl, by decide⟩).1 (by decide)).1 'X' 0 [3],
    ⟨rfl, by decide⟩, ⟨by decide, by decide⟩,
    ((findBestMove_totality ['X', 'X', ' ', 'O', 'O', 'X', 'O', 'X', ' ']
        ⟨rfl, by decide⟩).2 ⟨2, by decide, by decide⟩).2.1 'X'⟩

theorem npLoopF_congr (child1 child2 : Nat → Nat → Bool → Int)
    (p o : Nat) (moves : List (Fin 9)) :
    ∀ (m : Bool) (best : Int),
      (∀ pos ∈ moves, (p ||| o) &&& (1 <<< (pos : Nat)) = 0 →
        ∀ m' : Bool,
          child1 (p ||| (1 <<< (pos : Nat))) o m' =
            child2 (p ||| (1 <<< (pos : Nat))) o m' ∧
          child1 p (o ||| (1 <<< (pos : Nat))) m' =
            child2 p (o ||| (1 <<< (pos : Nat))) m') →
      npLoopF child1 p o m moves best = npLoopF child2 p o m moves best := by
  induction moves with
  | nil => intro m best _; rfl
  | cons pos rest ih =>
    intro m best h
    have hrest := fun q hq => h q (List.mem_cons_of_mem _ hq)
    by_cases hfree : (p ||| o) &&& (1 <<< (pos : Nat)) = 0
    · have hc := h pos (List.mem_cons_self _ _) hfree
      cases m with
      | true =>
        rw [npLoopF_cons_max child1 p o pos rest best hfree,
          npLoopF_cons_max child2 p o pos rest best hfree,
          (hc false).1]
        exact ih true _ hrest
      | false =>
        rw [npLoopF_cons_min child1 p o pos rest best hfree,
          npLoopF_cons_min child2 p o pos rest best hfree,
          (hc true).2]
        exact ih false _ hrest
    · rw [npLoopF_cons_skip child1 p o m pos rest best hfree,
        npLoopF_cons_skip child2 p o m pos rest best hfree]
      exact ih m best hrest

theorem npSearchF_fuel_eq (f1 : Nat) :
    ∀ (f2 : Nat) (p o d : Nat) (m : Bool), p ||| o < 512 →
      freeCount (p ||| o) < f1 → freeCount (p ||| o) < f2 →
      npSearchF MOVE_ORDER f1 p o d m = npSearchF MOVE_ORDER f2 p o d m := by
  induction f1 with
  | zero => intro f2 p o d m _ h1 _; omega
  | succ f1 ih =>
    intro f2 p o d m hlt h1 h2
    match f2, h2 with
    | f2 + 1, h2 =>
      simp only [npSearchF]
      by_cases hwp : isWinnerMask p
      · rw [if_pos hwp, if_pos hwp]
      rw [if_neg hwp, if_neg hwp]
      by_cases hwo : isWinnerMask o
      · rw [if_pos hwo, if_pos hwo]
      rw [if_neg hwo, if_neg hwo]
      by_cases hfull : p ||| o = 0x1FF
      · rw [if_pos hfull, if_pos hfull]
      rw [if_neg hfull, if_neg hfull]
      apply npLoopF_congr
      intro pos _ hfree m'
      have hfc := freeCount_or_lt (p ||| o) (pos : Nat) pos.isLt hfree
      constructor
      · have hocc : (p ||| (1 <<< (pos : Nat))) ||| o =
            (p ||| o) ||| (1 <<< (pos : Nat)) := child_occ_max p o pos
        apply ih
        · rw [hocc]; exact child_lt_512 p o pos hlt
        · rw [hocc]; omega
        · rw [hocc]; omega
      · have hocc : p ||| (o ||| (1 <<< (pos : Nat))) =
            (p ||| o) ||| (1 <<< (pos : Nat)) := child_occ_min p o pos
        apply ih
        · rw [hocc]; exact child_lt_512 p o pos hlt
        · rw [hocc]; omega
        · rw [hocc]; omega

theorem np_unfold (p o d : Nat) (m : Bool)
    (hwp : isWinnerMask p = false) (hwo : isWinnerMask o = false)
    (hnf : ¬(p ||| o = 0x1FF)) :
    minimax_masks_no_pruning p o d m =
      npLoopF (fun p1 o1 mm => npSearchF MOVE_ORDER 9 p1 o1 (d + 1) mm)
        p o m MOVE_ORDER (if m then -1000 else 1000) := by
  unfold minimax_masks_no_pruning
  rw [show (10 : Nat) = 9 + 1 from rfl]
  simp only [npSearchF]
  rw [if_neg (by simp [hwp]), if_neg (by simp [hwo]), if_neg hnf]

theorem np_child_fuel (p o : Nat) (pos : Fin 9) (d1 : Nat) (m : Bool)
    (hlt : p ||| o < 512)
    (hfree : (p ||| o) &&& (1 <<< (pos : Nat)) = 0) :
    (npSearchF MOVE_ORDER 9 (p ||| (1 <<< (pos : Nat))) o d1 m =
      minimax_masks_no_pruning (p ||| (1 <<< (pos : Nat))) o d1 m) ∧
    (npSearchF MOVE_ORDER 9 p (o ||| (1 <<< (pos : Nat))) d1 m =
      minimax_masks_no_pruning p (o ||| (1 <<< (pos : Nat))) d1 m) := by
  have hfc := freeCount_or_lt (p ||| o) (pos : Nat) pos.isLt hfree
  have hfc9 := freeCount_le_nine (p ||| o)
  constructor
  · have hocc : (p ||| (1 <<< (pos : Nat))) ||| o =
        (p ||| o) ||| (1 <<< (pos : Nat)) := child_occ_max p o pos
    apply npSearchF_fuel_eq
    · rw [hocc]; exact child_lt_512 p o pos hlt
    · rw [hocc]; omega
    · rw [hocc]; omega
  · have hocc : p ||| (o ||| (1 <<< (pos : Nat))) =
        (p ||| o) ||| (1 <<< (pos : Nat)) := child_occ_min p o pos
    apply npSearchF_fuel_eq
    · rw [hocc]; exact child_lt_512 p o pos hlt
    · rw [hocc]; omega
    · rw [hocc]; omega

theorem np_max_nonneg_iff (p o d : Nat) (hlt : p ||| o < 512)
    (hwp : isWinnerMask p = false) (hwo : isWinnerMask o = false)
    (hnf : ¬(p ||| o = 0x1FF)) :
    0 ≤ minimax_masks_no_pruning p o d true ↔
      ∃ pos : Fin 9, (p ||| o) &&& (1 <<< (pos : Nat)) = 0 ∧
        0 ≤ minimax_masks_no_pruning (p ||| (1 <<< (pos : Nat))) o
          (d + 1) false := by
  rw [np_unfold p o d true hwp hwo hnf, if_pos rfl]
  rw [npLoopF_max_lb_iff]
  constructor
  · rintro (h | ⟨pos, _, hfree, hc⟩)
    · omega
    · rw [(np_child_fuel p o pos (d + 1) false hlt hfree).1] at hc
      exact ⟨pos, hfree, hc⟩
  · rintro ⟨pos, hfree, hc⟩
    rw [← (np_child_fuel p o pos (d + 1) false hlt hfree).1] at hc
    exact Or.inr ⟨pos, move_order_covers pos, hfree, hc⟩

theorem np_min_nonneg_iff (p o d : Nat) (hlt : p ||| o < 512)
    (hwp : isWinnerMask p = false) (hwo : isWinnerMask o = false)
    (hnf : ¬(p ||| o = 0x1FF)) :
    0 ≤ minimax_masks_no_pruning p o d false ↔
      ∀ pos : Fin 9, (p ||| o) &&& (1 <<< (pos : Nat)) = 0 →
        0 ≤ minimax_masks_no_pruning p (o ||| (1 <<< (pos : Nat)))
          (d + 1) true := by
  rw [np_unfold p o d false hwp hwo hnf, if_neg (by decide)]
  rw [npLoopF_min_lb_iff]
  constructor
  · rintro ⟨_, h⟩ pos hfree
    have hc := h pos (move_order_covers pos) hfree
    rw [(np_child_fuel p o pos (d + 1) true hlt hfree).2] at hc
    exact hc
  · intro h
    refine ⟨by omega, fun pos _ hfree => ?_⟩
    rw [(np_child_fuel p o pos (d + 1) true hlt hfree).2]
    exact h pos hfree

theorem np_sign_invar (fuel : Nat) :
    ∀ (p o d1 d2 : Nat) (m : Bool), p ||| o < 512 →
      d1 + freeCount (p ||| o) ≤ 9 → d2 + freeCount (p ||| o) ≤ 9 →
      (0 ≤ npSearchF MOVE_ORDER fuel p o d1 m ↔
        0 ≤ npSearchF MOVE_ORDER fuel p o d2 m) := by
  induction fuel with
  | zero => intro p o d1 d2 m _ _ _; exact Iff.rfl
  | succ fuel ih =>
    intro p o d1 d2 m hlt hd1 hd2
    simp only [npSearchF]
    by_cases hwp : isWinnerMask p
    · rw [if_pos hwp, if_pos hwp]
      constructor <;> intro <;> omega
    rw [if_neg hwp, if_neg hwp]
    by_cases hwo : isWinnerMask o
    · rw [if_pos hwo, if_pos hwo]
      constructor <;> intro <;> omega
    rw [if_neg hwo, if_neg hwo]
    by_cases hfull : p ||| o = 0x1FF
    · rw [if_pos hfull, if_pos hfull]
    rw [if_neg hfull, if_neg hfull]
    have hchild : ∀ (pos : Fin 9), (p ||| o) &&& (1 <<< (pos : Nat)) = 0 →
        ∀ m' : Bool,
        (0 ≤ npSearchF MOVE_ORDER fuel (p ||| (1 <<< (pos : Nat))) o
            (d1 + 1) m' ↔
          0 ≤ npSearchF MOVE_ORDER fuel (p ||| (1 <<< (pos : Nat))) o
            (d2 + 1) m') ∧
        (0 ≤ npSearchF MOVE_ORDER fuel p (o ||| (1 <<< (pos : Nat)))
            (d1 + 1) m' ↔
          0 ≤ npSearchF MOVE_ORDER fuel p (o ||| (1 <<< (pos : Nat)))
            (d2 + 1) m') := by
      intro pos hfree m'
      have hfc := freeCount_or_lt (p ||| o) (pos : Nat) pos.isLt hfree
      constructor
      · have hocc : (p ||| (1 <<< (pos : Nat))) ||| o =
            (p ||| o) ||| (1 <<< (pos : Nat)) := child_occ_max p o pos
        apply ih
        · rw [hocc]; exact child_lt_512 p o pos hlt
        · rw [hocc]; omega
        · rw [hocc]; omega
      · have hocc : p ||| (o ||| (1 <<< (pos : Nat))) =
            (p ||| o) ||| (1 <<< (pos : Nat)) := child_occ_min p o pos
        apply ih
        · rw [hocc]; exact child_lt_512 p o pos hlt
        · rw [hocc]; omega
        · rw [hocc]; omega
    cases m with
    | true =>
      rw [if_pos rfl]
      rw [npLoopF_max_lb_iff, npLoopF_max_lb_iff]
      constructor
      · rintro (h | ⟨pos, hm, hf, hc⟩)
        · omega
        · exact Or.inr ⟨pos, hm, hf, ((hchild pos hf false).1).mp hc⟩
      · rintro (h | ⟨pos, hm, hf, hc⟩)
        · omega
        · exact Or.inr ⟨pos, hm, hf, ((hchild pos hf false).1).mpr hc⟩
    | false =>
      rw [if_neg (by decide)]
      rw [npLoopF_min_lb_iff, npLoopF_min_lb_iff]
      constructor
      · rintro ⟨_, h⟩
        exact ⟨by omega, fun pos hm hf =>
          ((hchild pos hf true).2).mp (h pos hm hf)⟩
      · rintro ⟨_, h⟩
        exact ⟨by omega, fun pos hm hf =>
          ((hchild pos hf true).2).mpr (h pos hm hf)⟩

theorem moveScore_eq_np (ai opp : Nat) (q : Fin 9)
    (hlt : ai ||| opp < 512) :
    moveScore ai opp q =
      minimax_masks_no_pruning (ai ||| (1 <<< (q : Nat))) opp 1 false := by
  have hocc := child_occ_max ai opp q
  have hlt2 : (ai ||| (1 <<< (q : Nat))) ||| opp < 512 := by
    rw [hocc]; exact child_lt_512 ai opp q hlt
  have hfc9 := freeCount_le_nine ((ai ||| (1 <<< (q : Nat))) ||| opp)
  unfold moveScore minimax_masks minimax_masks_no_pruning
  exact abSearchF_eq_np MOVE_ORDER move_order_covers 10 _ _ 1 false hlt2
    (by omega)

theorem engineMove_spec (ai opp : Nat) (r : Nat) (hlt : ai ||| opp < 512)
    (pos : Fin 9) (hfree : (ai ||| opp) &&& (1 <<< (pos : Nat)) = 0) :
    ∃ q : Fin 9, (ai ||| opp) &&& (1 <<< (q : Nat)) = 0 ∧
      engineMovePos ai opp r = (q : Nat) ∧
      (bestCandidates ai opp).getD
        (r % (bestCandidates ai opp).length) ⟨-1, -1⟩ = posToMove q ∧
      moveScore ai opp q = maxScoreOver ai opp MOVE_ORDER (-1000) := by
  obtain ⟨hfilter, hne⟩ := bestCandidates_spec ai opp hlt pos hfree
  have hlen : 0 < (bestCandidates ai opp).length := List.length_pos.mpr hne
  have hmem : (bestCandidates ai opp).getD
      (r % (bestCandidates ai opp).length) ⟨-1, -1⟩ ∈
      bestCandidates ai opp :=
    getD_mem_of_lt _ _ _ (Nat.mod_lt _ hlen)
  obtain ⟨x, hxmem, hxeq⟩ : ∃ x, x ∈ bestCandidates ai opp ∧
      (bestCandidates ai opp).getD
        (r % (bestCandidates ai opp).length) ⟨-1, -1⟩ = x :=
    ⟨_, hmem, rfl⟩
  rw [hfilter] at hxmem
  obtain ⟨q, hq, hmap⟩ := List.mem_map.mp hxmem
  rw [List.mem_filter] at hq
  have hq2 := hq.2
  rw [Bool.and_eq_true, decide_eq_true_eq, decide_eq_true_eq] at hq2
  have hgetD : (bestCandidates ai opp).getD
      (r % (bestCandidates ai opp).length) ⟨-1, -1⟩ = posToMove q := by
    rw [hxeq, ← hmap]
  refine ⟨q, hq2.1, ?_, hgetD, hq2.2⟩
  show (((bestCandidates ai opp).getD
      (r % (bestCandidates ai opp).length) ⟨-1, -1⟩).row * 3 +
    ((bestCandidates ai opp).getD
      (r % (bestCandidates ai opp).length) ⟨-1, -1⟩).col).toNat = (q : Nat)
  rw [hgetD]
  show ((((q : Nat) / 3 : Nat) : Int) * 3 +
    (((q : Nat) % 3 : Nat) : Int)).toNat = (q : Nat)
  omega

theorem engine_step_value (ai opp : Nat) (r : Nat)
    (hlt : ai ||| opp < 512)
    (hwp : isWinnerMask ai = false) (hwo : isWinnerMask opp = false)
    (hnf : ¬(ai ||| opp = 511))
    (hval : 0 ≤ minimax_masks_no_pruning ai opp 0 true) :
    engineMovePos ai opp r < 9 ∧
    (ai ||| opp) &&& (1 <<< engineMovePos ai opp r) = 0 ∧
    0 ≤ minimax_masks_no_pruning
      (ai ||| (1 <<< engineMovePos ai opp r)) opp 0 false := by
  obtain ⟨pos, hposf, hposv⟩ :=
    (np_max_nonneg_iff ai opp 0 hlt hwp hwo hnf).mp hval
  obtain ⟨q, hqf, hqeq, _, hqmax⟩ := engineMove_spec ai opp r hlt pos hposf
  have hms : 0 ≤ moveScore ai opp pos := by
    rw [moveScore_eq_np ai opp pos hlt]
    exact hposv
  have hmax : 0 ≤ maxScoreOver ai opp MOVE_ORDER (-1000) := by
    unfold maxScoreOver
    rw [npLoopF_max_lb_iff]
    exact Or.inr ⟨pos, move_order_covers pos, hposf, hms⟩
  have hqv : 0 ≤ moveScore ai opp q := hqmax ▸ hmax
  have h1 : 0 ≤ minimax_masks_no_pruning (ai ||| (1 <<< (q : Nat))) opp
      1 false := by
    rw [← moveScore_eq_np ai opp q hlt]
    exact hqv
  have hocc := child_occ_max ai opp q
  have hlt2 : (ai ||| (1 <<< (q : Nat))) ||| opp < 512 := by
    rw [hocc]; exact child_lt_512 ai opp q hlt
  have hfcq := freeCount_or_lt (ai ||| opp) (q : Nat) q.isLt hqf
  have hfc9 := freeCount_le_nine (ai ||| opp)
  have h0 : 0 ≤ minimax_masks_no_pruning (ai ||| (1 <<< (q : Nat))) opp
      0 false :=
    (np_sign_invar 10 (ai ||| (1 <<< (q : Nat))) opp 1 0 false hlt2
      (by rw [hocc]; omega) (by rw [hocc]; omega)).mp h1
  rw [hqeq]
  exact ⟨q.isLt, hqf, h0⟩

theorem engineSafe_of_nonneg (fuel : Nat) :
    ∀ (ai opp : Nat) (turn : Bool),
      ai ||| opp < 512 →
      freeCount (ai ||| opp) ≤ fuel →
      isWinnerMask opp = false →
      (turn = true → 0 ≤ minimax_masks_no_pruning ai opp 0 true) →
      (turn = false → isWinnerMask ai = false →
        0 ≤ minimax_masks_no_pruning ai opp 0 false) →
      engineSafeM fuel ai opp turn := by
  induction fuel with
  | zero => intro ai opp turn _ _ hwo _ _; exact hwo
  | succ fuel ih =>
    intro ai opp turn hlt hfc hwo hvmax hvmin
    show isWinnerMask opp = false ∧ _
    refine ⟨hwo, ?_⟩
    by_cases hwp : isWinnerMask ai = true
    · exact Or.inl hwp
    have hwp2 : isWinnerMask ai = false := by
      cases h : isWinnerMask ai
      · rfl
      · exact absurd h hwp
    by_cases hfull : ai ||| opp = 511
    · exact Or.inr (Or.inl hfull)
    refine Or.inr (Or.inr ?_)
    cases turn with
    | true =>
      rw [if_pos rfl]
      intro r
      obtain ⟨hlt9, hqf, hqv⟩ :=
        engine_step_value ai opp r hlt hwp2 hwo hfull (hvmax rfl)
      have hocc : (ai ||| (1 <<< engineMovePos ai opp r)) ||| opp =
          (ai ||| opp) ||| (1 <<< engineMovePos ai opp r) :=
        child_occ_max ai opp ⟨engineMovePos ai opp r, hlt9⟩
      have hfcq := freeCount_or_lt (ai ||| opp) (engineMovePos ai opp r)
        hlt9 hqf
      apply ih
      · rw [hocc]
        exact child_lt_512 ai opp ⟨engineMovePos ai opp r, hlt9⟩ hlt
      · rw [hocc]; omega
      · exact hwo
      · intro h; exact absurd h (by decide)
      · exact fun _ _ => hqv
    | false =>
      rw [if_neg (by decide)]
      intro pos hfree
      have hval := hvmin rfl hwp2
      have hcv : 0 ≤ minimax_masks_no_pruning ai
          (opp ||| (1 <<< (pos : Nat))) 1 true :=
        (np_min_nonneg_iff ai opp 0 hlt hwp2 hwo hfull).mp hval pos hfree
      have hwo2 : isWinnerMask (opp ||| (1 <<< (pos : Nat))) = false := by
        cases h : isWinnerMask (opp ||| (1 <<< (pos : Nat)))
        · rfl
        · exfalso
          have hbad : minimax_masks_no_pruning ai
              (opp ||| (1 <<< (pos : Nat))) 1 true = -10 + (1 : Int) := by
            unfold minimax_masks_no_pruning
            rw [show (10 : Nat) = 9 + 1 from rfl]
            simp only [npSearchF]
            rw [if_neg (by simp [hwp2]), if_pos (by simp [h])]
            norm_num
          omega
      have hocc := child_occ_min ai opp pos
      have hlt2 : ai ||| (opp ||| (1 <<< (pos : Nat))) < 512 := by
        rw [hocc]; exact child_lt_512 ai opp pos hlt
      have hfcq := freeCount_or_lt (ai ||| opp) (pos : Nat) pos.isLt hfree
      have hfc9 := freeCount_le_nine (ai ||| opp)
      have hcv0 : 0 ≤ minimax_masks_no_pruning ai
          (opp ||| (1 <<< (pos : Nat))) 0 true :=
        (np_sign_invar 10 ai (opp ||| (1 <<< (pos : Nat))) 1 0 true hlt2
          (by rw [hocc]; omega) (by rw [hocc]; omega)).mp hcv
      apply ih
      · exact hlt2
      · rw [hocc]; omega
      · exact hwo2
      · exact fun _ => hcv0
      · intro h; exact absurd h (by decide)

/-- C1: from any engine-to-move mask state that is not already lost
(the opponent holds no winning line and the position's full-depth
minimax value is non-negative, which holds in particular at every
state a Deterministic-optimal engine playing from the start can reach
on its turn), the game tree in which the engine always plays the move
`findBestMoveMinimax` (error rate 0) returns — for every tie-break
draw — and the opponent plays arbitrarily never reaches a board where
the opponent has a winning line: play stops only in an engine win or
a draw.  The second conjunct identifies the abstract engine move used
in the safety tree with the move `findBestMoveMinimax` returns on any
matching board. -/
theorem deterministic_optimal_never_loses (ai opp : Nat)
    (hlt : ai ||| opp < 512)
    (hwo : isWinnerMask opp = false)
    (hval : 0 ≤ minimax_masks_no_pruning ai opp 0 true) :
    engineSafeM 9 ai opp true ∧
    (∀ (board : List Char) (sym : Char) (r : Nat) (rest : List Nat),
      wfBoard board → aiMaskOf board sym = ai → oppMaskOf board sym = opp →
      (∃ i, i < 9 ∧ board.getD i ' ' = ' ') →
      (findBestMoveMinimax board sym 0 (r :: rest)).1 =
        ⟨((engineMovePos ai opp r / 3 : Nat) : Int),
         ((engineMovePos ai opp r % 3 : Nat) : Int)⟩) := by
  constructor
  · exact engineSafe_of_nonneg 9 ai opp true hlt (freeCount_le_nine _) hwo
      (fun _ => hval) (fun h => absurd h (by decide))
  · intro board sym r rest hwf hA hO hex
    obtain ⟨i, hi, hif⟩ := hex
    subst hA
    subst hO
    have hfreeO : (aiMaskOf board sym ||| oppMaskOf board sym) &&&
        (1 <<< i) = 0 := by
      rw [aiMaskOf_occ]
      exact (free_cell_bridge_wf board hwf i hi).mpr hif
    have hlt2 := aiMaskOf_occ_lt board sym
    obtain ⟨q, hqf, hqeq, hgetD, _⟩ := engineMove_spec (aiMaskOf board sym)
      (oppMaskOf board sym) r hlt2 ⟨i, hi⟩ hfreeO
    rw [findBestMoveMinimax_zero_eq board sym (r :: rest) i hi
      (by rw [hif]; exact ⟨by decide, by decide⟩)]
    show (bestCandidates (aiMaskOf board sym) (oppMaskOf board sym)).getD
        ((r :: rest).headD 0 %
          (bestCandidates (aiMaskOf board sym)
            (oppMaskOf board sym)).length) ⟨-1, -1⟩ = _
    rw [show (r :: rest).headD 0 = r from rfl, hgetD, hqeq]
    rfl

theorem deterministic_optimal_never_loses_witness :
    (3 ||| 24 < 512) ∧ isWinnerMask 24 = false ∧
      0 ≤ minimax_masks_no_pruning 3 24 0 true ∧
      engineSafeM 9 3 24 true :=
  ⟨by decide, by decide, by decide,
    (deterministic_optimal_never_loses 3 24 (by decide) (by decide)
      (by decide)).1⟩
